import Mathlib

/-!
# The swish SQLite bridge (`src/swish/sqlite.c`)

A shallow embedding of the per-database worker protocol, the statement list and
the text bridge of `sqlite.c`, followed by the properties proved about them.

Conventions of the embedding:

* pointers are natural numbers, `NULL` is `none`;
* a result of `none` stands for undefined behaviour of the C code (a read
  through a dangling pointer, a read past a buffer, signed overflow of an
  `int`), or for a loop model that ran out of fuel;
* calls into SQLite, libuv and the Scheme runtime are recorded as `Event`s, and
  what they answer is passed in as an argument.
-/

namespace Swish

/-! ## Scheme values -/

/-- Scheme values (`ptr`) as far as `sqlite.c` builds or inspects them. A string
is the list of its character codes. -/
inductive ptr where
  | Svoid
  | Strue
  | Sfalse
  | integer (n : Int)
  | flonum (bits : Nat)
  | string (chars : List Nat)
  | symbol (name : String)
  | pair (a d : ptr)
  | vector (items : List ptr)
  | bytevector (bytes : List Nat)
  | procedure (id : Nat)

/-- Test `Spairp` of the Scheme runtime. -/
def Spairp : ptr → Bool
  | .pair _ _ => true
  | _ => false

/-! ## Constants of libuv and SQLite -/

/-- Value of `UV_EBUSY` in libuv (`-EBUSY` on Linux). -/
def UV_EBUSY : Int := -16
/-- Value of `UV_EINVAL` in libuv (`-EINVAL` on Linux). -/
def UV_EINVAL : Int := -22
/-- Value of `UV_ENOMEM` in libuv (`-ENOMEM` on Linux). -/
def UV_ENOMEM : Int := -12
/-- Value of `UV_ECHARSET` in libuv. -/
def UV_ECHARSET : Int := -4080

/-- Value of `SQLITE_OK` in sqlite3.h. -/
def SQLITE_OK : Int := 0
/-- Value of `SQLITE_NOMEM` in sqlite3.h. -/
def SQLITE_NOMEM : Int := 7
/-- Value of `SQLITE_TOOBIG` in sqlite3.h. -/
def SQLITE_TOOBIG : Int := 18
/-- Value of `SQLITE_ROW` in sqlite3.h. -/
def SQLITE_ROW : Int := 100
/-- Value of `SQLITE_DONE` in sqlite3.h. -/
def SQLITE_DONE : Int := 101

/-- Largest value of a C `int`. -/
def INT_MAX : Nat := 2147483647

/-- Modelled from the spec: `make_error_pair` is declared in `osi.h`, which is
not among the sources. Section 4.2 describes the failure value as the pair
`(who, code)` of a symbol naming the operation and an integer code. -/
def make_error_pair (who : String) (code : Int) : ptr :=
  .pair (.symbol who) (.integer code)

/-! ## Text bridge -/

/-- First loop of `string_to_utf8`: the number of bytes of the encoding. -/
def utf8_length : List Nat → Nat
  | [] => 0
  | c :: s =>
    (if c < 0x80 then 1
     else if c < 0x800 then 2
     else if c < 0x10000 then 3
     else 4) + utf8_length s

/-- Second loop of `string_to_utf8`: the bytes stored through `utf8`, each
truncated to a `char`. -/
def utf8_bytes : List Nat → List Nat
  | [] => []
  | c :: s =>
    (if c < 0x80 then
      [c % 256]
    else if c < 0x800 then
      [((c >>> 6) ||| 0xC0) % 256, ((c &&& 0x3F) ||| 0x80) % 256]
    else if c < 0x10000 then
      [((c >>> 12) ||| 0xE0) % 256, (((c >>> 6) &&& 0x3F) ||| 0x80) % 256,
        ((c &&& 0x3F) ||| 0x80) % 256]
    else
      [((c >>> 18) ||| 0xF0) % 256, (((c >>> 12) &&& 0x3F) ||| 0x80) % 256,
        (((c >>> 6) &&& 0x3F) ||| 0x80) % 256, ((c &&& 0x3F) ||| 0x80) % 256]) ++ utf8_bytes s

/-- Function `string_to_utf8` on the characters of the Scheme string `s`.
`malloc_ok` tells whether `malloc(len)` succeeds. The result is the returned
buffer (`none` for `NULL`) and the value stored in `*utf8_len`. The length is
a `size_t` and a string held in memory has fewer than 2^62 characters, so the
sum of at most four bytes for each character does not wrap. -/
def string_to_utf8 (malloc_ok : Bool) (s : List Nat) : Option (List Nat) × Nat :=
  let len := utf8_length s
  if malloc_ok then (some (utf8_bytes s), len) else (none, 0)

/-- First loop of `make_scheme_string2`, which counts the characters in `len`
and checks lead and continuation bytes. `s` is the rest of the buffer from the
pointer `s` on and `count` the remaining length. The result is `none` for
undefined behaviour (a read past the buffer, overflow of the `int` counter
`len`), `some (.error e)` when the loop returns the failure value `e`, and
`some (.ok len)` when the loop ends. Every iteration consumes a byte, so `fuel`
equal to the initial `count` is enough. -/
def count_chars : Nat → List Nat → Nat → Nat → Option (Except ptr Nat)
  | 0, _, count, len => if count > 0 then none else some (.ok len)
  | fuel + 1, s, count, len =>
    if count > 0 then
      match s[0]? with
      | none => none
      | some uc =>
        if len + 1 > INT_MAX then none
        else if uc &&& 0x80 = 0 then
          count_chars fuel (s.drop 1) (count - 1) (len + 1)
        else if uc &&& 0x40 = 0 then
          some (.error (make_error_pair "make_scheme_string" UV_ECHARSET))
        else if uc &&& 0x20 = 0 then
          if count ≥ 2 then
            match s[1]? with
            | none => none
            | some s1 =>
              if s1 &&& 0xC0 = 0x80 then
                count_chars fuel (s.drop 2) (count - 2) (len + 1)
              else some (.error (make_error_pair "make_scheme_string" UV_ECHARSET))
          else some (.error (make_error_pair "make_scheme_string" UV_ECHARSET))
        else if uc &&& 0x10 = 0 then
          if count ≥ 3 then
            match s[1]? with
            | none => none
            | some s1 =>
              if s1 &&& 0xC0 = 0x80 then
                match s[2]? with
                | none => none
                | some s2 =>
                  if s2 &&& 0xC0 = 0x80 then
                    count_chars fuel (s.drop 3) (count - 3) (len + 1)
                  else some (.error (make_error_pair "make_scheme_string" UV_ECHARSET))
              else some (.error (make_error_pair "make_scheme_string" UV_ECHARSET))
          else some (.error (make_error_pair "make_scheme_string" UV_ECHARSET))
        else
          if count ≥ 4 then
            if uc &&& 0x08 = 0 then
              match s[1]? with
              | none => none
              | some s1 =>
                if s1 &&& 0xC0 = 0x80 then
                  match s[2]? with
                  | none => none
                  | some s2 =>
                    if s2 &&& 0xC0 = 0x80 then
                      match s[3]? with
                      | none => none
                      | some s3 =>
                        if s3 &&& 0xC0 = 0x80 then
                          count_chars fuel (s.drop 4) (count - 4) (len + 1)
                        else some (.error (make_error_pair "make_scheme_string" UV_ECHARSET))
                    else some (.error (make_error_pair "make_scheme_string" UV_ECHARSET))
                else some (.error (make_error_pair "make_scheme_string" UV_ECHARSET))
            else some (.error (make_error_pair "make_scheme_string" UV_ECHARSET))
          else some (.error (make_error_pair "make_scheme_string" UV_ECHARSET))
    else some (.ok len)

/-- Second loop of `make_scheme_string2`, run for `n` more characters: `s` is
the rest of the buffer from the pointer `s` on and `ss` the characters stored
so far by `Sstring_set`. The loop checks no length, so a read past the buffer
is undefined behaviour (`none`). -/
def decode_chars : Nat → List Nat → List Nat → Option (Except ptr (List Nat))
  | 0, _, ss => some (.ok ss)
  | n + 1, s, ss =>
    match s[0]? with
    | none => none
    | some uc =>
      if uc &&& 0x80 = 0 then
        decode_chars n (s.drop 1) (ss ++ [uc])
      else if uc &&& 0x20 = 0 then
        match s[1]? with
        | some s1 =>
          decode_chars n (s.drop 2) (ss ++ [((uc &&& 0x1F) <<< 6) ||| (s1 &&& 0x3F)])
        | none => none
      else if uc &&& 0x10 = 0 then
        match s[1]?, s[2]? with
        | some s1, some s2 =>
          let c := ((uc &&& 0x0F) <<< 12) ||| ((s1 &&& 0x3F) <<< 6) ||| (s2 &&& 0x3F)
          if c &&& 0xF800 = 0xD800 then
            some (.error (make_error_pair "make_scheme_string" UV_ECHARSET))
          else decode_chars n (s.drop 3) (ss ++ [c])
        | _, _ => none
      else
        match s[1]?, s[2]?, s[3]? with
        | some s1, some s2, some s3 =>
          decode_chars n (s.drop 4)
            (ss ++ [((uc &&& 0x07) <<< 18) ||| ((s1 &&& 0x3F) <<< 12) |||
              ((s2 &&& 0x3F) <<< 6) ||| (s3 &&& 0x3F)])
        | _, _, _ => none

/-- Function `make_scheme_string2` on the buffer `utf8` and the length `count`:
`none` for undefined behaviour, otherwise the returned Scheme value, which is
either a string or the failure value. -/
def make_scheme_string2 (utf8 : List Nat) (count : Nat) : Option ptr :=
  match count_chars count utf8 count 0 with
  | none => none
  | some (.error e) => some e
  | some (.ok len) =>
    match decode_chars len utf8 [] with
    | none => none
    | some (.error e) => some e
    | some (.ok ss) => some (.string ss)

/-! ### The text bridge as the specification words it

These definitions follow section 4.1 of the specification and the Unicode
standard, not the code. -/

/-- A Unicode scalar value: `0..0x10FFFF` without the surrogates
`0xD800..0xDFFF`. -/
def unicode_scalar (c : Nat) : Prop := c ≤ 0x10FFFF ∧ ¬(0xD800 ≤ c ∧ c ≤ 0xDFFF)

instance (c : Nat) : Decidable (unicode_scalar c) := by
  unfold unicode_scalar; infer_instance

/-- A continuation byte has the form `10xxxxxx`. -/
def continuation_byte (b : Nat) : Bool := decide (0x80 ≤ b ∧ b ≤ 0xBF)

/-- One sequence in which the lead byte is followed by the number of
continuation bytes its high bits announce (`0xxxxxxx`: 0, `110xxxxx`: 1,
`1110xxxx`: 2, `11110xxx`: 3, so that a four-byte lead is at most `0xF7`) and
every continuation byte has the form `10xxxxxx`. -/
def structural_sequence : List Nat → Bool
  | [b0] => decide (b0 ≤ 0x7F)
  | [b0, b1] => decide (0xC0 ≤ b0 ∧ b0 ≤ 0xDF) && continuation_byte b1
  | [b0, b1, b2] =>
    decide (0xE0 ≤ b0 ∧ b0 ≤ 0xEF) && continuation_byte b1 && continuation_byte b2
  | [b0, b1, b2, b3] =>
    decide (0xF0 ≤ b0 ∧ b0 ≤ 0xF7) && continuation_byte b1 && continuation_byte b2 &&
      continuation_byte b3
  | _ => false

/-- The number a sequence decodes to: the payload bits of its bytes. -/
def sequence_value : List Nat → Nat
  | [b0] => b0
  | [b0, b1] => (b0 - 0xC0) * 64 + (b1 - 0x80)
  | [b0, b1, b2] => (b0 - 0xE0) * 4096 + (b1 - 0x80) * 64 + (b2 - 0x80)
  | [b0, b1, b2, b3] =>
    (b0 - 0xF0) * 262144 + (b1 - 0x80) * 4096 + (b2 - 0x80) * 64 + (b3 - 0x80)
  | _ => 0

/-- A three-byte sequence that decodes into `U+D800..U+DFFF`. -/
def surrogate_sequence (q : List Nat) : Bool :=
  q.length == 3 && decide (0xD800 ≤ sequence_value q ∧ sequence_value q ≤ 0xDFFF)

/-- A sequence that passes every check of section 4.1. -/
def accepted_sequence (q : List Nat) : Bool :=
  structural_sequence q && !surrogate_sequence q

/-- The input splits into sequences that pass every check of section 4.1. -/
def accepted_input (utf8 : List Nat) : Prop :=
  ∃ seqs : List (List Nat), utf8 = seqs.flatten ∧ ∀ q ∈ seqs, accepted_sequence q = true

/-- One well-formed UTF-8 sequence of the Unicode standard (table 3-7), which
RFC 3629 adopts: shortest forms only, no surrogates, nothing above `U+10FFFF`. -/
def well_formed_sequence : List Nat → Bool
  | [b0] => decide (b0 ≤ 0x7F)
  | [b0, b1] => decide (0xC2 ≤ b0 ∧ b0 ≤ 0xDF) && continuation_byte b1
  | [b0, b1, b2] =>
    decide (0xE0 ≤ b0 ∧ b0 ≤ 0xEF) &&
      decide ((if b0 = 0xE0 then 0xA0 else 0x80) ≤ b1 ∧
        b1 ≤ (if b0 = 0xED then 0x9F else 0xBF)) &&
      continuation_byte b2
  | [b0, b1, b2, b3] =>
    decide (0xF0 ≤ b0 ∧ b0 ≤ 0xF4) &&
      decide ((if b0 = 0xF0 then 0x90 else 0x80) ≤ b1 ∧
        b1 ≤ (if b0 = 0xF4 then 0x8F else 0xBF)) &&
      continuation_byte b2 && continuation_byte b3
  | _ => false

/-- Well-formed UTF-8: the input splits into well-formed sequences. -/
def well_formed_utf8 (utf8 : List Nat) : Prop :=
  ∃ seqs : List (List Nat), utf8 = seqs.flatten ∧ ∀ q ∈ seqs, well_formed_sequence q = true


/-! ## Records of `sqlite.c` -/

/-- The functions that `sqlite.c` stores in the slot `d->work`. -/
inductive uv_thread_cb where
  | close_worker
  | prepare_worker
  | step_worker
  deriving DecidableEq

/-- The completion handlers that `sqlite.c` stores in `d->async.data`. -/
inductive uv_async_cb where
  | close_cb
  | prepare_cb
  | step_cb
  deriving DecidableEq

/-- The anonymous union `{ char* sql; sqlite3_stmt* stmt; }` of `database_t`:
a null pointer, the encoded SQL text, or a statement handle of the engine. -/
inductive arg_slot where
  | null
  | sql (utf8 : List Nat)
  | stmt (p : Nat)

/-- Record `database_t`. The mutex, the condition variable, the thread and the
async handle carry no data of their own here, apart from `async.data`. -/
structure database_t where
  db : Nat
  statement : Option Nat
  busy : Int
  work : Option uv_thread_cb
  callback : ptr
  slot : arg_slot
  sql_len : Int
  sqlite_rc : Int
  async_data : Option uv_async_cb

/-- Record `statement_t`. The model holds one Database, so the back-pointer
`database` of every statement is that Database and is not stored. -/
structure statement_t where
  stmt : Nat
  prev : Option Nat
  next : Option Nat

/-- Record `open_req_t`. The field `filename` holds what `strdup` returned,
`none` for `NULL`. -/
structure open_req_t where
  filename : Option (List Nat)
  flags : Int
  callback : ptr
  db : Nat
  result : Int

/-- One Database record `d` together with the statement records allocated on
the heap, by address. -/
structure World where
  d : database_t
  statements : Nat → Option statement_t

/-! ## Calls out of `sqlite.c` -/

/-- Calls into the SQLite engine. -/
inductive sqlite_call where
  | open_v2 (filename : Option (List Nat)) (flags : Int)
  | extended_errcode (db : Nat)
  | extended_result_codes (db : Nat)
  | close (db : Nat)
  | finalize (stmt : Nat)
  | prepare_v2 (db : Nat) (sql : arg_slot) (len : Int)
  | step (stmt : arg_slot)
  | interrupt (db : Nat)
  | errmsg (db : Nat)
  | bind_null (stmt : Nat) (index : Int)
  | bind_int64 (stmt : Nat) (index : Int) (value : Int)
  | bind_double (stmt : Nat) (index : Int) (bits : Nat)
  | bind_text64 (stmt : Nat) (index : Int) (utf8 : List Nat) (len : Nat)
  | bind_blob64 (stmt : Nat) (index : Int) (bytes : List Nat) (len : Nat)
  | clear_bindings (stmt : Nat)
  | reset (stmt : Nat)
  | last_insert_rowid (db : Nat)
  | column_count (stmt : arg_slot)
  | column_name (stmt : Nat) (i : Nat)
  | column_type (stmt : arg_slot) (i : Nat)
  | column_int64 (stmt : arg_slot) (i : Nat)
  | column_double (stmt : arg_slot) (i : Nat)
  | column_text (stmt : arg_slot) (i : Nat)
  | column_bytes (stmt : arg_slot) (i : Nat)
  | column_blob (stmt : arg_slot) (i : Nat)
  | sql (stmt : Nat)
  | status (operation resetp : Int)

/-- Calls out of `sqlite.c`, in the order in which a function makes them. -/
inductive Event where
  | sqlite (call : sqlite_call)
  | uv_mutex_lock
  | uv_mutex_unlock
  | uv_cond_signal
  | uv_cond_wait
  | uv_async_send
  | uv_async_init
  | uv_mutex_init
  | uv_cond_init
  | uv_thread_create
  | uv_thread_join
  | uv_cond_destroy
  | uv_mutex_destroy
  | uv_close
  | uv_queue_work
  | free_filename
  | free_request
  | free_database (p : Nat)
  | free_statement (p : Nat)
  | free_sql
  | Slock_object (p : ptr)
  | Sunlock_object (p : ptr)
  | add_callback1 (callback arg : ptr)

/-- The event is a call into the engine. -/
def Event.is_sqlite : Event → Bool
  | .sqlite _ => true
  | _ => false

/-- The event enqueues an invocation of a callback. -/
def Event.is_callback : Event → Bool
  | .add_callback1 _ _ => true
  | _ => false

/-- The event sends the async wake. -/
def Event.is_async_send : Event → Bool
  | .uv_async_send => true
  | _ => false

/-- The event pins or unpins a Scheme object. -/
def Event.is_pin : Event → Bool
  | .Slock_object _ => true
  | .Sunlock_object _ => true
  | _ => false

/-- The event signals the condition variable of the worker. -/
def Event.is_signal : Event → Bool
  | .uv_cond_signal => true
  | _ => false

/-- Conversion `(int)len` of a `size_t`, as a 32-bit two's complement value. -/
def int_of_size_t (n : Nat) : Int := (((n + 2147483648) % 4294967296 : Nat) : Int) - 2147483648

/-- Pointer `(uptr)p` as a number, `NULL` being 0. -/
def uptr_of : Option Nat → Int
  | none => 0
  | some p => (p : Int)

/-- Function `strlen`: the number of bytes before the first NUL. -/
def strlen (s : List Nat) : Nat := (s.takeWhile (fun b => b ≠ 0)).length

/-- Function `make_scheme_string`. -/
def make_scheme_string (utf8 : List Nat) : Option ptr :=
  make_scheme_string2 utf8 (strlen utf8)

section

/- `TRANSLATE_SQLITE_ERRNO` is a macro of `osi.h`, which is not among the
sources; the functions that use it take it as an argument. -/
variable (TRANSLATE_SQLITE_ERRNO : Int → Int)

/-- Function `make_sqlite_error`. `errmsg` is the C string that
`sqlite3_errmsg` answers. -/
def make_sqlite_error (who : String) (rc : Int) (errmsg : List Nat) : Option ptr :=
  match make_scheme_string errmsg with
  | none => none
  | some msg =>
    some (.pair (.symbol who) (.pair (.integer (TRANSLATE_SQLITE_ERRNO rc)) msg))

/-! ## The open request -/

/-- Function `osi_open_database`. `malloc_ok` tells whether
`malloc_container(open_req_t)` succeeds, `strdup_ok` whether `strdup(filename)`
does, and `queue_rc` is what `uv_queue_work` returns. The result is the
returned value, the request handed to the thread pool when the open is
accepted, and the calls made. The fields `db` and `result` of the request are
not written here; the model holds 0 in them, and `open_worker` writes both
before `open_cb` reads them. -/
def osi_open_database (filename : List Nat) (flags : Int) (callback : ptr)
    (malloc_ok strdup_ok : Bool) (queue_rc : Int) : ptr × Option open_req_t × List Event :=
  if malloc_ok then
    let req : open_req_t :=
      { filename := if strdup_ok then some filename else none, flags := flags,
        callback := callback, db := 0, result := 0 }
    if queue_rc < 0 then
      (make_error_pair "uv_queue_work" queue_rc, none,
        [.Slock_object callback, .uv_queue_work, .Sunlock_object callback, .free_filename,
          .free_request])
    else (.Strue, some req, [.Slock_object callback, .uv_queue_work])
  else (make_error_pair "osi_open_database" UV_ENOMEM, none, [])

/-- Function `open_worker`, run on a thread of the pool. `rc` and `db` are what
`sqlite3_open_v2` answers (`none` for a `NULL` handle, which the record holds as
0) and `xrc` is what `sqlite3_extended_errcode` answers. -/
def open_worker (rc : Int) (db : Option Nat) (xrc : Int) (r : open_req_t) :
    open_req_t × List Event :=
  let ev := [Event.sqlite (.open_v2 r.filename r.flags)]
  if rc ≠ SQLITE_OK then
    match db with
    | some p =>
      ({ r with db := p, result := TRANSLATE_SQLITE_ERRNO xrc },
        ev ++ [.sqlite (.extended_errcode p), .sqlite (.close p)])
    | none => ({ r with db := 0, result := TRANSLATE_SQLITE_ERRNO rc }, ev)
  else
    ({ r with db := db.getD 0, result := 0 },
      ev ++ [.sqlite (.extended_result_codes (db.getD 0))])

/-! ## Work functions, run by the worker thread -/

/-- Loop of `close_worker`, for at most `fuel` iterations. -/
def close_worker_loop : Nat → World → List Event → Option (World × List Event)
  | 0, _, _ => none
  | fuel + 1, w, ev =>
    match w.d.statement with
    | none => some (w, ev)
    | some p =>
      match w.statements p with
      | none => none
      | some s =>
        close_worker_loop fuel
          { d := { w.d with statement := s.next },
            statements := Function.update w.statements p none }
          (ev ++ [.sqlite (.finalize s.stmt), .free_statement p])

/-- Function `close_worker`; `rc` is what `sqlite3_close` answers. -/
def close_worker (fuel : Nat) (rc : Int) (w : World) : Option (World × List Event) :=
  match close_worker_loop fuel w [] with
  | none => none
  | some (w1, ev) =>
    some ({ w1 with d := { w1.d with sqlite_rc := rc } }, ev ++ [.sqlite (.close w1.d.db)])

/-- Function `prepare_worker`; `rc` and `stmt` are what `sqlite3_prepare_v2`
answers and `alloc` what `malloc_container(statement_t)` returns. -/
def prepare_worker (rc : Int) (stmt : Nat) (alloc : Option Nat) (w : World) :
    Option (World × List Event) :=
  let ev := [Event.sqlite (.prepare_v2 w.d.db w.d.slot w.d.sql_len)]
  if rc = SQLITE_OK then
    match alloc with
    | some p =>
      let st1 := Function.update w.statements p
        (some { stmt := stmt, prev := none, next := w.d.statement })
      match w.d.statement with
      | some q =>
        match st1 q with
        | none => none
        | some n =>
          some ({ d := { w.d with sqlite_rc := rc, statement := some p },
                  statements := Function.update st1 q (some { n with prev := some p }) }, ev)
      | none =>
        some ({ d := { w.d with sqlite_rc := rc, statement := some p }, statements := st1 }, ev)
    | none =>
      some ({ w with d := { w.d with sqlite_rc := SQLITE_NOMEM } },
        ev ++ [.sqlite (.finalize stmt)])
  else some ({ w with d := { w.d with sqlite_rc := rc } }, ev)

/-- Function `step_worker`; `rc` is what `sqlite3_step` answers. -/
def step_worker (rc : Int) (w : World) : World × List Event :=
  ({ w with d := { w.d with sqlite_rc := rc } }, [.sqlite (.step w.d.slot)])

/-! ## Submissions, on the loop thread -/

/-- Function `osi_close_database`. -/
def osi_close_database (w : World) (callback : ptr) : ptr × World × List Event :=
  if w.d.busy ≠ 0 then
    (make_error_pair "osi_close_database" UV_EBUSY, w, [])
  else
    (.Strue,
      { w with d := { w.d with async_data := some .close_cb, busy := 1,
                               work := some .close_worker, callback := callback } },
      [.Slock_object callback, .uv_mutex_lock, .uv_mutex_unlock, .uv_cond_signal])

/-- Function `osi_prepare_statement`; `malloc_ok` tells whether the `malloc`
of `string_to_utf8` succeeds. -/
def osi_prepare_statement (w : World) (sql callback : ptr) (malloc_ok : Bool) :
    ptr × World × List Event :=
  if w.d.busy ≠ 0 then
    (make_error_pair "osi_prepare_statement" UV_EBUSY, w, [])
  else
    match sql with
    | .string chars =>
      match string_to_utf8 malloc_ok chars with
      | (none, _) => (make_error_pair "osi_prepare_statement" UV_ENOMEM, w, [])
      | (some utf8, len) =>
        if len > 0x7fffffff then
          (make_error_pair "sqlite3_prepare_v2" (TRANSLATE_SQLITE_ERRNO SQLITE_TOOBIG), w,
            [.free_sql])
        else
          (.Strue,
            { w with d := { w.d with async_data := some .prepare_cb, busy := 1,
                                     work := some .prepare_worker, callback := callback,
                                     slot := .sql utf8, sql_len := int_of_size_t len } },
            [.Slock_object callback, .uv_mutex_lock, .uv_mutex_unlock, .uv_cond_signal])
    | _ => (make_error_pair "osi_prepare_statement" UV_EINVAL, w, [])

/-- Function `osi_step_statement`; `statement` is the address of a statement
record. -/
def osi_step_statement (w : World) (statement : Nat) (callback : ptr) :
    Option (ptr × World × List Event) :=
  match w.statements statement with
  | none => none
  | some s =>
    if w.d.busy ≠ 0 then
      some (make_error_pair "osi_step_statement" UV_EBUSY, w, [])
    else
      some (.Strue,
        { w with d := { w.d with async_data := some .step_cb, busy := 1,
                                 work := some .step_worker, callback := callback,
                                 slot := .stmt s.stmt } },
        [.Slock_object callback, .uv_mutex_lock, .uv_mutex_unlock, .uv_cond_signal])

/-! ## Completion handlers, on the loop thread -/

/-- Function `close_cb`; `errmsg` is what `sqlite3_errmsg` answers. -/
def close_cb (errmsg : List Nat) (w : World) : Option (World × List Event) :=
  let callback := w.d.callback
  let w1 : World := { w with d := { w.d with busy := 0, callback := .Svoid } }
  if w.d.sqlite_rc = SQLITE_OK then
    some (w1, [.Sunlock_object callback, .uv_thread_join, .uv_cond_destroy,
      .uv_mutex_destroy, .uv_close, .add_callback1 callback .Strue])
  else
    match make_sqlite_error TRANSLATE_SQLITE_ERRNO "sqlite3_close" w.d.sqlite_rc errmsg with
    | none => none
    | some e =>
      some (w1, [.Sunlock_object callback, .sqlite (.errmsg w.d.db),
        .add_callback1 callback e])

/-- Function `prepare_cb`; `errmsg` is what `sqlite3_errmsg` answers. -/
def prepare_cb (errmsg : List Nat) (w : World) : Option (World × List Event) :=
  let callback := w.d.callback
  let w1 : World :=
    { w with d := { w.d with busy := 0, callback := .Svoid, slot := .null, sql_len := 0 } }
  if w.d.sqlite_rc = SQLITE_OK then
    some (w1, [.free_sql, .Sunlock_object callback,
      .add_callback1 callback (.integer (uptr_of w.d.statement))])
  else
    match make_sqlite_error TRANSLATE_SQLITE_ERRNO "sqlite3_prepare_v2" w.d.sqlite_rc errmsg with
    | none => none
    | some e =>
      some (w1, [.free_sql, .Sunlock_object callback, .sqlite (.errmsg w.d.db),
        .add_callback1 callback e])

/-- What the engine answers about one column of the current row. -/
structure column_t where
  column_type : Int
  int64 : Int
  double : Nat
  text : List Nat
  bytes : Nat
  blob : List Nat

/-- Value of `SQLITE_INTEGER` in sqlite3.h. -/
def SQLITE_INTEGER : Int := 1
/-- Value of `SQLITE_FLOAT` in sqlite3.h. -/
def SQLITE_FLOAT : Int := 2
/-- Value of `SQLITE_TEXT` in sqlite3.h. -/
def SQLITE_TEXT : Int := 3
/-- Value of `SQLITE_NULL` in sqlite3.h. -/
def SQLITE_NULL : Int := 5

/-- Loop of `step_cb` over the columns from index `i` on; `row` holds the
elements stored so far. The result is `.error x` when a text column decodes to
the failure value `x`. -/
def step_cb_columns (stmt : arg_slot) :
    List column_t → Nat → List ptr → List Event → Option (Except ptr (List ptr) × List Event)
  | [], _, row, ev => some (.ok row, ev)
  | c :: cols, i, row, ev =>
    let ev1 := ev ++ [Event.sqlite (.column_type stmt i)]
    if c.column_type = SQLITE_NULL then
      step_cb_columns stmt cols (i + 1) (row ++ [.Sfalse]) ev1
    else if c.column_type = SQLITE_INTEGER then
      step_cb_columns stmt cols (i + 1) (row ++ [.integer c.int64])
        (ev1 ++ [.sqlite (.column_int64 stmt i)])
    else if c.column_type = SQLITE_FLOAT then
      step_cb_columns stmt cols (i + 1) (row ++ [.flonum c.double])
        (ev1 ++ [.sqlite (.column_double stmt i)])
    else if c.column_type = SQLITE_TEXT then
      let ev2 := ev1 ++ [.sqlite (.column_text stmt i), .sqlite (.column_bytes stmt i)]
      match make_scheme_string2 c.text c.bytes with
      | none => none
      | some x =>
        if Spairp x then some (.error x, ev2)
        else step_cb_columns stmt cols (i + 1) (row ++ [x]) ev2
    else
      if c.bytes ≤ c.blob.length then
        step_cb_columns stmt cols (i + 1) (row ++ [.bytevector (c.blob.take c.bytes)])
          (ev1 ++ [.sqlite (.column_blob stmt i), .sqlite (.column_bytes stmt i)])
      else none

/-- Function `step_cb`; `cols` is what the engine answers about the columns of
the row and `errmsg` what `sqlite3_errmsg` answers. -/
def step_cb (cols : List column_t) (errmsg : List Nat) (w : World) :
    Option (World × List Event) :=
  let callback := w.d.callback
  let stmt := w.d.slot
  let w1 : World := { w with d := { w.d with busy := 0, callback := .Svoid, slot := .null } }
  let ev := [Event.Sunlock_object callback]
  if w.d.sqlite_rc = SQLITE_DONE then
    some (w1, ev ++ [.add_callback1 callback .Sfalse])
  else if w.d.sqlite_rc = SQLITE_ROW then
    match step_cb_columns stmt cols 0 [] (ev ++ [.sqlite (.column_count stmt)]) with
    | none => none
    | some (.error x, ev1) => some (w1, ev1 ++ [.add_callback1 callback x])
    | some (.ok row, ev1) => some (w1, ev1 ++ [.add_callback1 callback (.vector row)])
  else
    match make_sqlite_error TRANSLATE_SQLITE_ERRNO "sqlite3_step" w.d.sqlite_rc errmsg with
    | none => none
    | some e => some (w1, ev ++ [.sqlite (.errmsg w.d.db), .add_callback1 callback e])

/-- Function `open_cb`. `alloc` is what `malloc_container(database_t)` returns,
and the four codes are what `uv_async_init`, `uv_mutex_init`, `uv_cond_init`
and `uv_thread_create` return. The result holds the address and the contents
of the new Database record when the open succeeds. -/
def open_cb (r : open_req_t) (alloc : Option Nat) (async_rc mutex_rc cond_rc thread_rc : Int) :
    Option (Nat × database_t) × List Event :=
  let callback := r.callback
  let ev := [Event.free_filename, .Sunlock_object callback, .free_request]
  if r.result ≠ 0 then
    (none, ev ++ [.add_callback1 callback (make_error_pair "sqlite3_open_v2" r.result)])
  else
    match alloc with
    | none =>
      (none, ev ++ [.add_callback1 callback (make_error_pair "osi_open_database" UV_ENOMEM)])
    | some p =>
      let d : database_t :=
        { db := r.db, statement := none, busy := 0, work := none, callback := .Svoid,
          slot := .null, sql_len := 0, sqlite_rc := SQLITE_OK, async_data := none }
      if async_rc < 0 then
        (none, ev ++ [.uv_async_init, .sqlite (.close r.db), .free_database p,
          .add_callback1 callback (make_error_pair "uv_async_init" async_rc)])
      else if mutex_rc < 0 then
        (none, ev ++ [.uv_async_init, .uv_mutex_init, .sqlite (.close r.db), .uv_close,
          .add_callback1 callback (make_error_pair "uv_mutex_init" mutex_rc)])
      else if cond_rc < 0 then
        (none, ev ++ [.uv_async_init, .uv_mutex_init, .uv_cond_init, .uv_mutex_destroy,
          .sqlite (.close r.db), .uv_close,
          .add_callback1 callback (make_error_pair "uv_cond_init" cond_rc)])
      else if thread_rc < 0 then
        (none, ev ++ [.uv_async_init, .uv_mutex_init, .uv_cond_init, .uv_thread_create,
          .uv_cond_destroy, .uv_mutex_destroy, .sqlite (.close r.db), .uv_close,
          .add_callback1 callback (make_error_pair "uv_thread_init" thread_rc)])
      else
        (some (p, d), ev ++ [.uv_async_init, .uv_mutex_init, .uv_cond_init, .uv_thread_create,
          .add_callback1 callback (.integer (p : Int))])

/-! ## Synchronous operations, on the loop thread -/

/-- Function `osi_finalize_statement`. -/
def osi_finalize_statement (w : World) (statement : Nat) : Option (ptr × World × List Event) :=
  match w.statements statement with
  | none => none
  | some s =>
    if w.d.busy ≠ 0 then
      some (make_error_pair "osi_finalize_statement" UV_EBUSY, w, [])
    else
      let unlinked : Option World :=
        match s.prev with
        | some q =>
          match w.statements q with
          | none => none
          | some n =>
            some { w with statements := Function.update w.statements q (some { n with next := s.next }) }
        | none => some { w with d := { w.d with statement := s.next } }
      match unlinked with
      | none => none
      | some w1 =>
        let relinked : Option World :=
          match s.next with
          | some r =>
            match w1.statements r with
            | none => none
            | some n =>
              some { w1 with
                statements := Function.update w1.statements r (some { n with prev := s.prev }) }
          | none => some w1
        match relinked with
        | none => none
        | some w2 =>
          some (.Strue, { w2 with statements := Function.update w2.statements statement none },
            [.sqlite (.finalize s.stmt), .free_statement statement])

/-- Function `osi_bind_statement`; `rc` is what the engine's bind function
answers, `malloc_ok` tells whether the `malloc` of `string_to_utf8` succeeds and
`errmsg` is what `sqlite3_errmsg` answers. `Sinteger64_value` is a function of
the Scheme runtime, which is not among the sources: it gives the value of a
fixnum or bignum as a 64-bit integer, and the function takes it as an argument. -/
def osi_bind_statement (Sinteger64_value : Int → Int) (w : World) (statement : Nat)
    (index : Int) (datum : ptr) (rc : Int) (malloc_ok : Bool) (errmsg : List Nat) :
    Option (ptr × List Event) :=
  match w.statements statement with
  | none => none
  | some s =>
    if w.d.busy ≠ 0 then
      some (make_error_pair "osi_bind_statement" UV_EBUSY, [])
    else
      let finish (who : String) (call : sqlite_call) : Option (ptr × List Event) :=
        if rc ≠ SQLITE_OK then
          match make_sqlite_error TRANSLATE_SQLITE_ERRNO who rc errmsg with
          | none => none
          | some e => some (e, [.sqlite call, .sqlite (.errmsg w.d.db)])
        else some (.Strue, [.sqlite call])
      match datum with
      | .Sfalse => finish "sqlite3_bind_null" (.bind_null s.stmt index)
      | .integer n =>
        finish "sqlite3_bind_int64" (.bind_int64 s.stmt index (Sinteger64_value n))
      | .flonum x => finish "sqlite3_bind_double" (.bind_double s.stmt index x)
      | .string chars =>
        match string_to_utf8 malloc_ok chars with
        | (none, _) => some (make_error_pair "osi_bind_statement" UV_ENOMEM, [])
        | (some utf8, len) => finish "sqlite3_bind_text64" (.bind_text64 s.stmt index utf8 len)
      | .bytevector bytes =>
        finish "sqlite3_bind_blob64" (.bind_blob64 s.stmt index bytes bytes.length)
      | _ => some (make_error_pair "osi_bind_statement" UV_EINVAL, [])

end

/-! ## The worker thread and the system of the two threads -/

/-- Where the worker thread stands in `database_worker`. -/
inductive worker_pc where
  /-- before the first `uv_mutex_lock` -/
  | entry
  /-- at the head of the loop body, holding the mutex, about to read `d->work` -/
  | top
  /-- mutex released, about to call `(*work)(arg)` -/
  | call (work : uv_thread_cb)
  /-- the work function has returned, about to take the mutex again -/
  | ran (work : uv_thread_cb)
  /-- inside `uv_cond_wait`, mutex released -/
  | wait
  /-- out of the loop, mutex released, thread finished -/
  | returned
  deriving DecidableEq

/-- What the engine and the allocator answer while one work function runs:
the return code of the engine call, the statement handle written by
`sqlite3_prepare_v2` and the result of `malloc_container(statement_t)`; `fuel`
bounds the iterations of the loop of `close_worker`. -/
structure answer_t where
  fuel : Nat
  rc : Int
  stmt : Nat
  alloc : Option Nat

/-- Call `(*work)(arg)` of `database_worker`. -/
def run_work (a : answer_t) : uv_thread_cb → World → Option (World × List Event)
  | .close_worker, w => close_worker a.fuel a.rc w
  | .prepare_worker, w => prepare_worker a.rc a.stmt a.alloc w
  | .step_worker, w => some (step_worker a.rc w)

/-- One step of the thread function `database_worker`, from one point of
`worker_pc` to the next. A wait on the condition variable may end at any time
(signalled or spuriously). A finished thread has no step (`none`), and `none`
is also the result when the work function has undefined behaviour. -/
def database_worker (a : answer_t) (pc : worker_pc) (w : World) :
    Option (worker_pc × World × List Event) :=
  match pc with
  | .entry => some (.top, w, [.uv_mutex_lock])
  | .top =>
    match w.d.work with
    | some work => some (.call work, w, [.uv_mutex_unlock])
    | none => some (.wait, w, [.uv_cond_wait])
  | .call work =>
    match run_work a work w with
    | none => none
    | some (w1, ev) => some (.ran work, w1, ev)
  | .ran work =>
    let w1 : World := { w with d := { w.d with work := none } }
    if work = .close_worker ∧ w.d.sqlite_rc = SQLITE_OK then
      some (.returned, w1, [.uv_mutex_lock, .uv_async_send, .uv_mutex_unlock])
    else
      some (.wait, w1, [.uv_mutex_lock, .uv_async_send, .uv_cond_wait])
  | .wait => some (.top, w, [])
  | .returned => none

/-- The Database, its worker thread and the loop: `wake` tells that
`uv_async_send` was called and the loop has not yet dispatched it, `closed`
that `close_cb` has torn the Database down. -/
structure System where
  w : World
  pc : worker_pc
  wake : Bool
  closed : Bool

/-- Test for the void sentinel `Svoid`. -/
def is_Svoid : ptr → Bool
  | .Svoid => true
  | _ => false

/-- What can happen to a `System`: a call of the host on the loop thread with
its arguments, a step of the worker thread with the answers of the engine, or
the dispatch of the async wake to the handler in `async.data`. The
synchronous operations other than finalize leave the `World` as it is and are
not listed. -/
inductive Action where
  | prepare_statement (sql callback : ptr) (malloc_ok : Bool)
  | step_statement (statement : Nat) (callback : ptr)
  | close_database (callback : ptr)
  | finalize_statement (statement : Nat)
  | worker (a : answer_t)
  | completion (cols : List column_t) (errmsg : List Nat)

/-- The callback that the action hands in, if it is a submission, is not the
void sentinel. -/
def real_callback : Action → Bool
  | .prepare_statement _ callback _ => !is_Svoid callback
  | .step_statement _ callback => !is_Svoid callback
  | .close_database callback => !is_Svoid callback
  | _ => true

section

variable (TRANSLATE_SQLITE_ERRNO : Int → Int)

/-- Dispatch of the async wake by `async_cb`: the handler in `async.data`. -/
def async_cb (cols : List column_t) (errmsg : List Nat) (w : World) :
    Option (World × List Event) :=
  match w.d.async_data with
  | none => none
  | some .close_cb => close_cb TRANSLATE_SQLITE_ERRNO errmsg w
  | some .prepare_cb => prepare_cb TRANSLATE_SQLITE_ERRNO errmsg w
  | some .step_cb => step_cb TRANSLATE_SQLITE_ERRNO cols errmsg w

/-- One action on the system, `none` when it cannot happen. The host uses no
handle after the close has completed; a submission takes the mutex, which the
worker holds at `top`; `malloc` returns an address that is not in use. The
callback of a submission is any Scheme value: no submission inspects it. -/
def system_step (act : Action) (s : System) : Option (System × List Event) :=
  if s.closed then none
  else
    match act with
    | .prepare_statement sql callback malloc_ok =>
      if s.pc = .top then none
      else
        match osi_prepare_statement TRANSLATE_SQLITE_ERRNO s.w sql callback malloc_ok with
        | (_, w1, ev) => some ({ s with w := w1 }, ev)
    | .step_statement statement callback =>
      if s.pc = .top then none
      else
        match osi_step_statement s.w statement callback with
        | none => none
        | some (_, w1, ev) => some ({ s with w := w1 }, ev)
    | .close_database callback =>
      if s.pc = .top then none
      else
        match osi_close_database s.w callback with
        | (_, w1, ev) => some ({ s with w := w1 }, ev)
    | .finalize_statement statement =>
      match osi_finalize_statement s.w statement with
      | none => none
      | some (_, w1, ev) => some ({ s with w := w1 }, ev)
    | .worker a =>
      if s.pc = .call .prepare_worker ∧ (a.alloc.bind s.w.statements).isSome then none
      else
        match database_worker a s.pc s.w with
        | none => none
        | some (pc1, w1, ev) =>
          some ({ s with w := w1, pc := pc1, wake := s.wake || ev.any Event.is_async_send }, ev)
    | .completion cols errmsg =>
      if s.wake then
        match async_cb TRANSLATE_SQLITE_ERRNO cols errmsg s.w with
        | none => none
        | some (w1, ev) =>
          some ({ s with w := w1, wake := false,
                         closed := decide (s.w.d.async_data = some .close_cb ∧
                           s.w.d.sqlite_rc = SQLITE_OK) }, ev)
      else none

/-- The statements successfully prepared and not yet finalized, after a run of
`prepare_worker`: a prepare that the engine accepts (`rc` is `SQLITE_OK`) and
for which a record is allocated at `p` adds `p` in front, a failed prepare
leaves the list as it was. -/
def live_after_prepare (rc : Int) (alloc : Option Nat) (live : List Nat) : List Nat :=
  if rc = SQLITE_OK then
    match alloc with
    | some p => p :: live
    | none => live
  else live

/-- The statements successfully prepared and not yet finalized, after one
action: `prepare_worker` adds a new statement in front when it succeeds, an
accepted `osi_finalize_statement` removes its statement and keeps the others
in order, and `close_worker` finalizes all of them. -/
def live_after (act : Action) (s : System) (live : List Nat) : List Nat :=
  match act with
  | .finalize_statement statement => if s.w.d.busy ≠ 0 then live else live.erase statement
  | .worker a =>
    match s.pc with
    | .call .prepare_worker => live_after_prepare a.rc a.alloc live
    | .call .close_worker => []
    | _ => live
  | _ => live

/-- States of the system reachable from a freshly opened Database, each with
the list of the statements successfully prepared and not yet finalized. -/
inductive Reachable : System → List Nat → Prop where
  | opened (r : open_req_t) (alloc : Option Nat) (async_rc mutex_rc cond_rc thread_rc : Int)
      (p : Nat) (d : database_t) (ev : List Event)
      (h : open_cb r alloc async_rc mutex_rc cond_rc thread_rc = (some (p, d), ev)) :
      Reachable
        { w := { d := d, statements := fun _ => none }, pc := .entry, wake := false,
          closed := false } []
  | step (s s1 : System) (live : List Nat) (act : Action) (ev : List Event)
      (h : Reachable s live)
      (hs : system_step TRANSLATE_SQLITE_ERRNO act s = some (s1, ev)) :
      Reachable s1 (live_after act s live)

end

/-! ## The statement list -/

/-- The records at the addresses `l`, in this order, form a doubly linked list
that starts at `head` and ends with a null `next`, and the `prev` of its first
record is `prev`. -/
def dll (statements : Nat → Option statement_t) : Option Nat → Option Nat → List Nat → Prop
  | _, head, [] => head = none
  | prev, head, p :: l =>
    head = some p ∧ ∃ s, statements p = some s ∧ s.prev = prev ∧ dll statements (some p) s.next l

/-- The statement list of the Database is a well-formed doubly linked list of
the records at the addresses `l`, and no other statement record is allocated. -/
def list_invariant (w : World) (l : List Nat) : Prop :=
  dll w.statements none w.d.statement l ∧ ∀ p, w.statements p ≠ none → p ∈ l

/-- How `busy`, the work slot, the callback slot, the pending wake and the
position of the worker hang together. -/
def flag_invariant (s : System) : Prop :=
  (s.w.d.busy ≠ 0 ↔ (s.w.d.work ≠ none ∨ s.wake = true)) ∧
  (s.w.d.busy = 0 → s.w.d.callback = .Svoid) ∧
  (s.wake = true → s.w.d.work = none) ∧
  (∀ x, s.pc = .call x ∨ s.pc = .ran x → s.w.d.work = some x)

/-- A sequence of actions from a state and its list of live statements; `none`
when one of the actions cannot happen. -/
def run_actions (TRANSLATE_SQLITE_ERRNO : Int → Int) :
    List Action → System × List Nat → Option (System × List Nat)
  | [], sl => some sl
  | act :: acts, (s, live) =>
    match system_step TRANSLATE_SQLITE_ERRNO act s with
    | none => none
    | some (s1, _) => run_actions TRANSLATE_SQLITE_ERRNO acts (s1, live_after act s live)

/-! ## States used as examples -/

/-- An instance of `Sinteger64_value` for the examples: the signed value of the
low 64 bits of the integer. -/
def low_64_bits (n : Int) : Int :=
  (n + 9223372036854775808) % 18446744073709551616 - 9223372036854775808

/-- An open request whose `sqlite3_open_v2` succeeded with the engine handle 1. -/
def opened_request : open_req_t :=
  { filename := some [0x78], flags := 6, callback := .procedure 0, db := 1, result := 0 }

/-- A Database after `close_worker` ran and the engine's close returned
`SQLITE_OK`. -/
def closed_world : World :=
  { d := { db := 1, statement := none, busy := 1, work := none, callback := .procedure 0,
           slot := .null, sql_len := 0, sqlite_rc := 0, async_data := some .close_cb },
    statements := fun _ => none }

/-- A Database after `close_worker` ran and the engine's close returned the
code 5. -/
def refused_world : World :=
  { d := { db := 1, statement := none, busy := 1, work := none, callback := .procedure 0,
           slot := .null, sql_len := 0, sqlite_rc := 5, async_data := some .close_cb },
    statements := fun _ => none }

/-- A Database with the two statements at the addresses 8 and 7 in its list. -/
def two_statement_world : World :=
  { d := { db := 1, statement := some 8, busy := 1, work := some .close_worker,
           callback := .procedure 0, slot := .null, sql_len := 0, sqlite_rc := 0,
           async_data := some .close_cb },
    statements := fun p =>
      if p = 8 then some { stmt := 4, prev := none, next := some 7 }
      else if p = 7 then some { stmt := 3, prev := some 8, next := none }
      else none }

/-- The system right after the open of `opened_request` has completed. -/
def opened_system : System :=
  { w := { d := { db := 1, statement := none, busy := 0, work := none, callback := .Svoid,
                  slot := .null, sql_len := 0, sqlite_rc := SQLITE_OK, async_data := none },
           statements := fun _ => none },
    pc := .entry, wake := false, closed := false }

/-- A close is submitted, the worker picks it up, the engine refuses it with
code 5, and the worker clears the work slot and sends the wake. -/
def refused_close_actions : List Action :=
  [.close_database (.procedure 1),
   .worker { fuel := 1, rc := 5, stmt := 0, alloc := none },
   .worker { fuel := 1, rc := 5, stmt := 0, alloc := none },
   .worker { fuel := 1, rc := 5, stmt := 0, alloc := none },
   .worker { fuel := 1, rc := 5, stmt := 0, alloc := none }]

/-- The state after `refused_close_actions`: the completion handler has not
run yet. -/
def cleared_system : System :=
  { w := { d := { db := 1, statement := none, busy := 1, work := none,
                  callback := .procedure 1, slot := .null, sql_len := 0, sqlite_rc := 5,
                  async_data := some .close_cb },
           statements := fun _ => none },
    pc := .wait, wake := true, closed := false }

/-- Two statements are prepared one after the other; the records are allocated
at the addresses 7 and 8. -/
def two_prepare_actions : List Action :=
  [.prepare_statement (.string [0x41]) (.procedure 1) true,
   .worker { fuel := 0, rc := 0, stmt := 5, alloc := some 7 },
   .worker { fuel := 0, rc := 0, stmt := 5, alloc := some 7 },
   .worker { fuel := 0, rc := 0, stmt := 5, alloc := some 7 },
   .worker { fuel := 0, rc := 0, stmt := 5, alloc := some 7 },
   .completion [] [],
   .prepare_statement (.string [0x42]) (.procedure 2) true,
   .worker { fuel := 0, rc := 0, stmt := 6, alloc := some 8 },
   .worker { fuel := 0, rc := 0, stmt := 6, alloc := some 8 },
   .worker { fuel := 0, rc := 0, stmt := 6, alloc := some 8 }]

/-- The state after `two_prepare_actions`. -/
def two_prepared_system : System :=
  { w := { d := { db := 1, statement := some 8, busy := 1, work := some .prepare_worker,
                  callback := .procedure 2, slot := .sql [0x42], sql_len := 1, sqlite_rc := 0,
                  async_data := some .prepare_cb },
           statements :=
             Function.update
               (Function.update
                 (Function.update (fun _ => none) 7
                   (some { stmt := 5, prev := none, next := none }))
                 8 (some { stmt := 6, prev := none, next := some 7 }))
               7 (some { stmt := 5, prev := some 8, next := none }) },
    pc := .ran .prepare_worker, wake := false, closed := false }


/-- The state after a close was submitted to the freshly opened Database with
the void sentinel as its callback. -/
def void_callback_system : System :=
  { w := { d := { db := 1, statement := none, busy := 1, work := some .close_worker,
                  callback := .Svoid, slot := .null, sql_len := 0, sqlite_rc := SQLITE_OK,
                  async_data := some .close_cb },
           statements := fun _ => none },
    pc := .entry, wake := false, closed := false }

/-- After `two_prepare_actions` the worker clears the work slot and sends the
wake, and the completion of the second prepare runs. -/
def complete_prepare_actions : List Action :=
  two_prepare_actions ++
    [.worker { fuel := 0, rc := 0, stmt := 6, alloc := some 8 }, .completion [] []]

/-- The state after `complete_prepare_actions`: an idle Database with the two
statements at the addresses 8 and 7. -/
def two_idle_system : System :=
  { w := { d := { db := 1, statement := some 8, busy := 0, work := none,
                  callback := .Svoid, slot := .null, sql_len := 0, sqlite_rc := 0,
                  async_data := some .prepare_cb },
           statements := two_prepared_system.w.statements },
    pc := .wait, wake := false, closed := false }

/-- The state after the statement at address 7 has been finalized in
`two_idle_system`. -/
def finalized_system : System :=
  { w := { d := two_idle_system.w.d,
           statements :=
             Function.update
               (Function.update two_idle_system.w.statements 8
                 (some { stmt := 6, prev := none, next := none }))
               7 none },
    pc := .wait, wake := false, closed := false }

/-! ## The standard encoding -/

/-- The UTF-8 encoding of one code point as RFC 3629 lays it out: one byte
`0xxxxxxx` below 0x80, `110xxxxx 10xxxxxx` below 0x800,
`1110xxxx 10xxxxxx 10xxxxxx` below 0x10000 and
`11110xxx 10xxxxxx 10xxxxxx 10xxxxxx` from 0x10000 up, the bits of the code
point filled in from the most significant on. -/
def standard_utf8 (c : Nat) : List Nat :=
  if c < 0x80 then [c]
  else if c < 0x800 then [0xC0 + c / 64, 0x80 + c % 64]
  else if c < 0x10000 then [0xE0 + c / 4096, 0x80 + c / 64 % 64, 0x80 + c % 64]
  else [0xF0 + c / 262144, 0x80 + c / 4096 % 64, 0x80 + c / 64 % 64, 0x80 + c % 64]

/-- The number of bytes the encoding takes: 1, 2, 3 or 4 for code points below
0x80, below 0x800, below 0x10000 and from 0x10000 up. -/
def standard_utf8_size (c : Nat) : Nat :=
  if c < 0x80 then 1 else if c < 0x800 then 2 else if c < 0x10000 then 3 else 4

/-- The validation pass of `make_scheme_string2` counts the characters in an
`int`. The count overflows on an input exactly when its first 2^31 - 1
characters pass the structural checks and the input goes on after them. -/
def counter_overflows (utf8 : List Nat) : Prop :=
  ∃ (seqs : List (List Nat)) (rest : List Nat), utf8 = seqs.flatten ++ rest ∧
    (∀ q ∈ seqs, structural_sequence q = true) ∧ seqs.length = INT_MAX ∧ rest ≠ []

/-! ## The bind dispatch and the row of a step as the specification words them

These definitions follow sections 4.2 and 5 of the specification, not the
code. -/

/-- The dispatch of a bind value by its runtime shape, as section 5 lists it:
the null sentinel goes to the engine's null bind, an integer to the int64
bind with its value as a 64-bit integer (`Sinteger64_value`, a function of the
Scheme runtime that is taken as an argument), a flonum to the double bind, a
string to the text bind with its UTF-8 encoding and the length of that
encoding, a byte-vector to the blob bind with its bytes and their number; a
value of any other shape has no engine call. With the call comes the name under
which a failure of the engine is tagged. -/
def bind_dispatch (Sinteger64_value : Int → Int) (stmt : Nat) (index : Int) :
    ptr → Option (String × sqlite_call)
  | .Sfalse => some ("sqlite3_bind_null", .bind_null stmt index)
  | .integer n => some ("sqlite3_bind_int64", .bind_int64 stmt index (Sinteger64_value n))
  | .flonum x => some ("sqlite3_bind_double", .bind_double stmt index x)
  | .string chars =>
    some ("sqlite3_bind_text64",
      .bind_text64 stmt index (chars.map standard_utf8).flatten
        (chars.map standard_utf8_size).sum)
  | .bytevector bytes => some ("sqlite3_bind_blob64", .bind_blob64 stmt index bytes bytes.length)
  | _ => none

/-- The value of one column of a row by its type, as section 5 lists it: false
for NULL, the 64-bit integer, the double, the text decoded by the text bridge,
and for a blob a byte-vector with the `bytes` bytes of the blob. The decoding
of a text is the one place that can fail to produce a value. -/
def column_value (c : column_t) : Option ptr :=
  if c.column_type = SQLITE_NULL then some .Sfalse
  else if c.column_type = SQLITE_INTEGER then some (.integer c.int64)
  else if c.column_type = SQLITE_FLOAT then some (.flonum c.double)
  else if c.column_type = SQLITE_TEXT then make_scheme_string2 c.text c.bytes
  else some (.bytevector (c.blob.take c.bytes))

/-- What a step that found a row delivers, given the values of its columns:
the first failure value among them when there is one (a decode error replaces
the entire row), and otherwise the vector of the values. -/
def row_result (values : List ptr) : ptr :=
  match values.find? Spairp with
  | some x => x
  | none => .vector values

/-- What the engine guarantees about its answers for one column: a text is
`bytes` bytes long, `bytes` being a non-negative `int`, and a blob (a column of
none of the four other types) holds `bytes` bytes. -/
def column_ok (c : column_t) : Prop :=
  (c.column_type = SQLITE_TEXT →
    (∀ b ∈ c.text, b < 256) ∧ c.bytes ≤ c.text.length ∧ c.bytes ≤ INT_MAX) ∧
  (c.column_type ≠ SQLITE_NULL → c.column_type ≠ SQLITE_INTEGER →
    c.column_type ≠ SQLITE_FLOAT → c.column_type ≠ SQLITE_TEXT → c.bytes ≤ c.blob.length)

/-- An idle Database with one statement record at address 7. -/
def idle_world : World :=
  { d := { db := 1, statement := some 7, busy := 0, work := none, callback := .Svoid,
           slot := .null, sql_len := 0, sqlite_rc := 0, async_data := some .step_cb },
    statements := fun p => if p = 7 then some { stmt := 3, prev := none, next := none } else none }

instance (c : column_t) : Decidable (column_ok c) := by
  unfold column_ok; infer_instance

/-- What the loop of `step_cb` yields, given the elements stored so far and the
values of the remaining columns: the first failure value among these, and
otherwise all the elements. -/
def columns_result (row values : List ptr) : Except ptr (List ptr) :=
  match values.find? Spairp with
  | some x => .error x
  | none => .ok (row ++ values)

/-- What the calls of a completion handler come to: one unpin of the saved
callback, one enqueued invocation of it, no signal to the worker. -/
def handler_events (callback : ptr) (ev : List Event) : Prop :=
  (∃ arg, ev.filter Event.is_callback = [.add_callback1 callback arg]) ∧
    ev.filter Event.is_pin = [.Sunlock_object callback] ∧
    ev.any Event.is_signal = false


/-- A Database whose step has run and found a row: the worker has cleared the
work slot and the completion is due. -/
def row_world : World :=
  { d := { db := 1, statement := some 7, busy := 1, work := none, callback := .procedure 0,
           slot := .stmt 3, sql_len := 0, sqlite_rc := SQLITE_ROW, async_data := some .step_cb },
    statements := fun p => if p = 7 then some { stmt := 3, prev := none, next := none } else none }

/-- The columns of a row with the integer 42 and the text "hé". -/
def example_row : List column_t :=
  [{ column_type := SQLITE_INTEGER, int64 := 42, double := 0, text := [], bytes := 0, blob := [] },
   { column_type := SQLITE_TEXT, int64 := 0, double := 0, text := [0x68, 0xC3, 0xA9, 0],
     bytes := 3, blob := [] }]

/-- The columns of a row with the integer 42 and a text that holds the encoded
surrogate `ED A0 80`. -/
def bad_text_row : List column_t :=
  [{ column_type := SQLITE_INTEGER, int64 := 42, double := 0, text := [], bytes := 0, blob := [] },
   { column_type := SQLITE_TEXT, int64 := 0, double := 0, text := [0xED, 0xA0, 0x80, 0],
     bytes := 3, blob := [] }]

/-- A Database with an accepted prepare of the statement "A" that the worker
is about to run. -/
def preparing_world : World :=
  { d := { db := 1, statement := none, busy := 1, work := some .prepare_worker,
           callback := .procedure 1, slot := .sql [0x41], sql_len := 1, sqlite_rc := 0,
           async_data := some .prepare_cb },
    statements := fun _ => none }

/-! ## Runs of the system and what is counted along them -/

/-- The pin events of a trace, read from left to right: `pins_from p ev q`
holds when, starting with the callback `p` pinned (`none`: nothing pinned),
every `Slock_object c` comes when nothing is pinned, every `Sunlock_object c`
unpins the very callback `c` that is pinned, and `q` is pinned at the end. So
each callback is pinned once and unpinned once before the next is pinned. -/
inductive pins_from : Option ptr → List Event → Option ptr → Prop where
  | done (p : Option ptr) : pins_from p [] p
  | lock (c : ptr) (ev : List Event) (q : Option ptr) (h : pins_from (some c) ev q) :
      pins_from none (.Slock_object c :: ev) q
  | unlock (c : ptr) (ev : List Event) (q : Option ptr) (h : pins_from none ev q) :
      pins_from (some c) (.Sunlock_object c :: ev) q

/-- The callback that a Database holds pinned: the one in its callback slot
while `busy` is set. -/
def pinned_callback (s : System) : Option ptr :=
  if s.w.d.busy ≠ 0 then some s.w.d.callback else none

/-- A sequence of actions from a state: the final state and, for each action,
the state before it, the action and the calls it made; `none` when one of the
actions cannot happen. -/
def run_trace (TRANSLATE_SQLITE_ERRNO : Int → Int) :
    List Action → System → Option (System × List (System × Action × List Event))
  | [], s => some (s, [])
  | act :: acts, s =>
    match system_step TRANSLATE_SQLITE_ERRNO act s with
    | none => none
    | some (s1, ev) =>
      match run_trace TRANSLATE_SQLITE_ERRNO acts s1 with
      | none => none
      | some (s2, hist) => some (s2, (s, act, ev) :: hist)

/-- All calls made along a run, in order. -/
def trace_events (hist : List (System × Action × List Event)) : List Event :=
  (hist.map (fun st => st.2.2)).flatten

/-- The worker stands right after the call of a work function. -/
def is_ran : worker_pc → Bool
  | .ran _ => true
  | _ => false

/-- The step is a submission that was accepted: it signalled the condition
variable of the worker, which only the accepting path of a submission does. -/
def is_accepted (st : System × Action × List Event) : Bool :=
  st.2.2.any Event.is_signal

/-- The step is the call `(*work)(arg)` of a work function by the worker. -/
def is_run (st : System × Action × List Event) : Bool :=
  match st.2.1, st.1.pc with
  | .worker _, .call _ => true
  | _, _ => false

/-- The number, 0 or 1, of accepted submissions whose work function has not
been called yet: the work slot is set and the worker is not at the point after
the call. -/
def pending_work (s : System) : Nat :=
  if s.w.d.work.isSome && !is_ran s.pc then 1 else 0

/-- What one action does to the flags, the position of the worker and the pin
and signal calls, in four kinds: a refused submission or a finalize; an
accepted submission; a step of the worker; a completion. -/
def step_effect (s : System) (act : Action) (s1 : System) (ev : List Event) : Prop :=
  (is_run (s, act, ev) = false ∧ s1.pc = s.pc ∧ s1.w.d.busy = s.w.d.busy ∧
    s1.w.d.callback = s.w.d.callback ∧ s1.w.d.work = s.w.d.work ∧
    ev.filter Event.is_pin = [] ∧ ev.any Event.is_signal = false) ∨
  (is_run (s, act, ev) = false ∧ s1.pc = s.pc ∧ s.w.d.busy = 0 ∧ s1.w.d.busy = 1 ∧
    s.w.d.work = none ∧ s1.w.d.work ≠ none ∧
    ev.filter Event.is_pin = [.Slock_object s1.w.d.callback] ∧
    ev.any Event.is_signal = true) ∨
  ((∃ a, act = .worker a) ∧ s1.w.d.busy = s.w.d.busy ∧ s1.w.d.callback = s.w.d.callback ∧
    ev.filter Event.is_pin = [] ∧ ev.any Event.is_signal = false ∧
    ((∃ x, s.pc = .call x ∧ s1.pc = .ran x ∧ s1.w.d.work = s.w.d.work ∧
        s.w.d.work = some x) ∨
      (∃ x, s.pc = .ran x ∧ is_ran s1.pc = false ∧ s1.w.d.work = none) ∨
      ((∀ x, s.pc ≠ .call x) ∧ is_ran s.pc = false ∧ is_ran s1.pc = false ∧
        s1.w.d.work = s.w.d.work))) ∨
  (is_run (s, act, ev) = false ∧ s1.pc = s.pc ∧ s.w.d.busy ≠ 0 ∧ s1.w.d.busy = 0 ∧
    s1.w.d.work = s.w.d.work ∧
    ev.filter Event.is_pin = [.Sunlock_object s.w.d.callback] ∧
    ev.any Event.is_signal = false)

/-- After `refused_close_actions` the wait of the worker ends twice without a
submission in between: the worker finds the work slot empty and waits again. -/
def spurious_wake_actions : List Action :=
  refused_close_actions ++
    [.worker { fuel := 1, rc := 5, stmt := 0, alloc := none },
     .worker { fuel := 1, rc := 5, stmt := 0, alloc := none },
     .worker { fuel := 1, rc := 5, stmt := 0, alloc := none },
     .worker { fuel := 1, rc := 5, stmt := 0, alloc := none }]
/-! ## Properties of the text bridge

### Bit operations as arithmetic -/

theorem and_bit (b i : Nat) : b &&& 2 ^ i = 0 ↔ b / 2 ^ i % 2 = 0 := by
  rw [Nat.and_two_pow, Nat.testBit_to_div_mod]
  have hp : 0 < 2 ^ i := Nat.two_pow_pos i
  by_cases h : b / 2 ^ i % 2 = 1
  · simp [h]
  · have h0 : b / 2 ^ i % 2 = 0 := by omega
    simp [h0]

theorem and_x80 (b : Nat) : b &&& 0x80 = 0 ↔ b / 128 % 2 = 0 := and_bit b 7
theorem and_x40 (b : Nat) : b &&& 0x40 = 0 ↔ b / 64 % 2 = 0 := and_bit b 6
theorem and_x20 (b : Nat) : b &&& 0x20 = 0 ↔ b / 32 % 2 = 0 := and_bit b 5
theorem and_x10 (b : Nat) : b &&& 0x10 = 0 ↔ b / 16 % 2 = 0 := and_bit b 4
theorem and_x08 (b : Nat) : b &&& 0x08 = 0 ↔ b / 8 % 2 = 0 := and_bit b 3

theorem or_eq_add (i a b : Nat) (hb : b < 2 ^ i) : 2 ^ i * a ||| b = 2 ^ i * a + b :=
  (Nat.mul_add_lt_is_or hb a).symm

theorem and_xC0 (b : Nat) : b &&& 0xC0 = 0x80 ↔ b / 64 % 4 = 2 := by
  have e : (0xC0 : Nat) = 2 ^ 7 ||| 2 ^ 6 := by decide
  rw [e, Nat.and_or_distrib_left, Nat.and_two_pow, Nat.and_two_pow,
    Nat.testBit_to_div_mod, Nat.testBit_to_div_mod]
  simp only [Nat.reducePow]
  rcases Nat.mod_two_eq_zero_or_one (b / 128) with h7 | h7 <;>
    rcases Nat.mod_two_eq_zero_or_one (b / 64) with h6 | h6 <;>
    rw [h7, h6] <;> simp <;> omega

theorem and_x3F (b : Nat) : b &&& 0x3F = b % 64 := Nat.and_pow_two_sub_one_eq_mod b 6
theorem and_x1F (b : Nat) : b &&& 0x1F = b % 32 := Nat.and_pow_two_sub_one_eq_mod b 5
theorem and_x0F (b : Nat) : b &&& 0x0F = b % 16 := Nat.and_pow_two_sub_one_eq_mod b 4
theorem and_x07 (b : Nat) : b &&& 0x07 = b % 8 := Nat.and_pow_two_sub_one_eq_mod b 3

theorem and_xF800 (c : Nat) (h : c < 0x10000) : c &&& 0xF800 = 2048 * (c / 2048) := by
  have low : (c % 2048) &&& 0xF800 = 0 := by
    have h1 : (c % 2048) &&& (2 ^ 11 - 1) = c % 2048 :=
      Nat.and_pow_two_sub_one_of_lt_two_pow (by omega : c % 2048 < 2 ^ 11)
    rw [← h1, Nat.and_assoc]
    exact Nat.and_zero _
  have hi : ∀ q < 32, (2 ^ 11 * q) &&& 0xF800 = 2048 * q := by decide
  have h2 : c = 2 ^ 11 * (c / 2048) ||| c % 2048 := by
    rw [or_eq_add 11 _ _ (by omega)]; omega
  conv_lhs => rw [h2]
  rw [Nat.and_distrib_right, low, Nat.or_zero]
  exact hi _ (by omega)

theorem value2 (uc s1 : Nat) : ((uc &&& 0x1F) <<< 6) ||| (s1 &&& 0x3F) = uc % 32 * 64 + s1 % 64 := by
  rw [and_x1F, and_x3F, Nat.shiftLeft_eq, Nat.mul_comm, or_eq_add 6 _ _ (by omega)]

theorem value3 (uc s1 s2 : Nat) :
    ((uc &&& 0x0F) <<< 12) ||| ((s1 &&& 0x3F) <<< 6) ||| (s2 &&& 0x3F)
      = uc % 16 * 4096 + s1 % 64 * 64 + s2 % 64 := by
  rw [and_x0F, and_x3F, and_x3F, Nat.shiftLeft_eq, Nat.shiftLeft_eq, Nat.mul_comm _ (2 ^ 12),
    or_eq_add 12 _ _ (by omega)]
  have e : 2 ^ 12 * (uc % 16) + s1 % 64 * 2 ^ 6 = 2 ^ 6 * ((uc % 16) * 64 + s1 % 64) := by omega
  rw [e, or_eq_add 6 _ _ (by omega)]
  omega

theorem value4 (uc s1 s2 s3 : Nat) :
    ((uc &&& 0x07) <<< 18) ||| ((s1 &&& 0x3F) <<< 12) ||| ((s2 &&& 0x3F) <<< 6) ||| (s3 &&& 0x3F)
      = uc % 8 * 262144 + s1 % 64 * 4096 + s2 % 64 * 64 + s3 % 64 := by
  rw [and_x07, and_x3F, and_x3F, and_x3F, Nat.shiftLeft_eq, Nat.shiftLeft_eq, Nat.shiftLeft_eq,
    Nat.mul_comm _ (2 ^ 18), or_eq_add 18 _ _ (by omega)]
  have e : 2 ^ 18 * (uc % 8) + s1 % 64 * 2 ^ 12 = 2 ^ 12 * ((uc % 8) * 64 + s1 % 64) := by omega
  rw [e, or_eq_add 12 _ _ (by omega)]
  have e2 : 2 ^ 12 * (uc % 8 * 64 + s1 % 64) + s2 % 64 * 2 ^ 6
      = 2 ^ 6 * ((uc % 8 * 64 + s1 % 64) * 64 + s2 % 64) := by omega
  rw [e2, or_eq_add 6 _ _ (by omega)]
  omega

theorem or_x80 (m : Nat) (h : m < 64) : (m ||| 0x80) % 256 = 128 + m := by
  have := or_eq_add 7 1 m (by omega)
  rw [Nat.or_comm]; simp only [Nat.reducePow, Nat.mul_one] at this; rw [this]; omega
theorem or_xC0 (m : Nat) (h : m < 32) : (m ||| 0xC0) % 256 = 192 + m := by
  have := or_eq_add 6 3 m (by omega)
  rw [Nat.or_comm]; simp only [Nat.reducePow, Nat.reduceMul] at this; rw [this]; omega
theorem or_xE0 (m : Nat) (h : m < 16) : (m ||| 0xE0) % 256 = 224 + m := by
  have := or_eq_add 5 7 m (by omega)
  rw [Nat.or_comm]; simp only [Nat.reducePow, Nat.reduceMul] at this; rw [this]; omega
theorem or_xF0 (m : Nat) (h : m < 8) : (m ||| 0xF0) % 256 = 240 + m := by
  have := or_eq_add 4 15 m (by omega)
  rw [Nat.or_comm]; simp only [Nat.reducePow, Nat.reduceMul] at this; rw [this]; omega

theorem count_chars_sequence (q rest : List Nat) (fuel count len : Nat)
    (hq : structural_sequence q = true) (hc : q.length ≤ count) (hl : len + 1 ≤ INT_MAX) :
    count_chars (fuel + 1) (q ++ rest) count len
      = count_chars fuel rest (count - q.length) (len + 1) := by
  have hl' : ¬ (len + 1 > INT_MAX) := by omega
  match q, hq, hc with
  | [b0], hq, hc =>
    simp only [structural_sequence, decide_eq_true_eq] at hq
    have h80 : b0 &&& 0x80 = 0 := (and_x80 b0).2 (by omega)
    simp only [List.length_singleton] at hc
    have hc0 : count > 0 := by omega
    rw [count_chars]
    simp [hc0, hl', h80]
  | [b0, b1], hq, hc =>
    simp only [structural_sequence, continuation_byte, Bool.and_eq_true, decide_eq_true_eq] at hq
    have h80 : ¬ (b0 &&& 0x80 = 0) := fun h => by have := (and_x80 b0).1 h; omega
    have h40 : ¬ (b0 &&& 0x40 = 0) := fun h => by have := (and_x40 b0).1 h; omega
    have h20 : b0 &&& 0x20 = 0 := (and_x20 b0).2 (by omega)
    have h1 : b1 &&& 0xC0 = 0x80 := (and_xC0 b1).2 (by omega)
    simp only [List.length_cons, List.length_nil] at hc
    have hc0 : count > 0 := by omega
    have hc2 : count ≥ 2 := by omega
    rw [count_chars]
    simp [hc0, hl', h80, h40, h20, h1, hc2]
  | [b0, b1, b2], hq, hc =>
    simp only [structural_sequence, continuation_byte, Bool.and_eq_true, decide_eq_true_eq] at hq
    have h80 : ¬ (b0 &&& 0x80 = 0) := fun h => by have := (and_x80 b0).1 h; omega
    have h40 : ¬ (b0 &&& 0x40 = 0) := fun h => by have := (and_x40 b0).1 h; omega
    have h20 : ¬ (b0 &&& 0x20 = 0) := fun h => by have := (and_x20 b0).1 h; omega
    have h10 : b0 &&& 0x10 = 0 := (and_x10 b0).2 (by omega)
    have h1 : b1 &&& 0xC0 = 0x80 := (and_xC0 b1).2 (by omega)
    have h2 : b2 &&& 0xC0 = 0x80 := (and_xC0 b2).2 (by omega)
    simp only [List.length_cons, List.length_nil] at hc
    have hc0 : count > 0 := by omega
    have hc3 : count ≥ 3 := by omega
    rw [count_chars]
    simp [hc0, hl', h80, h40, h20, h10, h1, h2, hc3]
  | [b0, b1, b2, b3], hq, hc =>
    simp only [structural_sequence, continuation_byte, Bool.and_eq_true, decide_eq_true_eq] at hq
    have h80 : ¬ (b0 &&& 0x80 = 0) := fun h => by have := (and_x80 b0).1 h; omega
    have h40 : ¬ (b0 &&& 0x40 = 0) := fun h => by have := (and_x40 b0).1 h; omega
    have h20 : ¬ (b0 &&& 0x20 = 0) := fun h => by have := (and_x20 b0).1 h; omega
    have h10 : ¬ (b0 &&& 0x10 = 0) := fun h => by have := (and_x10 b0).1 h; omega
    have h08 : b0 &&& 0x08 = 0 := (and_x08 b0).2 (by omega)
    have h1 : b1 &&& 0xC0 = 0x80 := (and_xC0 b1).2 (by omega)
    have h2 : b2 &&& 0xC0 = 0x80 := (and_xC0 b2).2 (by omega)
    have h3 : b3 &&& 0xC0 = 0x80 := (and_xC0 b3).2 (by omega)
    simp only [List.length_cons, List.length_nil] at hc
    have hc0 : count > 0 := by omega
    have hc4 : count ≥ 4 := by omega
    rw [count_chars]
    simp [hc0, hl', h80, h40, h20, h10, h08, h1, h2, h3, hc4]
  | [], hq, _ => simp [structural_sequence] at hq
  | _ :: _ :: _ :: _ :: _ :: _, hq, _ => simp [structural_sequence] at hq

theorem decode_chars_sequence (q rest ss : List Nat) (n : Nat)
    (hq : structural_sequence q = true) :
    decode_chars (n + 1) (q ++ rest) ss
      = if surrogate_sequence q = true then
          some (.error (make_error_pair "make_scheme_string" UV_ECHARSET))
        else decode_chars n rest (ss ++ [sequence_value q]) := by
  match q, hq with
  | [b0], hq =>
    simp only [structural_sequence, decide_eq_true_eq] at hq
    have h80 : b0 &&& 0x80 = 0 := (and_x80 b0).2 (by omega)
    rw [decode_chars]
    simp [h80, surrogate_sequence, sequence_value]
  | [b0, b1], hq =>
    simp only [structural_sequence, continuation_byte, Bool.and_eq_true, decide_eq_true_eq] at hq
    have h80 : ¬ (b0 &&& 0x80 = 0) := fun h => by have := (and_x80 b0).1 h; omega
    have h20 : b0 &&& 0x20 = 0 := (and_x20 b0).2 (by omega)
    have hv : b0 % 32 * 64 + b1 % 64 = (b0 - 0xC0) * 64 + (b1 - 0x80) := by omega
    rw [decode_chars]
    simp [h80, h20, surrogate_sequence, sequence_value, value2, hv]
  | [b0, b1, b2], hq =>
    simp only [structural_sequence, continuation_byte, Bool.and_eq_true, decide_eq_true_eq] at hq
    have h80 : ¬ (b0 &&& 0x80 = 0) := fun h => by have := (and_x80 b0).1 h; omega
    have h20 : ¬ (b0 &&& 0x20 = 0) := fun h => by have := (and_x20 b0).1 h; omega
    have h10 : b0 &&& 0x10 = 0 := (and_x10 b0).2 (by omega)
    have hv : b0 % 16 * 4096 + b1 % 64 * 64 + b2 % 64
        = (b0 - 0xE0) * 4096 + (b1 - 0x80) * 64 + (b2 - 0x80) := by omega
    have hlt : (b0 - 0xE0) * 4096 + (b1 - 0x80) * 64 + (b2 - 0x80) < 0x10000 := by omega
    have hs := and_xF800 _ hlt
    rw [decode_chars]
    simp only [List.cons_append, List.nil_append, List.getElem?_cons_zero, h80, h20, h10,
      if_false, if_true, List.getElem?_cons_succ, value3, hv, hs, surrogate_sequence,
      sequence_value, List.length_cons, List.length_nil, List.drop_succ_cons, List.drop_zero]
    by_cases hsur : 0xD800 ≤ (b0 - 0xE0) * 4096 + (b1 - 0x80) * 64 + (b2 - 0x80) ∧
        (b0 - 0xE0) * 4096 + (b1 - 0x80) * 64 + (b2 - 0x80) ≤ 0xDFFF
    · have : 2048 * (((b0 - 0xE0) * 4096 + (b1 - 0x80) * 64 + (b2 - 0x80)) / 2048) = 0xD800 := by
        omega
      simp [hsur, this]
    · have : ¬ (2048 * (((b0 - 0xE0) * 4096 + (b1 - 0x80) * 64 + (b2 - 0x80)) / 2048)
          = 0xD800) := by omega
      simp [hsur, this]
  | [b0, b1, b2, b3], hq =>
    simp only [structural_sequence, continuation_byte, Bool.and_eq_true, decide_eq_true_eq] at hq
    have h80 : ¬ (b0 &&& 0x80 = 0) := fun h => by have := (and_x80 b0).1 h; omega
    have h20 : ¬ (b0 &&& 0x20 = 0) := fun h => by have := (and_x20 b0).1 h; omega
    have h10 : ¬ (b0 &&& 0x10 = 0) := fun h => by have := (and_x10 b0).1 h; omega
    have hv : b0 % 8 * 262144 + b1 % 64 * 4096 + b2 % 64 * 64 + b3 % 64
        = (b0 - 0xF0) * 262144 + (b1 - 0x80) * 4096 + (b2 - 0x80) * 64 + (b3 - 0x80) := by omega
    rw [decode_chars]
    simp [h80, h20, h10, surrogate_sequence, sequence_value, value4, hv]
  | [], hq => simp [structural_sequence] at hq
  | _ :: _ :: _ :: _ :: _ :: _, hq => simp [structural_sequence] at hq

theorem structural_sequence_length (q : List Nat) (hq : structural_sequence q = true) :
    1 ≤ q.length ∧ q.length ≤ 4 := by
  match q, hq with
  | [_], _ => simp
  | [_, _], _ => simp
  | [_, _, _], _ => simp
  | [_, _, _, _], _ => simp
  | [], hq => simp [structural_sequence] at hq
  | _ :: _ :: _ :: _ :: _ :: _, hq => simp [structural_sequence] at hq

theorem count_chars_flatten (seqs : List (List Nat)) :
    ∀ (rest : List Nat) (fuel len : Nat), (∀ q ∈ seqs, structural_sequence q = true) →
      seqs.flatten.length ≤ fuel → len + seqs.length ≤ INT_MAX →
      count_chars fuel (seqs.flatten ++ rest) seqs.flatten.length len
        = some (.ok (len + seqs.length)) := by
  induction seqs with
  | nil =>
    intro rest fuel len _ _ _
    cases fuel <;> simp [count_chars]
  | cons q seqs ih =>
    intro rest fuel len hs hf hl
    have hq := hs q (List.mem_cons_self _ _)
    have hql := structural_sequence_length q hq
    simp only [List.flatten_cons, List.length_append, List.length_cons] at hf hl ⊢
    obtain ⟨fuel, rfl⟩ : ∃ k, fuel = k + 1 := ⟨fuel - 1, by omega⟩
    rw [List.append_assoc, count_chars_sequence q _ fuel _ len hq (by omega) (by omega)]
    rw [Nat.add_sub_cancel_left, ih rest fuel (len + 1)
      (fun q' h' => hs q' (List.mem_cons_of_mem _ h')) (by omega) (by omega)]
    congr 2; omega

theorem decode_chars_flatten (seqs : List (List Nat)) :
    ∀ (rest ss : List Nat), (∀ q ∈ seqs, structural_sequence q = true) →
      decode_chars seqs.length (seqs.flatten ++ rest) ss
        = if seqs.all (fun q => !surrogate_sequence q) = true then
            some (.ok (ss ++ seqs.map sequence_value))
          else some (.error (make_error_pair "make_scheme_string" UV_ECHARSET)) := by
  induction seqs with
  | nil => intro rest ss _; simp [decode_chars]
  | cons q seqs ih =>
    intro rest ss hs
    have hq := hs q (List.mem_cons_self _ _)
    simp only [List.flatten_cons, List.length_cons, List.append_assoc]
    rw [decode_chars_sequence q _ ss _ hq]
    by_cases hsur : surrogate_sequence q = true
    · simp [hsur]
    · rw [if_neg hsur, ih rest _ (fun q' h' => hs q' (List.mem_cons_of_mem _ h'))]
      simp [hsur]

theorem make_scheme_string2_flatten (seqs : List (List Nat)) (rest : List Nat)
    (hs : ∀ q ∈ seqs, structural_sequence q = true) (hl : seqs.length ≤ INT_MAX) :
    make_scheme_string2 (seqs.flatten ++ rest) seqs.flatten.length
      = some (if seqs.all (fun q => !surrogate_sequence q) = true then
            .string (seqs.map sequence_value)
          else make_error_pair "make_scheme_string" UV_ECHARSET) := by
  unfold make_scheme_string2
  rw [count_chars_flatten seqs rest _ 0 hs (le_refl _) (by omega)]
  simp only [Nat.zero_add]
  rw [decode_chars_flatten seqs rest [] hs]
  by_cases h : seqs.all (fun q => !surrogate_sequence q) = true <;> simp [h]

theorem utf8_bytes_one (c : Nat) (hc : c < 0x200000) :
    utf8_bytes [c] =
      if c < 0x80 then [c]
      else if c < 0x800 then [192 + c / 64, 128 + c % 64]
      else if c < 0x10000 then [224 + c / 4096, 128 + c / 64 % 64, 128 + c % 64]
      else [240 + c / 262144, 128 + c / 4096 % 64, 128 + c / 64 % 64, 128 + c % 64] := by
  have s6 : c >>> 6 = c / 64 := Nat.shiftRight_eq_div_pow c 6
  have s12 : c >>> 12 = c / 4096 := Nat.shiftRight_eq_div_pow c 12
  have s18 : c >>> 18 = c / 262144 := Nat.shiftRight_eq_div_pow c 18
  simp only [utf8_bytes, List.append_nil, s6, s12, s18, and_x3F]
  by_cases h1 : c < 0x80
  · simp only [h1, if_true]; congr 1; omega
  · by_cases h2 : c < 0x800
    · simp only [h1, h2, if_true, if_false]
      rw [or_xC0 _ (by omega), or_x80 _ (by omega)]
    · by_cases h3 : c < 0x10000
      · simp only [h1, h2, h3, if_true, if_false]
        rw [or_xE0 _ (by omega), or_x80 _ (by omega), or_x80 _ (by omega)]
      · simp only [h1, h2, h3, if_false]
        rw [or_xF0 _ (by omega), or_x80 _ (by omega), or_x80 _ (by omega), or_x80 _ (by omega)]

theorem utf8_bytes_cons (c : Nat) (s : List Nat) :
    utf8_bytes (c :: s) = utf8_bytes [c] ++ utf8_bytes s := by
  simp [utf8_bytes]

theorem utf8_bytes_flatten (s : List Nat) :
    utf8_bytes s = (s.map (fun c => utf8_bytes [c])).flatten := by
  induction s with
  | nil => rfl
  | cons c s ih => rw [utf8_bytes_cons, List.map_cons, List.flatten_cons, ← ih]

theorem utf8_length_eq (s : List Nat) : utf8_length s = (utf8_bytes s).length := by
  induction s with
  | nil => rfl
  | cons c s ih =>
    simp only [utf8_length, utf8_bytes, List.length_append, ih]
    congr 1
    split_ifs <;> rfl

theorem structural_utf8_bytes (c : Nat) (hc : c < 0x200000) :
    structural_sequence (utf8_bytes [c]) = true := by
  rw [utf8_bytes_one c hc]
  split_ifs <;>
    simp only [structural_sequence, continuation_byte, Bool.and_eq_true, decide_eq_true_eq] <;>
    omega

theorem sequence_value_utf8_bytes (c : Nat) (hc : c < 0x200000) :
    sequence_value (utf8_bytes [c]) = c := by
  rw [utf8_bytes_one c hc]
  split_ifs <;> simp only [sequence_value] <;> omega

theorem surrogate_utf8_bytes (c : Nat) (hc : c < 0x200000) (hs : ¬(0xD800 ≤ c ∧ c ≤ 0xDFFF)) :
    surrogate_sequence (utf8_bytes [c]) = false := by
  have hv := sequence_value_utf8_bytes c hc
  simp only [surrogate_sequence, hv]
  simp [hs]

theorem utf8_bytes_replicate (n : Nat) : utf8_bytes (List.replicate n 65) = List.replicate n 65 := by
  induction n with
  | zero => rfl
  | succ n ih => rw [List.replicate_succ, utf8_bytes_cons, ih]; rfl

theorem count_chars_overflow (n : Nat) :
    ∀ (rest : List Nat) (fuel count len : Nat), len ≤ INT_MAX → len + n > INT_MAX →
      n ≤ count → count ≤ fuel →
      count_chars fuel (List.replicate n 65 ++ rest) count len = none := by
  induction n with
  | zero => intro rest fuel count len h1 h2 _ _; omega
  | succ n ih =>
    intro rest fuel count len h1 h2 hc hf
    obtain ⟨fuel, rfl⟩ : ∃ k, fuel = k + 1 := ⟨fuel - 1, by omega⟩
    have hc0 : count > 0 := by omega
    rw [count_chars]
    by_cases hl : len + 1 > INT_MAX
    · simp [List.replicate_succ, hl, hc0]
    · have h65 : (65 : Nat) &&& 0x80 = 0 := by decide
      simp only [List.replicate_succ, List.cons_append, List.getElem?_cons_zero, hl, if_false,
        h65, if_true, List.drop_succ_cons, List.drop_zero, hc0]
      exact ih rest fuel (count - 1) (len + 1) (by omega) (by omega) (by omega) (by omega)

theorem count_chars_cases (fuel : Nat) (s : List Nat) (count len : Nat)
    (hb : ∀ b ∈ s, b < 256) (hc : 0 < count) (hcs : count ≤ s.length)
    (hl : len + 1 ≤ INT_MAX) :
    count_chars (fuel + 1) s count len
        = some (.error (make_error_pair "make_scheme_string" UV_ECHARSET)) ∨
      ∃ q rest, s = q ++ rest ∧ structural_sequence q = true ∧ q.length ≤ count ∧
        count_chars (fuel + 1) s count len
          = count_chars fuel rest (count - q.length) (len + 1) := by
  have hl' : ¬ (len + 1 > INT_MAX) := by omega
  have step : ∀ q rest, s = q ++ rest → structural_sequence q = true → q.length ≤ count →
      ∃ q rest, s = q ++ rest ∧ structural_sequence q = true ∧ q.length ≤ count ∧
        count_chars (fuel + 1) s count len
          = count_chars fuel rest (count - q.length) (len + 1) := by
    intro q rest hs hq hqc
    exact ⟨q, rest, hs, hq, hqc, by rw [hs]; exact count_chars_sequence q rest fuel count len hq hqc hl⟩
  match s, hb, hcs, step with
  | [], _, hcs, _ => simp at hcs; omega
  | b0 :: t, hb, hcs, step =>
    have hb0 : b0 < 256 := hb b0 (List.mem_cons_self _ _)
    by_cases c1 : b0 < 0x80
    · exact Or.inr (step [b0] t rfl (by simp [structural_sequence]; omega) (by simpa using hc))
    have h80 : ¬ (b0 &&& 0x80 = 0) := fun h => by have := (and_x80 b0).1 h; omega
    by_cases c2 : b0 < 0xC0
    · left
      have h40 : b0 &&& 0x40 = 0 := (and_x40 b0).2 (by omega)
      rw [count_chars]; simp [hc, hl', h80, h40]
    have h40 : ¬ (b0 &&& 0x40 = 0) := fun h => by have := (and_x40 b0).1 h; omega
    by_cases c3 : b0 < 0xE0
    · have h20 : b0 &&& 0x20 = 0 := (and_x20 b0).2 (by omega)
      by_cases k : count ≥ 2
      · match t, hb, hcs, step with
        | [], _, hcs, _ => simp at hcs; omega
        | b1 :: t, hb, hcs, step =>
          have hb1 : b1 < 256 := hb b1 (by simp)
          by_cases d1 : 0x80 ≤ b1 ∧ b1 ≤ 0xBF
          · exact Or.inr (step [b0, b1] t rfl
              (by simp [structural_sequence, continuation_byte]; omega) (by simpa using k))
          · left
            have h1 : ¬ (b1 &&& 0xC0 = 0x80) := fun h => by have := (and_xC0 b1).1 h; omega
            rw [count_chars]; simp [hc, hl', h80, h40, h20, k, h1]
      · left
        rw [count_chars]; simp [hc, hl', h80, h40, h20, k]
    have h20 : ¬ (b0 &&& 0x20 = 0) := fun h => by have := (and_x20 b0).1 h; omega
    by_cases c4 : b0 < 0xF0
    · have h10 : b0 &&& 0x10 = 0 := (and_x10 b0).2 (by omega)
      by_cases k : count ≥ 3
      · match t, hb, hcs, step with
        | [], _, hcs, _ => simp at hcs; omega
        | [_], _, hcs, _ => simp at hcs; omega
        | b1 :: b2 :: t, hb, hcs, step =>
          have hb1 : b1 < 256 := hb b1 (by simp)
          have hb2 : b2 < 256 := hb b2 (by simp)
          by_cases d1 : 0x80 ≤ b1 ∧ b1 ≤ 0xBF
          · by_cases d2 : 0x80 ≤ b2 ∧ b2 ≤ 0xBF
            · exact Or.inr (step [b0, b1, b2] t rfl
                (by simp [structural_sequence, continuation_byte]; omega) (by simpa using k))
            · left
              have h2 : ¬ (b2 &&& 0xC0 = 0x80) := fun h => by have := (and_xC0 b2).1 h; omega
              rw [count_chars]; simp [hc, hl', h80, h40, h20, h10, k, h2]
          · left
            have h1 : ¬ (b1 &&& 0xC0 = 0x80) := fun h => by have := (and_xC0 b1).1 h; omega
            rw [count_chars]; simp [hc, hl', h80, h40, h20, h10, k, h1]
      · left
        rw [count_chars]; simp [hc, hl', h80, h40, h20, h10, k]
    have h10 : ¬ (b0 &&& 0x10 = 0) := fun h => by have := (and_x10 b0).1 h; omega
    by_cases c5 : b0 < 0xF8
    · have h08 : b0 &&& 0x08 = 0 := (and_x08 b0).2 (by omega)
      by_cases k : count ≥ 4
      · match t, hb, hcs, step with
        | [], _, hcs, _ => simp at hcs; omega
        | [_], _, hcs, _ => simp at hcs; omega
        | [_, _], _, hcs, _ => simp at hcs; omega
        | b1 :: b2 :: b3 :: t, hb, hcs, step =>
          have hb1 : b1 < 256 := hb b1 (by simp)
          have hb2 : b2 < 256 := hb b2 (by simp)
          have hb3 : b3 < 256 := hb b3 (by simp)
          by_cases d1 : 0x80 ≤ b1 ∧ b1 ≤ 0xBF
          · by_cases d2 : 0x80 ≤ b2 ∧ b2 ≤ 0xBF
            · by_cases d3 : 0x80 ≤ b3 ∧ b3 ≤ 0xBF
              · exact Or.inr (step [b0, b1, b2, b3] t rfl
                  (by simp [structural_sequence, continuation_byte]; omega) (by simpa using k))
              · left
                have h3 : ¬ (b3 &&& 0xC0 = 0x80) := fun h => by
                  have := (and_xC0 b3).1 h; omega
                rw [count_chars]; simp [hc, hl', h80, h40, h20, h10, h08, k, h3]
            · left
              have h2 : ¬ (b2 &&& 0xC0 = 0x80) := fun h => by have := (and_xC0 b2).1 h; omega
              rw [count_chars]; simp [hc, hl', h80, h40, h20, h10, h08, k, h2]
          · left
            have h1 : ¬ (b1 &&& 0xC0 = 0x80) := fun h => by have := (and_xC0 b1).1 h; omega
            rw [count_chars]; simp [hc, hl', h80, h40, h20, h10, h08, k, h1]
      · left
        rw [count_chars]; simp [hc, hl', h80, h40, h20, h10, h08, k]
    · left
      have h08 : ¬ (b0 &&& 0x08 = 0) := fun h => by have := (and_x08 b0).1 h; omega
      rw [count_chars]; simp [hc, hl', h80, h40, h20, h10, h08]

theorem count_chars_sound (fuel : Nat) :
    ∀ (s : List Nat) (count len : Nat), (∀ b ∈ s, b < 256) → count ≤ s.length →
      count ≤ fuel → len + count ≤ INT_MAX →
      count_chars fuel s count len
          = some (.error (make_error_pair "make_scheme_string" UV_ECHARSET)) ∨
        ∃ seqs : List (List Nat), s = seqs.flatten ++ s.drop count ∧
          seqs.flatten.length = count ∧
          (∀ q ∈ seqs, structural_sequence q = true) ∧
          count_chars fuel s count len = some (.ok (len + seqs.length)) := by
  induction fuel with
  | zero =>
    intro s count len _ _ hf _
    obtain rfl : count = 0 := by omega
    exact Or.inr ⟨[], by simp, by simp, by simp, by simp [count_chars]⟩
  | succ fuel ih =>
    intro s count len hb hcs hf hl
    by_cases hc : count = 0
    · subst hc
      exact Or.inr ⟨[], by simp, by simp, by simp, by simp [count_chars]⟩
    · rcases count_chars_cases fuel s count len hb (by omega) hcs (by omega) with h | h
      · exact Or.inl h
      · obtain ⟨q, rest, hs, hq, hqc, heq⟩ := h
        have hql := structural_sequence_length q hq
        have hrest : ∀ b ∈ rest, b < 256 := fun b hb' => hb b (by rw [hs]; simp [hb'])
        have hlen : s.length = q.length + rest.length := by rw [hs]; simp
        rcases ih rest (count - q.length) (len + 1) hrest (by omega) (by omega) (by omega)
          with h' | h'
        · exact Or.inl (by rw [heq, h'])
        · obtain ⟨seqs, hsplit, hflat, hall, hres⟩ := h'
          refine Or.inr ⟨q :: seqs, ?_, ?_, ?_, ?_⟩
          · have hd : s.drop count = rest.drop (count - q.length) := by
              rw [hs, List.drop_append_eq_append_drop, List.drop_eq_nil_of_le hqc]; rfl
            rw [hd, List.flatten_cons, List.append_assoc, ← hsplit]; exact hs
          · simp only [List.flatten_cons, List.length_append, hflat]; omega
          · intro q' hq'
            rcases List.mem_cons.1 hq' with rfl | hq'
            · exact hq
            · exact hall q' hq'
          · rw [heq, hres]; simp only [List.length_cons]; congr 2; omega

theorem make_scheme_string2_sound (utf8 : List Nat) (count : Nat) (hb : ∀ b ∈ utf8, b < 256)
    (hc : count ≤ utf8.length) (hl : count ≤ INT_MAX) :
    make_scheme_string2 utf8 count = some (make_error_pair "make_scheme_string" UV_ECHARSET) ∨
      ∃ seqs : List (List Nat), utf8.take count = seqs.flatten ∧
        (∀ q ∈ seqs, accepted_sequence q = true) ∧
        make_scheme_string2 utf8 count = some (.string (seqs.map sequence_value)) := by
  rcases count_chars_sound count utf8 count 0 hb hc (le_refl _) (by omega) with h | h
  · left; unfold make_scheme_string2; rw [h]
  · obtain ⟨seqs, hsplit, hflat, hall, hres⟩ := h
    have hm := make_scheme_string2_flatten seqs (utf8.drop count) hall (by
      have : seqs.length ≤ seqs.flatten.length := by
        clear hsplit hflat hres
        induction seqs with
        | nil => simp
        | cons q seqs ih =>
          have := structural_sequence_length q (hall q (List.mem_cons_self _ _))
          have := ih (fun q' h' => hall q' (List.mem_cons_of_mem _ h'))
          simp only [List.length_cons, List.flatten_cons, List.length_append]; omega
      omega)
    rw [← hsplit, hflat] at hm
    by_cases hsur : seqs.all (fun q => !surrogate_sequence q) = true
    · right
      refine ⟨seqs, ?_, ?_, by rw [hm, if_pos hsur]⟩
      · calc utf8.take count = (seqs.flatten ++ utf8.drop count).take count := by rw [← hsplit]
          _ = seqs.flatten := by
            rw [List.take_append_of_le_length (by omega), List.take_of_length_le (by omega)]
      · intro q hq
        have h1 := hall q hq
        have h2 := (List.all_eq_true.1 hsur) q hq
        simp only [accepted_sequence, h1, Bool.true_and]; exact h2
    · left; rw [hm, if_neg hsur]

theorem structural_sequence_lead (b : Nat) (q : List Nat)
    (h : structural_sequence (b :: q) = true) : b ≤ 0x7F ∨ (0xC0 ≤ b ∧ b ≤ 0xF7) := by
  match q, h with
  | [], h => simp [structural_sequence] at h; omega
  | [_], h => simp [structural_sequence] at h; omega
  | [_, _], h => simp [structural_sequence] at h; omega
  | [_, _, _], h => simp [structural_sequence] at h; omega
  | _ :: _ :: _ :: _ :: _, h => simp [structural_sequence] at h

theorem accepted_input_lead (b : Nat) (t : List Nat) (h : accepted_input (b :: t)) :
    b ≤ 0x7F ∨ (0xC0 ≤ b ∧ b ≤ 0xF7) := by
  obtain ⟨seqs, hs, hall⟩ := h
  match seqs, hs, hall with
  | [], hs, _ => simp at hs
  | [] :: _, _, hall => simpa [accepted_sequence, structural_sequence] using hall [] (by simp)
  | (b' :: q) :: _, hs, hall =>
    have hq := hall (b' :: q) (by simp)
    simp only [accepted_sequence, Bool.and_eq_true] at hq
    simp only [List.flatten_cons, List.cons_append, List.cons.injEq] at hs
    rw [hs.1]
    exact structural_sequence_lead b' q hq.1

theorem length_le_flatten_length (seqs : List (List Nat))
    (hall : ∀ q ∈ seqs, structural_sequence q = true) : seqs.length ≤ seqs.flatten.length := by
  induction seqs with
  | nil => simp
  | cons q seqs ih =>
    have := structural_sequence_length q (hall q (List.mem_cons_self _ _))
    have := ih (fun q' h' => hall q' (List.mem_cons_of_mem _ h'))
    simp only [List.length_cons, List.flatten_cons, List.length_append]; omega

theorem count_chars_none (utf8 : List Nat) (count : Nat)
    (h : count_chars count utf8 count 0 = none) : make_scheme_string2 utf8 count = none := by
  unfold make_scheme_string2; rw [h]

/-! ### The validation pass, case by case -/

theorem count_chars_full (fuel : Nat) (s : List Nat) (count len : Nat) (hc : 0 < count)
    (hl : len + 1 > INT_MAX) : count_chars (fuel + 1) s count len = none := by
  rw [count_chars]
  cases h0 : s[0]? with
  | none => simp [hc]
  | some uc => simp [hc, hl]

theorem count_chars_exact (fuel : Nat) :
    ∀ (s : List Nat) (count len : Nat), (∀ b ∈ s, b < 256) → count ≤ s.length →
      count ≤ fuel → len ≤ INT_MAX →
      ∃ (seqs : List (List Nat)) (rest : List Nat), s = seqs.flatten ++ rest ∧
        (∀ q ∈ seqs, structural_sequence q = true) ∧
        ((seqs.flatten.length = count ∧ len + seqs.length ≤ INT_MAX ∧
            count_chars fuel s count len = some (.ok (len + seqs.length))) ∨
          (seqs.flatten.length < count ∧ len + seqs.length < INT_MAX ∧
            count_chars fuel s count len
              = some (.error (make_error_pair "make_scheme_string" UV_ECHARSET))) ∨
          (seqs.flatten.length < count ∧ len + seqs.length = INT_MAX ∧
            count_chars fuel s count len = none)) := by
  induction fuel with
  | zero =>
    intro s count len _ _ hf hl
    obtain rfl : count = 0 := by omega
    exact ⟨[], s, by simp, by simp, Or.inl ⟨by simp, by simpa using hl, by simp [count_chars]⟩⟩
  | succ fuel ih =>
    intro s count len hb hcs hf hl
    by_cases hc : count = 0
    · subst hc
      exact ⟨[], s, by simp, by simp,
        Or.inl ⟨by simp, by simpa using hl, by simp [count_chars]⟩⟩
    · by_cases hfull : len + 1 > INT_MAX
      · exact ⟨[], s, by simp, by simp,
          Or.inr (Or.inr ⟨by simpa using Nat.pos_of_ne_zero hc, by simp; omega,
            count_chars_full fuel s count len (Nat.pos_of_ne_zero hc) hfull⟩)⟩
      · rcases count_chars_cases fuel s count len hb (by omega) hcs (by omega) with h | h
        · exact ⟨[], s, by simp, by simp,
            Or.inr (Or.inl ⟨by simpa using Nat.pos_of_ne_zero hc, by simp; omega, h⟩)⟩
        · obtain ⟨q, rest, hs, hq, hqc, heq⟩ := h
          have hql := structural_sequence_length q hq
          have hrest : ∀ b ∈ rest, b < 256 := fun b hb1 => hb b (by rw [hs]; simp [hb1])
          have hlen : s.length = q.length + rest.length := by rw [hs]; simp
          obtain ⟨seqs, rest1, hsplit, hall, hcase⟩ :=
            ih rest (count - q.length) (len + 1) hrest (by omega) (by omega) (by omega)
          refine ⟨q :: seqs, rest1, ?_, ?_, ?_⟩
          · rw [List.flatten_cons, List.append_assoc, ← hsplit]; exact hs
          · intro q1 hq1
            rcases List.mem_cons.1 hq1 with rfl | hq1
            · exact hq
            · exact hall q1 hq1
          · simp only [List.flatten_cons, List.length_append, List.length_cons]
            rcases hcase with ⟨h1, h2, h3⟩ | ⟨h1, h2, h3⟩ | ⟨h1, h2, h3⟩
            · exact Or.inl ⟨by omega, by omega, by
                rw [heq, h3]; congr 2; omega⟩
            · exact Or.inr (Or.inl ⟨by omega, by omega, by rw [heq, h3]⟩)
            · exact Or.inr (Or.inr ⟨by omega, by omega, by rw [heq, h3]⟩)

theorem count_chars_prefix (seqs : List (List Nat)) :
    ∀ (rest : List Nat) (fuel count len : Nat), (∀ q ∈ seqs, structural_sequence q = true) →
      len + seqs.length ≤ INT_MAX →
      count_chars (seqs.length + fuel) (seqs.flatten ++ rest) (seqs.flatten.length + count) len
        = count_chars fuel rest count (len + seqs.length) := by
  induction seqs with
  | nil => intro rest fuel count len _ _; simp
  | cons q seqs ih =>
    intro rest fuel count len hall hl
    have hq := hall q (List.mem_cons_self _ _)
    simp only [List.length_cons] at hl
    rw [List.flatten_cons, List.append_assoc, List.length_cons,
      show seqs.length + 1 + fuel = (seqs.length + fuel) + 1 by omega,
      count_chars_sequence q _ _ _ len hq (by simp; omega) (by omega)]
    have hcnt : (q ++ seqs.flatten).length + count - q.length = seqs.flatten.length + count := by
      simp only [List.length_append]; omega
    rw [hcnt, ih rest fuel count (len + 1) (fun q1 h1 => hall q1 (List.mem_cons_of_mem _ h1))
      (by omega)]
    congr 1; omega

theorem overflow_prefix_none (seqs : List (List Nat)) (rest tail : List Nat)
    (hall : ∀ q ∈ seqs, structural_sequence q = true) (hlen : seqs.length = INT_MAX)
    (hrest : rest ≠ []) :
    count_chars (seqs.flatten ++ rest).length (seqs.flatten ++ rest ++ tail)
      (seqs.flatten ++ rest).length 0 = none := by
  have hfl := length_le_flatten_length seqs hall
  have hr : 0 < rest.length := List.length_pos.2 hrest
  have hfuel : (seqs.flatten ++ rest).length
      = seqs.length + ((seqs.flatten.length - seqs.length + rest.length - 1) + 1) := by
    simp only [List.length_append]; omega
  have hcount : (seqs.flatten ++ rest).length = seqs.flatten.length + rest.length :=
    List.length_append _ _
  have h1 := count_chars_prefix seqs (rest ++ tail)
    ((seqs.flatten.length - seqs.length + rest.length - 1) + 1) rest.length 0 hall (by omega)
  rw [← hfuel] at h1
  rw [List.append_assoc,
    show count_chars (seqs.flatten ++ rest).length (seqs.flatten ++ (rest ++ tail))
      (seqs.flatten ++ rest).length 0
    = count_chars (seqs.flatten ++ rest).length (seqs.flatten ++ (rest ++ tail))
      (seqs.flatten.length + rest.length) 0 by rw [← hcount], h1]
  exact count_chars_full _ _ rest.length _ hr (by omega)

theorem counter_overflows_none (utf8 : List Nat) (h : counter_overflows utf8) :
    count_chars utf8.length utf8 utf8.length 0 = none := by
  obtain ⟨seqs, rest, rfl, hall, hlen, hrest⟩ := h
  have := overflow_prefix_none seqs rest [] hall hlen hrest
  rwa [List.append_nil] at this

theorem short_input_no_overflow (utf8 : List Nat) (h : utf8.length ≤ INT_MAX) :
    ¬ counter_overflows utf8 := by
  rintro ⟨seqs, rest, rfl, hall, hlen, hrest⟩
  have hfl := length_le_flatten_length seqs hall
  have hr : 0 < rest.length := List.length_pos.2 hrest
  simp only [List.length_append] at h
  omega

/-- C2, counterexample: for the string of 2^31 letters `A`, all of them Unicode
scalar values, `string_to_utf8` produces 2^31 bytes, and on these the counter
`int len` of `make_scheme_string2` overflows (undefined behaviour, `none` in the
model): the decoding does not yield the string. -/
theorem roundtrip_fails_at_int_overflow :
    (∀ c ∈ List.replicate 2147483648 65, unicode_scalar c) ∧
    string_to_utf8 true (List.replicate 2147483648 65)
      = (some (List.replicate 2147483648 65), 2147483648) ∧
    make_scheme_string2 (List.replicate 2147483648 65) 2147483648 = none := by
  refine ⟨?_, ?_, ?_⟩
  · intro c hc
    rw [List.eq_of_mem_replicate hc]
    decide
  · unfold string_to_utf8
    rw [utf8_length_eq, utf8_bytes_replicate, List.length_replicate]
    rfl
  · exact count_chars_none _ _
      (by
        have h := count_chars_overflow 2147483648 [] 2147483648 2147483648 0
          (by unfold INT_MAX; omega) (by unfold INT_MAX; omega) (Nat.le_refl _) (Nat.le_refl _)
        rwa [List.append_nil] at h)

/-- C2, as amended: for every host string `s` of Unicode scalar values with at
most 2^31 - 1 characters (the empty string and strings containing U+0000
included), `string_to_utf8` returns a buffer and a length on which
`make_scheme_string2` succeeds and yields exactly `s`. -/
theorem utf8_roundtrip (s : List Nat) (hs : ∀ c ∈ s, unicode_scalar c)
    (hl : s.length ≤ INT_MAX) :
    ∃ utf8 len, string_to_utf8 true s = (some utf8, len) ∧
      make_scheme_string2 utf8 len = some (.string s) := by
  refine ⟨utf8_bytes s, utf8_length s, rfl, ?_⟩
  have hlt : ∀ c ∈ s, c < 0x200000 := fun c hc => by
    have := (hs c hc).1; omega
  have hstruct : ∀ q ∈ s.map (fun c => utf8_bytes [c]), structural_sequence q = true := by
    intro q hq
    obtain ⟨c, hc, rfl⟩ := List.mem_map.1 hq
    exact structural_utf8_bytes c (hlt c hc)
  have h := make_scheme_string2_flatten (s.map (fun c => utf8_bytes [c])) [] hstruct
    (by simpa using hl)
  rw [List.append_nil, ← utf8_bytes_flatten, ← utf8_length_eq] at h
  rw [h]
  have hall : (s.map (fun c => utf8_bytes [c])).all (fun q => !surrogate_sequence q) = true := by
    rw [List.all_eq_true]
    intro q hq
    obtain ⟨c, hc, rfl⟩ := List.mem_map.1 hq
    rw [surrogate_utf8_bytes c (hlt c hc) (hs c hc).2]; rfl
  rw [if_pos hall]
  congr 2
  rw [List.map_map]
  conv_rhs => rw [← List.map_id s]
  apply List.map_congr_left
  intro c hc
  exact sequence_value_utf8_bytes c (hlt c hc)

/-- C2, witness: the string `A`, U+0000, `é`, `€`, U+1F600 and the empty string
both survive the round trip. -/
theorem utf8_roundtrip_witness :
    ((∀ c ∈ [0x41, 0, 0xE9, 0x20AC, 0x1F600], unicode_scalar c) ∧
      [0x41, 0, 0xE9, 0x20AC, 0x1F600].length ≤ INT_MAX ∧
      ∃ utf8 len, string_to_utf8 true [0x41, 0, 0xE9, 0x20AC, 0x1F600] = (some utf8, len) ∧
        make_scheme_string2 utf8 len = some (.string [0x41, 0, 0xE9, 0x20AC, 0x1F600])) ∧
    (∃ utf8 len, string_to_utf8 true [] = (some utf8, len) ∧
      make_scheme_string2 utf8 len = some (.string [])) :=
  ⟨⟨by decide, by decide,
      utf8_roundtrip [0x41, 0, 0xE9, 0x20AC, 0x1F600] (by decide) (by decide)⟩,
    utf8_roundtrip [] (by simp) (by decide)⟩

theorem make_scheme_string2_defined (utf8 : List Nat) (count : Nat) (hb : ∀ b ∈ utf8, b < 256)
    (hc : count ≤ utf8.length) (hl : count ≤ INT_MAX) :
    ∃ x, make_scheme_string2 utf8 count = some x := by
  rcases make_scheme_string2_sound utf8 count hb hc hl with h | ⟨_, _, _, h⟩
  · exact ⟨_, h⟩
  · exact ⟨_, h⟩

theorem strlen_le (s : List Nat) : strlen s ≤ s.length :=
  (List.takeWhile_sublist _).length_le

theorem make_scheme_string_defined (utf8 : List Nat) (hb : ∀ b ∈ utf8, b < 256)
    (hl : utf8.length ≤ INT_MAX) : ∃ x, make_scheme_string utf8 = some x :=
  make_scheme_string2_defined utf8 (strlen utf8) hb (strlen_le utf8)
    (Nat.le_trans (strlen_le utf8) hl)

/-- C4: a step of `database_worker` ends in `returned` (the worker has left its
loop) only from the point right after the call of `close_worker`, with
`sqlite_rc = SQLITE_OK`; from the point after any work function, in every
other case, the step clears the work slot, sends exactly one async wake and
ends in the wait for more work; and the step that calls `close_worker` leads to
that point with `sqlite_rc` as the engine's close answered. -/
theorem worker_leaves_loop_only_after_close_ok (a : answer_t) (w : World) :
    (∀ pc pc1 w1 ev, database_worker a pc w = some (pc1, w1, ev) → pc1 = .returned →
      pc = .ran .close_worker ∧ w.d.sqlite_rc = SQLITE_OK) ∧
    (∀ work, ∃ pc1 w1 ev, database_worker a (.ran work) w = some (pc1, w1, ev) ∧
      w1.d.work = none ∧ (ev.filter Event.is_async_send).length = 1 ∧
      (pc1 = .returned ↔ work = .close_worker ∧ w.d.sqlite_rc = SQLITE_OK) ∧
      (pc1 ≠ .returned → pc1 = .wait ∧
        ∃ pc2, database_worker a pc1 w1 = some (pc2, w1, []) ∧ pc2 = .top)) ∧
    (∀ pc1 w1 ev, database_worker a (.call .close_worker) w = some (pc1, w1, ev) →
      pc1 = .ran .close_worker ∧ w1.d.sqlite_rc = a.rc) := by
  refine ⟨?_, ?_, ?_⟩
  · intro pc pc1 w1 ev h hr
    subst hr
    cases pc with
    | entry => simp [database_worker] at h
    | top =>
      simp only [database_worker] at h
      split at h <;> simp at h
    | call work =>
      simp only [database_worker] at h
      split at h <;> simp at h
    | ran work =>
      simp only [database_worker] at h
      split at h
      · rename_i hc; exact ⟨by rw [hc.1], hc.2⟩
      · simp at h
    | wait => simp [database_worker] at h
    | returned => simp [database_worker] at h
  · intro work
    by_cases hc : work = .close_worker ∧ w.d.sqlite_rc = SQLITE_OK
    · refine ⟨.returned, { w with d := { w.d with work := none } },
        [.uv_mutex_lock, .uv_async_send, .uv_mutex_unlock], ?_, rfl, ?_, ?_, ?_⟩
      · simp only [database_worker, if_pos hc]
      · simp [Event.is_async_send]
      · simp [hc]
      · intro h; exact absurd rfl h
    · refine ⟨.wait, { w with d := { w.d with work := none } },
        [.uv_mutex_lock, .uv_async_send, .uv_cond_wait], ?_, rfl, ?_, ?_, ?_⟩
      · simp only [database_worker, if_neg hc]
      · simp [Event.is_async_send]
      · simp [hc]
      · intro _; exact ⟨rfl, .top, rfl, rfl⟩
  · intro pc1 w1 ev h
    simp only [database_worker, run_work, close_worker] at h
    split at h
    · simp at h
    · rename_i w2 ev2 heq
      split at heq
      · simp at heq
      · simp only [Option.some.injEq, Prod.mk.injEq] at heq h
        obtain ⟨rfl, rfl, _⟩ := h
        obtain ⟨rfl, _⟩ := heq
        exact ⟨rfl, rfl⟩

/-- C4, witness: the step after a close that the engine accepted leaves the
loop, and it is a step from the point after `close_worker` with
`sqlite_rc = SQLITE_OK`; after a close that the engine refused with code 5 the
worker clears the slot, sends one wake and waits. -/
theorem worker_leaves_loop_only_after_close_ok_witness :
    database_worker { fuel := 1, rc := 0, stmt := 0, alloc := none } (.ran .close_worker)
        closed_world
      = some (.returned, { closed_world with d := { closed_world.d with work := none } },
          [.uv_mutex_lock, .uv_async_send, .uv_mutex_unlock]) ∧
    (worker_pc.ran .close_worker = .ran .close_worker ∧ closed_world.d.sqlite_rc = SQLITE_OK) ∧
    (∀ work, ∃ pc1 w1 ev,
      database_worker { fuel := 1, rc := 5, stmt := 0, alloc := none } (.ran work) refused_world
        = some (pc1, w1, ev) ∧
      w1.d.work = none ∧ (ev.filter Event.is_async_send).length = 1 ∧
      (pc1 = .returned ↔ work = .close_worker ∧ refused_world.d.sqlite_rc = SQLITE_OK) ∧
      (pc1 ≠ .returned → pc1 = .wait ∧
        ∃ pc2, database_worker { fuel := 1, rc := 5, stmt := 0, alloc := none } pc1 w1
          = some (pc2, w1, []) ∧ pc2 = .top)) :=
  ⟨rfl,
    (worker_leaves_loop_only_after_close_ok { fuel := 1, rc := 0, stmt := 0, alloc := none }
      closed_world).1 (.ran .close_worker) .returned
      { closed_world with d := { closed_world.d with work := none } }
      [.uv_mutex_lock, .uv_async_send, .uv_mutex_unlock] rfl rfl,
    (worker_leaves_loop_only_after_close_ok { fuel := 1, rc := 5, stmt := 0, alloc := none }
      refused_world).2.1⟩
/-- C8: when `malloc_container(database_t)` fails in `open_cb` after the engine
handle was created (`r->result = 0`), the handler delivers
`(osi_open_database, ENOMEM)` without any call of `sqlite3_close`: the engine
handle is not closed. The four later failures (async init, mutex init, condvar
init, thread creation) do close it, once, before the one delivery, and the
thread creation failure also destroys the condvar and the mutex and closes the
async handle, each once. -/
theorem open_cb_failure_paths (r : open_req_t) (p : Nat) (async_rc mutex_rc cond_rc thread_rc : Int)
    (h : r.result = 0) :
    open_cb r none async_rc mutex_rc cond_rc thread_rc
        = (none, [.free_filename, .Sunlock_object r.callback, .free_request,
            .add_callback1 r.callback (make_error_pair "osi_open_database" UV_ENOMEM)]) ∧
      (async_rc < 0 →
        open_cb r (some p) async_rc mutex_rc cond_rc thread_rc
          = (none, [.free_filename, .Sunlock_object r.callback, .free_request, .uv_async_init,
              .sqlite (.close r.db), .free_database p,
              .add_callback1 r.callback (make_error_pair "uv_async_init" async_rc)])) ∧
      (0 ≤ async_rc → mutex_rc < 0 →
        open_cb r (some p) async_rc mutex_rc cond_rc thread_rc
          = (none, [.free_filename, .Sunlock_object r.callback, .free_request, .uv_async_init,
              .uv_mutex_init, .sqlite (.close r.db), .uv_close,
              .add_callback1 r.callback (make_error_pair "uv_mutex_init" mutex_rc)])) ∧
      (0 ≤ async_rc → 0 ≤ mutex_rc → cond_rc < 0 →
        open_cb r (some p) async_rc mutex_rc cond_rc thread_rc
          = (none, [.free_filename, .Sunlock_object r.callback, .free_request, .uv_async_init,
              .uv_mutex_init, .uv_cond_init, .uv_mutex_destroy, .sqlite (.close r.db), .uv_close,
              .add_callback1 r.callback (make_error_pair "uv_cond_init" cond_rc)])) ∧
      (0 ≤ async_rc → 0 ≤ mutex_rc → 0 ≤ cond_rc → thread_rc < 0 →
        open_cb r (some p) async_rc mutex_rc cond_rc thread_rc
          = (none, [.free_filename, .Sunlock_object r.callback, .free_request, .uv_async_init,
              .uv_mutex_init, .uv_cond_init, .uv_thread_create, .uv_cond_destroy,
              .uv_mutex_destroy, .sqlite (.close r.db), .uv_close,
              .add_callback1 r.callback (make_error_pair "uv_thread_init" thread_rc)])) := by
  refine ⟨?_, ?_, ?_, ?_, ?_⟩
  · simp [open_cb, h]
  · intro h1; simp [open_cb, h, h1]
  · intro h1 h2; simp [open_cb, h, Int.not_lt.2 h1, h2]
  · intro h1 h2 h3; simp [open_cb, h, Int.not_lt.2 h1, Int.not_lt.2 h2, h3]
  · intro h1 h2 h3 h4
    simp [open_cb, h, Int.not_lt.2 h1, Int.not_lt.2 h2, Int.not_lt.2 h3, h4]

/-- C8, witness: the open of `opened_request` when the allocation of the
Database record fails: no event of the handler is a call into the engine. -/
theorem open_cb_failure_paths_witness :
    opened_request.result = 0 ∧
      (open_cb opened_request none 0 0 0 0).2.all (fun e => !e.is_sqlite) = true ∧
      open_cb opened_request none 0 0 0 0
        = (none, [.free_filename, .Sunlock_object (.procedure 0), .free_request,
            .add_callback1 (.procedure 0) (make_error_pair "osi_open_database" UV_ENOMEM)]) :=
  ⟨rfl, rfl, (open_cb_failure_paths opened_request 9 0 0 0 0 rfl).1⟩

/-- C9: with `sqlite_rc = SQLITE_OK`, `close_cb` unpins the callback, joins the
worker thread, destroys the condvar and the mutex, closes the async handle and
delivers true, in this order. With any other code (and an error message of at
most 2^31 - 1 bytes) it makes none of these teardown calls, delivers the
failure `(sqlite3_close, code, message)`, and leaves `busy = 0`, so that a
following `osi_close_database` returns true; and the step of the worker after
such a close ends in the wait for more work, not outside the loop. -/
theorem close_cb_teardown_only_on_ok (T : Int → Int) (w : World) (errmsg : List Nat)
    (callback : ptr) (a : answer_t) :
    (w.d.sqlite_rc = SQLITE_OK →
      close_cb T errmsg w
        = some ({ w with d := { w.d with busy := 0, callback := .Svoid } },
            [.Sunlock_object w.d.callback, .uv_thread_join, .uv_cond_destroy, .uv_mutex_destroy,
              .uv_close, .add_callback1 w.d.callback .Strue])) ∧
    (w.d.sqlite_rc ≠ SQLITE_OK → (∀ b ∈ errmsg, b < 256) → errmsg.length ≤ INT_MAX →
      ∃ msg w1,
        close_cb T errmsg w
          = some (w1, [.Sunlock_object w.d.callback, .sqlite (.errmsg w.d.db),
              .add_callback1 w.d.callback
                (.pair (.symbol "sqlite3_close") (.pair (.integer (T w.d.sqlite_rc)) msg))]) ∧
        w1 = { w with d := { w.d with busy := 0, callback := .Svoid } } ∧
        w1.d.busy = 0 ∧
        (osi_close_database w1 callback).1 = .Strue ∧
        (osi_close_database w1 callback).2.1.d.work = some .close_worker ∧
        ∃ w2 ev, database_worker a (.ran .close_worker) w = some (.wait, w2, ev)) := by
  refine ⟨?_, ?_⟩
  · intro h; simp [close_cb, h]
  · intro h hb hl
    obtain ⟨msg, hmsg⟩ := make_scheme_string_defined errmsg hb hl
    refine ⟨msg, _, ?_, rfl, rfl, ?_, ?_, ?_⟩
    · simp [close_cb, h, make_sqlite_error, hmsg]
    · simp [osi_close_database]
    · simp [osi_close_database]
    · exact ⟨{ w with d := { w.d with work := none } },
        [.uv_mutex_lock, .uv_async_send, .uv_cond_wait], by simp [database_worker, h]⟩

/-- C9, witness: the completion of a close that the engine accepted, and of a
close that it refused with code 5 and the message `busy`. -/
theorem close_cb_teardown_only_on_ok_witness :
    close_cb (fun rc => rc) [] closed_world
        = some ({ closed_world with d := { closed_world.d with busy := 0, callback := .Svoid } },
            [.Sunlock_object closed_world.d.callback, .uv_thread_join, .uv_cond_destroy,
              .uv_mutex_destroy, .uv_close, .add_callback1 closed_world.d.callback .Strue]) ∧
    (∃ msg w1,
        close_cb (fun rc => rc) [0x62, 0x75, 0x73, 0x79] refused_world
          = some (w1, [.Sunlock_object refused_world.d.callback,
              .sqlite (.errmsg refused_world.d.db),
              .add_callback1 refused_world.d.callback
                (.pair (.symbol "sqlite3_close")
                  (.pair (.integer ((fun rc => rc) refused_world.d.sqlite_rc)) msg))]) ∧
        w1 = { refused_world with d := { refused_world.d with busy := 0, callback := .Svoid } } ∧
        w1.d.busy = 0 ∧
        (osi_close_database w1 (.procedure 1)).1 = .Strue ∧
        (osi_close_database w1 (.procedure 1)).2.1.d.work = some .close_worker ∧
        ∃ w2 ev, database_worker { fuel := 1, rc := 5, stmt := 0, alloc := none }
          (.ran .close_worker) refused_world = some (.wait, w2, ev)) :=
  ⟨(close_cb_teardown_only_on_ok (fun rc => rc) closed_world [] (.procedure 1)
      { fuel := 1, rc := 0, stmt := 0, alloc := none }).1 rfl,
    (close_cb_teardown_only_on_ok (fun rc => rc) refused_world [0x62, 0x75, 0x73, 0x79]
      (.procedure 1) { fuel := 1, rc := 5, stmt := 0, alloc := none }).2
      (by decide) (by decide) (by decide)⟩
/-! ## Properties of the statement list -/

theorem dll_congr (st st1 : Nat → Option statement_t) :
    ∀ (l : List Nat) (prev head : Option Nat), (∀ q ∈ l, st1 q = st q) →
      dll st prev head l → dll st1 prev head l := by
  intro l
  induction l with
  | nil => intro prev head _ h; exact h
  | cons p l ih =>
    intro prev head hq h
    obtain ⟨hh, s, hs, hp, hl⟩ := h
    refine ⟨hh, s, ?_, hp, ih _ _ (fun q hq1 => hq q (List.mem_cons_of_mem _ hq1)) hl⟩
    rw [hq p (List.mem_cons_self _ _)]; exact hs

theorem dll_unique (st : Nat → Option statement_t) :
    ∀ (l l2 : List Nat) (prev prev2 head : Option Nat),
      dll st prev head l → dll st prev2 head l2 → l = l2 := by
  intro l
  induction l with
  | nil =>
    intro l2 prev prev2 head h h2
    cases l2 with
    | nil => rfl
    | cons p2 l2 =>
      have h1 : head = none := h
      rw [h1] at h2
      exact absurd h2.1 (by simp)
  | cons p l ih =>
    intro l2 prev prev2 head h h2
    obtain ⟨hh, s, hs, _, hl⟩ := h
    cases l2 with
    | nil =>
      have h1 : head = none := h2
      rw [h1] at hh
      exact absurd hh (by simp)
    | cons p2 l2 =>
      obtain ⟨hh2, s2, hs2, _, hl2⟩ := h2
      have hp : p2 = p := by rw [hh] at hh2; exact (Option.some.inj hh2).symm
      subst hp
      rw [hs] at hs2
      have hs3 : s2 = s := (Option.some.inj hs2).symm
      subst hs3
      rw [ih l2 _ _ _ hl hl2]

theorem dll_mem (st : Nat → Option statement_t) :
    ∀ (l : List Nat) (prev head : Option Nat) (p : Nat), dll st prev head l → p ∈ l →
      ∃ prev1 l1, dll st prev1 (some p) l1 ∧ l1.length ≤ l.length ∧
        ∃ s, st p = some s := by
  intro l
  induction l with
  | nil => intro prev head p _ hp; simp at hp
  | cons q l ih =>
    intro prev head p h hp
    obtain ⟨hh, s, hs, hpv, hl⟩ := h
    rcases List.mem_cons.1 hp with rfl | hp
    · exact ⟨prev, p :: l, ⟨rfl, s, hs, hpv, hl⟩, le_refl _, s, hs⟩
    · obtain ⟨prev1, l1, h1, hlen, hs1⟩ := ih _ _ p hl hp
      exact ⟨prev1, l1, h1, by simp only [List.length_cons]; omega, hs1⟩

theorem dll_nodup (st : Nat → Option statement_t) :
    ∀ (l : List Nat) (prev head : Option Nat), dll st prev head l → l.Nodup := by
  intro l
  induction l with
  | nil => intro _ _ _; exact List.nodup_nil
  | cons p l ih =>
    intro prev head h
    have h0 := h
    obtain ⟨hh, s, hs, hpv, hl⟩ := h
    refine List.nodup_cons.2 ⟨?_, ih _ _ hl⟩
    intro hp
    obtain ⟨prev1, l1, h1, hlen, _⟩ := dll_mem st l _ _ p hl hp
    rw [hh] at h0
    have := dll_unique st _ _ _ _ _ h0 h1
    rw [← this] at hlen
    simp only [List.length_cons] at hlen
    omega

theorem close_worker_loop_spec :
    ∀ (l : List Nat) (fuel : Nat) (w : World) (ev : List Event) (prev : Option Nat),
      dll w.statements prev w.d.statement l → l.length < fuel →
      ∃ w1, close_worker_loop fuel w ev
          = some (w1, ev ++ (l.map (fun p =>
              match w.statements p with
              | some s => [Event.sqlite (.finalize s.stmt), Event.free_statement p]
              | none => [])).flatten) ∧
        w1.d = { w.d with statement := none } ∧
        (∀ p ∈ l, w1.statements p = none) ∧
        (∀ p, p ∉ l → w1.statements p = w.statements p) := by
  intro l
  induction l with
  | nil =>
    intro fuel w ev prev h hf
    obtain ⟨fuel, rfl⟩ : ∃ k, fuel = k + 1 := ⟨fuel - 1, by simp at hf; omega⟩
    have h1 : w.d.statement = none := h
    refine ⟨w, ?_, ?_, by simp, by simp⟩
    · simp [close_worker_loop, h1]
    · cases w with
      | mk d st =>
        cases d
        simp only at h1
        simp [h1]
  | cons p l ih =>
    intro fuel w ev prev h hf
    have hnd := dll_nodup _ _ _ _ h
    obtain ⟨hh, s, hs, hpv, hl⟩ := h
    obtain ⟨fuel, rfl⟩ : ∃ k, fuel = k + 1 := ⟨fuel - 1, by simp at hf; omega⟩
    have hpl : p ∉ l := (List.nodup_cons.1 hnd).1
    have hframe : ∀ q ∈ l, Function.update w.statements p none q = w.statements q := by
      intro q hq
      have : q ≠ p := fun e => hpl (e ▸ hq)
      simp [Function.update, this]
    obtain ⟨w1, hrun, hd, hnone, hsame⟩ := ih fuel
      { d := { w.d with statement := s.next },
        statements := Function.update w.statements p none }
      (ev ++ [.sqlite (.finalize s.stmt), .free_statement p]) (some p)
      (dll_congr _ _ _ _ _ hframe hl) (by simp only [List.length_cons] at hf; omega)
    refine ⟨w1, ?_, ?_, ?_, ?_⟩
    · have hmap : l.map (fun q =>
            match Function.update w.statements p none q with
            | some s => [Event.sqlite (.finalize s.stmt), Event.free_statement q]
            | none => [])
          = l.map (fun q =>
            match w.statements q with
            | some s => [Event.sqlite (.finalize s.stmt), Event.free_statement q]
            | none => []) :=
        List.map_congr_left (fun q hq => by rw [hframe q hq])
      simp only [close_worker_loop, hh, hs]
      rw [hrun, hmap]
      simp only [List.map_cons, List.flatten_cons, hs, List.append_assoc, List.cons_append,
        List.nil_append]
    · rw [hd]
    · intro q hq
      rcases List.mem_cons.1 hq with rfl | hq
      · rw [hsame q hpl]; simp [Function.update]
      · exact hnone q hq
    · intro q hq
      have hq1 : q ∉ l := fun h => hq (List.mem_cons_of_mem _ h)
      have hq2 : q ≠ p := fun e => hq (e ▸ List.mem_cons_self _ _)
      rw [hsame q hq1]
      simp [Function.update, hq2]


theorem dll_at (st : Nat → Option statement_t) (p : Nat) (l2 : List Nat) :
    ∀ (l1 : List Nat) (prev head : Option Nat), dll st prev head (l1 ++ p :: l2) →
      ∃ s, st p = some s ∧ ((l1 = [] ∧ s.prev = prev) ∨ (∃ q ∈ l1, s.prev = some q)) ∧
        ((l2 = [] ∧ s.next = none) ∨ (∃ r l3, l2 = r :: l3 ∧ s.next = some r)) ∧
        dll st (some p) s.next l2 := by
  intro l1
  induction l1 with
  | nil =>
    intro prev head h
    obtain ⟨_, s, hs, hpv, hl⟩ := h
    refine ⟨s, hs, Or.inl ⟨rfl, hpv⟩, ?_, hl⟩
    cases l2 with
    | nil => exact Or.inl ⟨rfl, hl⟩
    | cons r l3 => exact Or.inr ⟨r, l3, rfl, hl.1⟩
  | cons q l1 ih =>
    intro prev head h
    obtain ⟨_, sq, _, _, hl⟩ := h
    obtain ⟨s, hs, hprev, hnext, hl2⟩ := ih _ _ hl
    refine ⟨s, hs, Or.inr ?_, hnext, hl2⟩
    rcases hprev with ⟨rfl, hp⟩ | ⟨q1, hq1, hp⟩
    · exact ⟨q, List.mem_cons_self _ _, hp⟩
    · exact ⟨q1, List.mem_cons_of_mem _ hq1, hp⟩

theorem dll_remove (st st3 : Nat → Option statement_t) (p : Nat) (s : statement_t)
    (l2 : List Nat) (hs : st p = some s)
    (h3 : ∀ x, x ≠ p → st3 x =
      if s.prev = some x then (st x).map (fun n => { n with next := s.next })
      else if s.next = some x then (st x).map (fun n => { n with prev := s.prev })
      else st x) :
    ∀ (l1 : List Nat) (prev head : Option Nat), dll st prev head (l1 ++ p :: l2) →
      (l1 ++ p :: l2).Nodup → (∀ q0, prev = some q0 → q0 ∉ l1 ++ p :: l2) →
      dll st3 prev (if l1 = [] then s.next else head) (l1 ++ l2) := by
  intro l1
  induction l1 with
  | nil =>
    intro prev head h hnd hprev
    obtain ⟨_, s1, hs1, hpv, hl⟩ := h
    rw [hs] at hs1
    obtain rfl : s = s1 := Option.some.inj hs1
    simp only [List.nil_append, if_true] at hnd hprev ⊢
    cases l2 with
    | nil => exact hl
    | cons r l3 =>
      obtain ⟨hn, sr, hsr, hrp, hl3⟩ := hl
      have hrp1 : r ≠ p := fun e => (List.nodup_cons.1 hnd).1 (e ▸ List.mem_cons_self _ _)
      have hnd3 := List.nodup_cons.1 (List.nodup_cons.1 hnd).2
      have hpr : ¬ (s.prev = some r) := fun e =>
        hprev r (by rw [← hpv]; exact e) (by simp)
      refine ⟨hn, { sr with prev := s.prev }, ?_, hpv, ?_⟩
      · rw [h3 r hrp1, if_neg hpr, if_pos hn, hsr]; rfl
      · refine dll_congr st st3 l3 _ _ ?_ hl3
        intro x hx
        have hxp : x ≠ p := fun e => (List.nodup_cons.1 hnd).1 (e ▸ List.mem_cons_of_mem _ hx)
        have hxr : x ≠ r := fun e => hnd3.1 (e ▸ hx)
        have h1 : ¬ (s.prev = some x) := fun e =>
          hprev x (by rw [← hpv]; exact e) (by simp [hx])
        have h2 : ¬ (s.next = some x) := fun e => by
          rw [hn] at e; exact hxr (Option.some.inj e).symm
        rw [h3 x hxp, if_neg h1, if_neg h2]
  | cons q l1 ih =>
    intro prev head h hnd hprev
    obtain ⟨hh, sq, hsq, hqp, hl⟩ := h
    have hnd1 : (l1 ++ p :: l2).Nodup := (List.nodup_cons.1 hnd).2
    have hq : q ∉ l1 ++ p :: l2 := (List.nodup_cons.1 hnd).1
    have hqp1 : q ≠ p := fun e => hq (by simp [e])
    have hih := ih (some q) sq.next hl hnd1
      (fun q0 e => by rw [← Option.some.inj e]; exact hq)
    obtain ⟨s1, hs1, hprev1, hnext1, _⟩ := dll_at st p l2 l1 _ _ hl
    rw [hs] at hs1
    obtain rfl : s = s1 := Option.some.inj hs1
    have hnq : ¬ (s.next = some q) := by
      rcases hnext1 with ⟨_, hn⟩ | ⟨r, l3, rfl, hn⟩
      · rw [hn]; simp
      · rw [hn]; intro e
        exact hq (by rw [← Option.some.inj e]; simp)
    simp only [List.cons_append, List.cons_ne_nil, if_false]
    by_cases hl1 : l1 = []
    · subst hl1
      have hp : s.prev = some q := by
        rcases hprev1 with ⟨_, hp⟩ | ⟨q1, hq1, _⟩
        · exact hp
        · simp at hq1
      refine ⟨hh, { sq with next := s.next }, ?_, hqp, ?_⟩
      · rw [h3 q hqp1, if_pos hp, hsq]; rfl
      · simpa using hih
    · have hp : ¬ (s.prev = some q) := by
        rcases hprev1 with ⟨e, _⟩ | ⟨q1, hq1, hp⟩
        · exact absurd e hl1
        · rw [hp]; intro e
          exact hq (by rw [← Option.some.inj e]; simp [hq1])
      refine ⟨hh, sq, ?_, hqp, ?_⟩
      · rw [h3 q hqp1, if_neg hp, if_neg hnq, hsq]
      · simpa [hl1] using hih

theorem dll_links (st : Nat → Option statement_t) :
    ∀ (l : List Nat) (prev head : Option Nat), dll st prev head l →
      (∀ p sp, head = some p → st p = some sp → sp.prev = prev) ∧
      (∀ n sn m, n ∈ l → st n = some sn → sn.next = some m →
        ∃ sm, st m = some sm ∧ sm.prev = some n) := by
  intro l
  induction l with
  | nil =>
    intro prev head h
    have h1 : head = none := h
    exact ⟨fun p sp hp => by rw [h1] at hp; simp at hp, fun n sn m hn => by simp at hn⟩
  | cons q l ih =>
    intro prev head h
    obtain ⟨hh, sq, hsq, hqp, hl⟩ := h
    obtain ⟨ih1, ih2⟩ := ih _ _ hl
    refine ⟨?_, ?_⟩
    · intro p sp hp hsp
      rw [hh] at hp
      obtain rfl : q = p := Option.some.inj hp
      rw [hsq] at hsp
      obtain rfl : sq = sp := Option.some.inj hsp
      exact hqp
    · intro n sn m hn hsn hm
      rcases List.mem_cons.1 hn with rfl | hn
      · rw [hsq] at hsn
        obtain rfl : sq = sn := Option.some.inj hsn
        cases l with
        | nil =>
          have h1 : sq.next = none := hl
          rw [h1] at hm; simp at hm
        | cons r l3 =>
          obtain ⟨hr, sr, hsr, hrp, _⟩ := hl
          rw [hr] at hm
          obtain rfl : r = m := Option.some.inj hm
          exact ⟨sr, hsr, hrp⟩
      · exact ih2 n sn m hn hsn hm

/-! ## What each operation changes -/

theorem osi_prepare_statement_fields (T : Int → Int) (w : World) (sql callback : ptr)
    (malloc_ok : Bool) :
    (osi_prepare_statement T w sql callback malloc_ok).2.1 = w ∨
      (w.d.busy = 0 ∧
        ∃ slot len, (osi_prepare_statement T w sql callback malloc_ok).2.1
          = { w with d := { w.d with async_data := some .prepare_cb, busy := 1,
                                     work := some .prepare_worker, callback := callback,
                                     slot := slot, sql_len := len } }) := by
  unfold osi_prepare_statement
  by_cases hb : w.d.busy ≠ 0
  · left; rw [if_pos hb]
  · rw [if_neg hb]
    have hb0 : w.d.busy = 0 := not_not.1 hb
    cases sql with
    | string chars =>
      simp only
      rcases hst : string_to_utf8 malloc_ok chars with ⟨_ | utf8, len⟩
      · left; rfl
      · simp only
        by_cases hlen : len > 0x7fffffff
        · left; rw [if_pos hlen]
        · right; rw [if_neg hlen]; exact ⟨hb0, _, _, rfl⟩
    | _ => left; rfl

theorem osi_close_database_fields (w : World) (callback : ptr) :
    (osi_close_database w callback).2.1 = w ∨
      (w.d.busy = 0 ∧
        (osi_close_database w callback).2.1
          = { w with d := { w.d with async_data := some .close_cb, busy := 1,
                                     work := some .close_worker, callback := callback } }) := by
  unfold osi_close_database
  by_cases hb : w.d.busy ≠ 0
  · left; rw [if_pos hb]
  · right; rw [if_neg hb]; exact ⟨not_not.1 hb, rfl⟩

theorem osi_step_statement_fields (w w1 : World) (statement : Nat) (callback r : ptr)
    (ev : List Event) (h : osi_step_statement w statement callback = some (r, w1, ev)) :
    w1 = w ∨
      (w.d.busy = 0 ∧
        ∃ slot, w1 = { w with d := { w.d with async_data := some .step_cb, busy := 1,
                                              work := some .step_worker, callback := callback,
                                              slot := slot } }) := by
  unfold osi_step_statement at h
  split at h
  · simp at h
  · by_cases hb : w.d.busy ≠ 0
    · rw [if_pos hb] at h
      simp only [Option.some.injEq, Prod.mk.injEq] at h
      exact Or.inl h.2.1.symm
    · rw [if_neg hb] at h
      simp only [Option.some.injEq, Prod.mk.injEq] at h
      exact Or.inr ⟨not_not.1 hb, _, h.2.1.symm⟩

theorem async_cb_fields (T : Int → Int) (cols : List column_t) (errmsg : List Nat)
    (w w1 : World) (ev : List Event) (h : async_cb T cols errmsg w = some (w1, ev)) :
    ∃ slot len, w1 = { w with d := { w.d with busy := 0, callback := .Svoid, slot := slot,
                                              sql_len := len } } := by
  unfold async_cb at h
  split at h
  · simp at h
  · unfold close_cb at h
    simp only at h
    split at h
    · simp only [Option.some.injEq, Prod.mk.injEq] at h
      exact ⟨w.d.slot, w.d.sql_len, h.1.symm⟩
    · split at h
      · simp at h
      · simp only [Option.some.injEq, Prod.mk.injEq] at h
        exact ⟨w.d.slot, w.d.sql_len, h.1.symm⟩
  · unfold prepare_cb at h
    simp only at h
    split at h
    · simp only [Option.some.injEq, Prod.mk.injEq] at h
      exact ⟨.null, 0, h.1.symm⟩
    · split at h
      · simp at h
      · simp only [Option.some.injEq, Prod.mk.injEq] at h
        exact ⟨.null, 0, h.1.symm⟩
  · unfold step_cb at h
    simp only at h
    split at h
    · simp only [Option.some.injEq, Prod.mk.injEq] at h
      exact ⟨.null, w.d.sql_len, h.1.symm⟩
    · split at h
      · split at h
        · simp at h
        · simp only [Option.some.injEq, Prod.mk.injEq] at h
          exact ⟨.null, w.d.sql_len, h.1.symm⟩
        · simp only [Option.some.injEq, Prod.mk.injEq] at h
          exact ⟨.null, w.d.sql_len, h.1.symm⟩
      · split at h
        · simp at h
        · simp only [Option.some.injEq, Prod.mk.injEq] at h
          exact ⟨.null, w.d.sql_len, h.1.symm⟩

theorem close_worker_loop_mono (fuel : Nat) :
    ∀ (w : World) (ev : List Event) (r : World × List Event) (k : Nat),
      close_worker_loop fuel w ev = some r → close_worker_loop (fuel + k) w ev = some r := by
  induction fuel with
  | zero => intro w ev r k h; simp [close_worker_loop] at h
  | succ fuel ih =>
    intro w ev r k h
    rw [show fuel + 1 + k = (fuel + k) + 1 by omega]
    cases hst : w.d.statement with
    | none =>
      simp only [close_worker_loop, hst] at h ⊢
      exact h
    | some p =>
      cases hs : w.statements p with
      | none => simp [close_worker_loop, hst, hs] at h
      | some s =>
        simp only [close_worker_loop, hst, hs] at h ⊢
        exact ih _ _ _ _ h

theorem close_worker_result (fuel : Nat) (rc : Int) (w w1 : World) (ev : List Event)
    (l : List Nat) (prev : Option Nat)
    (hl : dll w.statements prev w.d.statement l)
    (h : close_worker fuel rc w = some (w1, ev)) :
    w1.d = { w.d with statement := none, sqlite_rc := rc } ∧
      (∀ p ∈ l, w1.statements p = none) ∧
      (∀ p, p ∉ l → w1.statements p = w.statements p) := by
  unfold close_worker at h
  split at h
  · simp at h
  · rename_i w2 ev2 hrun
    simp only [Option.some.injEq, Prod.mk.injEq] at h
    obtain ⟨hw, _⟩ := h
    have hm := close_worker_loop_mono fuel w [] (w2, ev2) (l.length + 1) hrun
    obtain ⟨w3, hrun3, hd, hnone, hsame⟩ :=
      close_worker_loop_spec l (fuel + (l.length + 1)) w [] prev hl (by omega)
    rw [hm] at hrun3
    simp only [Option.some.injEq, Prod.mk.injEq] at hrun3
    obtain ⟨rfl, _⟩ := hrun3
    subst hw
    exact ⟨by simp [hd], hnone, hsame⟩

theorem prepare_worker_result (rc : Int) (stmt : Nat) (alloc : Option Nat) (w w1 : World)
    (ev : List Event) (l : List Nat) (hl : list_invariant w l)
    (hfresh : ∀ p, alloc = some p → w.statements p = none)
    (h : prepare_worker rc stmt alloc w = some (w1, ev)) :
    w1.d.busy = w.d.busy ∧ w1.d.work = w.d.work ∧ w1.d.callback = w.d.callback ∧
      list_invariant w1 (live_after_prepare rc alloc l) := by
  unfold live_after_prepare
  by_cases hrc : rc = SQLITE_OK
  · rw [if_pos hrc]
    cases alloc with
    | none =>
      simp only [prepare_worker, hrc, if_true, Option.some.injEq, Prod.mk.injEq] at h
      obtain ⟨rfl, _⟩ := h
      exact ⟨rfl, rfl, rfl, hl⟩
    | some p =>
      have hp := hfresh p rfl
      have hpl : p ∉ l := fun hm => by
        obtain ⟨_, _, _, _, s, hs⟩ := dll_mem _ _ _ _ p hl.1 hm
        rw [hp] at hs; simp at hs
      cases l with
      | nil =>
        have hhead : w.d.statement = none := hl.1
        simp only [prepare_worker, hrc, if_true, hhead, Option.some.injEq, Prod.mk.injEq] at h
        obtain ⟨rfl, _⟩ := h
        refine ⟨rfl, rfl, rfl, ⟨rfl, { stmt := stmt, prev := none, next := none }, ?_, rfl, ?_⟩, ?_⟩
        · simp [Function.update]
        · show (none : Option Nat) = none
          rfl
        · intro x hx
          by_cases hxp : x = p
          · simp [hxp]
          · simp only [Function.update, hxp, dite_false] at hx
            exact absurd (hl.2 x hx) (by simp)
      | cons q l1 =>
        obtain ⟨hhead, sq, hsq, hqp, hl1⟩ := hl.1
        have hnd := dll_nodup _ _ _ _ hl.1
        have hqp1 : q ≠ p := fun e => hpl (by simp [e])
        have hst1 : Function.update w.statements p
            (some { stmt := stmt, prev := none, next := some q }) q = some sq := by
          simp [Function.update, hqp1, hsq]
        simp only [prepare_worker, hrc, if_true, hhead, hst1, Option.some.injEq,
          Prod.mk.injEq] at h
        obtain ⟨rfl, _⟩ := h
        refine ⟨rfl, rfl, rfl, ⟨rfl, { stmt := stmt, prev := none, next := some q }, ?_, rfl,
          rfl, { sq with prev := some p }, ?_, rfl, ?_⟩, ?_⟩
        · simp [Function.update, hqp1.symm]
        · simp [Function.update]
        · refine dll_congr w.statements _ l1 _ _ ?_ hl1
          intro x hx
          have hxq : x ≠ q := fun e => (List.nodup_cons.1 hnd).1 (e ▸ hx)
          have hxp : x ≠ p := fun e => hpl (by simp [← e, hx])
          simp [Function.update, hxq, hxp]
        · intro x hx
          by_cases hxp : x = p
          · simp [hxp]
          · by_cases hxq : x = q
            · simp [hxq]
            · simp only [Function.update, hxq, hxp, dite_false] at hx
              exact List.mem_cons_of_mem _ (hl.2 x hx)
  · rw [if_neg hrc]
    simp only [prepare_worker, hrc, if_false, Option.some.injEq, Prod.mk.injEq] at h
    obtain ⟨rfl, _⟩ := h
    exact ⟨rfl, rfl, rfl, hl⟩

theorem osi_finalize_statement_result (w w1 : World) (p : Nat) (r : ptr) (ev : List Event)
    (l : List Nat) (hl : list_invariant w l)
    (h : osi_finalize_statement w p = some (r, w1, ev)) :
    w1.d.busy = w.d.busy ∧ w1.d.work = w.d.work ∧ w1.d.callback = w.d.callback ∧
      list_invariant w1 (if w.d.busy ≠ 0 then l else l.erase p) := by
  cases hs : w.statements p with
  | none => simp [osi_finalize_statement, hs] at h
  | some s =>
    by_cases hb : w.d.busy ≠ 0
    · simp only [osi_finalize_statement, hs, if_pos hb, Option.some.injEq, Prod.mk.injEq] at h
      obtain ⟨_, rfl, _⟩ := h
      rw [if_pos hb]
      exact ⟨rfl, rfl, rfl, hl⟩
    · rw [if_neg hb]
      have hpl : p ∈ l := hl.2 p (by rw [hs]; simp)
      obtain ⟨l1, l2, rfl⟩ := List.append_of_mem hpl
      have hnd := dll_nodup _ _ _ _ hl.1
      have hp1 : p ∉ l1 := fun hm => by
        have := List.disjoint_of_nodup_append hnd hm
        exact this (List.mem_cons_self _ _)
      have hp2 : p ∉ l2 := (List.nodup_cons.1 (List.nodup_append.1 hnd).2.1).1
      have herase : (l1 ++ p :: l2).erase p = l1 ++ l2 := by
        rw [List.erase_append_right _ hp1, List.erase_cons_head]
      obtain ⟨s1, hs1, hprev, hnext, hl2⟩ := dll_at _ p l2 l1 _ _ hl.1
      rw [hs] at hs1
      obtain rfl : s = s1 := Option.some.inj hs1
      have hsp : s.prev = none ∨ ∃ q n, s.prev = some q ∧ q ∈ l1 ∧ w.statements q = some n := by
        rcases hprev with ⟨_, hp⟩ | ⟨q, hq, hp⟩
        · exact Or.inl hp
        · obtain ⟨_, _, _, _, n, hn⟩ := dll_mem _ _ _ _ q hl.1 (List.mem_append_left _ hq)
          exact Or.inr ⟨q, n, hp, hq, hn⟩
      have hsn : s.next = none ∨ ∃ r n, s.next = some r ∧ r ∈ l2 ∧ w.statements r = some n := by
        rcases hnext with ⟨_, hn⟩ | ⟨r, l3, rfl, hn⟩
        · exact Or.inl hn
        · obtain ⟨_, sr, hsr, _, _⟩ := hl2
          exact Or.inr ⟨r, sr, hn, List.mem_cons_self _ _, hsr⟩
      have hl1 : l1 = [] ↔ s.prev = none := by
        constructor
        · intro e
          rcases hprev with ⟨_, hp⟩ | ⟨q, hq, _⟩
          · exact hp
          · rw [e] at hq; simp at hq
        · intro e
          rcases hprev with ⟨e1, _⟩ | ⟨q, _, hp⟩
          · exact e1
          · rw [hp] at e; simp at e
      have key : ∀ (st3 : Nat → Option statement_t) (head3 : Option Nat),
          (∀ x, x ≠ p → st3 x =
            if s.prev = some x then (w.statements x).map (fun n => { n with next := s.next })
            else if s.next = some x then (w.statements x).map (fun n => { n with prev := s.prev })
            else w.statements x) →
          st3 p = none → head3 = (if l1 = [] then s.next else w.d.statement) →
          list_invariant { d := { w.d with statement := head3 }, statements := st3 }
            (l1 ++ l2) := by
        intro st3 head3 h3 h3p hhead
        refine ⟨?_, ?_⟩
        · show dll st3 none head3 (l1 ++ l2)
          rw [hhead]
          exact dll_remove w.statements st3 p s l2 hs h3 l1 none _ hl.1 hnd (by simp)
        · intro x hx
          have hx0 : st3 x ≠ none := hx
          have hxp : x ≠ p := fun e => hx0 (by rw [e]; exact h3p)
          have hx1 : w.statements x ≠ none := by
            intro e
            apply hx0
            rw [h3 x hxp, e]
            split_ifs <;> rfl
          have := hl.2 x hx1
          rcases List.mem_append.1 this with hm | hm
          · exact List.mem_append_left _ hm
          · rcases List.mem_cons.1 hm with e | hm
            · exact absurd e hxp
            · exact List.mem_append_right _ hm
      rw [herase]
      rcases hsp with hp | ⟨q, nq, hp, hq, hnq⟩
      · rcases hsn with hn | ⟨r1, nr, hn, hr, hnr⟩
        · simp only [osi_finalize_statement, hs, if_neg hb, hp, hn, Option.some.injEq,
            Prod.mk.injEq] at h
          obtain ⟨_, rfl, _⟩ := h
          refine ⟨rfl, rfl, rfl, key _ _ ?_ (by simp [Function.update]) ?_⟩
          · intro x hx
            simp [Function.update, hx, hp, hn]
          · rw [if_pos (hl1.2 hp), hn]
        · have hrp : r1 ≠ p := fun e => hp2 (e ▸ hr)
          simp only [osi_finalize_statement, hs, if_neg hb, hp, hn, hnr, Option.some.injEq,
            Prod.mk.injEq] at h
          obtain ⟨_, rfl, _⟩ := h
          refine ⟨rfl, rfl, rfl, key _ _ ?_ (by simp [Function.update]) ?_⟩
          · intro x hx
            by_cases hxr : x = r1
            · subst hxr; simp [Function.update, hx, hp, hn, hnr]
            · have : ¬ (r1 = x) := fun e => hxr e.symm
              simp [Function.update, hx, hp, hn, hxr, this]
          · rw [if_pos (hl1.2 hp), hn]
      · have hqp : q ≠ p := fun e => hp1 (e ▸ hq)
        have hl1ne : ¬ (l1 = []) := fun e => by rw [hl1.1 e] at hp; simp at hp
        rcases hsn with hn | ⟨r1, nr, hn, hr, hnr⟩
        · simp only [osi_finalize_statement, hs, if_neg hb, hp, hn, hnq, Option.some.injEq,
            Prod.mk.injEq] at h
          obtain ⟨_, rfl, _⟩ := h
          refine ⟨rfl, rfl, rfl, key _ _ ?_ (by simp [Function.update, hqp.symm]) ?_⟩
          · intro x hx
            by_cases hxq : x = q
            · subst hxq; simp [Function.update, hx, hp, hn, hnq]
            · have : ¬ (q = x) := fun e => hxq e.symm
              simp [Function.update, hx, hp, hn, hxq, this]
          · rw [if_neg hl1ne]
        · have hrp : r1 ≠ p := fun e => hp2 (e ▸ hr)
          have hrq : r1 ≠ q := fun e => by
            have := List.disjoint_of_nodup_append hnd hq
            exact this (List.mem_cons_of_mem _ (e ▸ hr))
          have hst1 : Function.update w.statements q
              (some { stmt := nq.stmt, prev := nq.prev, next := some r1 }) r1 = some nr := by
            simp [Function.update, hrq, hnr]
          simp only [osi_finalize_statement, hs, if_neg hb, hp, hn, hnq, hst1,
            Option.some.injEq, Prod.mk.injEq] at h
          obtain ⟨_, rfl, _⟩ := h
          refine ⟨rfl, rfl, rfl,
            key _ _ ?_ (by simp [Function.update, hqp.symm, hrp.symm]) ?_⟩
          · intro x hx
            by_cases hxq : x = q
            · subst hxq
              have : ¬ (x = r1) := fun e => hrq e.symm
              simp [Function.update, hx, hp, hn, hnq, this]
            · have h1 : ¬ (q = x) := fun e => hxq e.symm
              by_cases hxr : x = r1
              · subst hxr; simp [Function.update, hx, hp, hn, hnr, hxq, h1]
              · have h2 : ¬ (r1 = x) := fun e => hxr e.symm
                simp [Function.update, hx, hp, hn, hxq, hxr, h1, h2]
          · rw [if_neg hl1ne]

theorem osi_finalize_statement_defined (w : World) (p : Nat) (s : statement_t)
    (hs : w.statements p = some s) (hb : w.d.busy = 0)
    (hprev : ∀ q, s.prev = some q → w.statements q ≠ none)
    (hnext : ∀ r, s.next = some r → w.statements r ≠ none) :
    ∃ w1, osi_finalize_statement w p
      = some (.Strue, w1, [.sqlite (.finalize s.stmt), .free_statement p]) := by
  have hb1 : ¬ w.d.busy ≠ 0 := by simp [hb]
  cases hp : s.prev with
  | none =>
    cases hn : s.next with
    | none =>
      simp only [osi_finalize_statement, hs, if_neg hb1, hp, hn]
      exact ⟨_, rfl⟩
    | some r =>
      obtain ⟨nr, hnr⟩ := Option.ne_none_iff_exists'.1 (hnext r hn)
      simp only [osi_finalize_statement, hs, if_neg hb1, hp, hn, hnr]
      exact ⟨_, rfl⟩
  | some q =>
    obtain ⟨nq, hnq⟩ := Option.ne_none_iff_exists'.1 (hprev q hp)
    cases hn : s.next with
    | none =>
      simp only [osi_finalize_statement, hs, if_neg hb1, hp, hn, hnq]
      exact ⟨_, rfl⟩
    | some r =>
      obtain ⟨nr, hnr⟩ := Option.ne_none_iff_exists'.1 (hnext r hn)
      have hst1 : ∃ n, Function.update w.statements q
          (some { stmt := nq.stmt, prev := nq.prev, next := some r }) r = some n := by
        by_cases hrq : r = q
        · exact ⟨_, by rw [hrq, Function.update_same]⟩
        · exact ⟨nr, by rw [Function.update_noteq hrq, hnr]⟩
      obtain ⟨n, hn1⟩ := hst1
      simp only [osi_finalize_statement, hs, if_neg hb1, hp, hn, hnq, hn1]
      exact ⟨_, rfl⟩

theorem finalize_live_statement (w : World) (l : List Nat) (p : Nat)
    (hl : list_invariant w l) (hp : p ∈ l) (hb : w.d.busy = 0) :
    ∃ s w1, w.statements p = some s ∧
      osi_finalize_statement w p
        = some (.Strue, w1, [.sqlite (.finalize s.stmt), .free_statement p]) ∧
      list_invariant w1 (l.erase p) := by
  obtain ⟨l1, l2, rfl⟩ := List.append_of_mem hp
  obtain ⟨s, hs, hprev, hnext, hl2⟩ := dll_at _ p l2 l1 _ _ hl.1
  have h1 : ∀ q, s.prev = some q → w.statements q ≠ none := by
    intro q hq
    rcases hprev with ⟨_, hpn⟩ | ⟨q1, hq1, hpq⟩
    · rw [hpn] at hq; simp at hq
    · rw [hpq] at hq
      obtain rfl : q1 = q := Option.some.inj hq
      obtain ⟨_, _, _, _, n, hn⟩ := dll_mem _ _ _ _ q1 hl.1 (List.mem_append_left _ hq1)
      rw [hn]; simp
  have h2 : ∀ r, s.next = some r → w.statements r ≠ none := by
    intro r hr
    rcases hnext with ⟨_, hnn⟩ | ⟨r1, l3, rfl, hnr⟩
    · rw [hnn] at hr; simp at hr
    · rw [hnr] at hr
      obtain rfl : r1 = r := Option.some.inj hr
      obtain ⟨_, sr, hsr, _, _⟩ := hl2
      rw [hsr]; simp
  obtain ⟨w1, hw1⟩ := osi_finalize_statement_defined w p s hs hb h1 h2
  have hres := (osi_finalize_statement_result w w1 p _ _ _ hl hw1).2.2.2
  rw [if_neg (by simp [hb])] at hres
  exact ⟨s, w1, hs, hw1, hres⟩

theorem prepare_worker_defined (rc : Int) (stmt : Nat) (alloc : Option Nat) (w : World)
    (l : List Nat) (hl : list_invariant w l) :
    ∃ w1 ev, prepare_worker rc stmt alloc w = some (w1, ev) := by
  by_cases hrc : rc = SQLITE_OK
  · cases alloc with
    | none =>
      simp only [prepare_worker, hrc, if_true]
      exact ⟨_, _, rfl⟩
    | some p =>
      cases hh : w.d.statement with
      | none =>
        simp only [prepare_worker, hrc, if_true, hh]
        exact ⟨_, _, rfl⟩
      | some q =>
        have hq : q ∈ l := by
          cases l with
          | nil =>
            have : w.d.statement = none := hl.1
            rw [hh] at this; simp at this
          | cons q1 l1 =>
            have h1 : w.d.statement = some q1 := hl.1.1
            rw [hh] at h1
            obtain rfl : q = q1 := Option.some.inj h1
            exact List.mem_cons_self _ _
        obtain ⟨_, _, _, _, nq, hnq⟩ := dll_mem _ _ _ _ q hl.1 hq
        have hst1 : ∃ n, Function.update w.statements p
            (some { stmt := stmt, prev := none, next := some q }) q = some n := by
          by_cases hqp : q = p
          · exact ⟨_, by rw [hqp, Function.update_same]⟩
          · exact ⟨nq, by rw [Function.update_noteq hqp, hnq]⟩
        obtain ⟨n, hn⟩ := hst1
        simp only [prepare_worker, hrc, if_true, hh, hn]
        exact ⟨_, _, rfl⟩
  · simp only [prepare_worker, hrc, if_false]
    exact ⟨_, _, rfl⟩

/-! ## Invariants of the reachable states -/

theorem close_worker_loop_events (fuel : Nat) :
    ∀ (w w1 : World) (ev ev1 : List Event), close_worker_loop fuel w ev = some (w1, ev1) →
      ev.any Event.is_async_send = false → ev1.any Event.is_async_send = false := by
  induction fuel with
  | zero => intro w w1 ev ev1 h; simp [close_worker_loop] at h
  | succ fuel ih =>
    intro w w1 ev ev1 h hev
    cases hst : w.d.statement with
    | none =>
      simp only [close_worker_loop, hst, Option.some.injEq, Prod.mk.injEq] at h
      rw [← h.2]; exact hev
    | some p =>
      cases hs : w.statements p with
      | none => simp [close_worker_loop, hst, hs] at h
      | some s =>
        simp only [close_worker_loop, hst, hs] at h
        refine ih _ _ _ _ h ?_
        simp [List.any_append, hev, Event.is_async_send]

theorem run_work_events (a : answer_t) (x : uv_thread_cb) (w w1 : World) (ev : List Event)
    (h : run_work a x w = some (w1, ev)) : ev.any Event.is_async_send = false := by
  cases x with
  | close_worker =>
    simp only [run_work, close_worker] at h
    split at h
    · simp at h
    · rename_i w2 ev2 hrun
      simp only [Option.some.injEq, Prod.mk.injEq] at h
      rw [← h.2]
      have := close_worker_loop_events _ _ _ _ _ hrun rfl
      simp [List.any_append, this, Event.is_async_send]
  | prepare_worker =>
    simp only [run_work, prepare_worker] at h
    split at h
    · split at h
      · split at h
        · split at h
          · simp at h
          · simp only [Option.some.injEq, Prod.mk.injEq] at h
            rw [← h.2]; rfl
        · simp only [Option.some.injEq, Prod.mk.injEq] at h
          rw [← h.2]; rfl
      · simp only [Option.some.injEq, Prod.mk.injEq] at h
        rw [← h.2]; rfl
    · simp only [Option.some.injEq, Prod.mk.injEq] at h
      rw [← h.2]; rfl
  | step_worker =>
    simp only [run_work, step_worker, Option.some.injEq, Prod.mk.injEq] at h
    rw [← h.2]; rfl

theorem is_Svoid_false (p : ptr) (h : is_Svoid p = false) : p ≠ .Svoid := by
  intro e; rw [e] at h; simp [is_Svoid] at h

theorem flag_invariant_submit (s : System) (d1 : database_t) (x : uv_thread_cb)
    (hf : flag_invariant s) (hb : s.w.d.busy = 0)
    (h1 : d1.busy = 1) (h2 : d1.work = some x) :
    flag_invariant { s with w := { s.w with d := d1 } } := by
  obtain ⟨f1, f2, f3, f4⟩ := hf
  have hnot : ¬ (s.w.d.work ≠ none ∨ s.wake = true) := fun h => (f1.2 h) hb
  refine ⟨?_, ?_, ?_, ?_⟩
  · simp [h1, h2]
  · simp [h1]
  · intro hw; exact absurd (Or.inr hw) hnot
  · intro y hy
    have := f4 y hy
    exact absurd (Or.inl (by rw [this]; simp)) hnot

theorem system_step_invariant (T : Int → Int) (act : Action) (s s1 : System)
    (ev : List Event) (l : List Nat) (hl : list_invariant s.w l) (hf : flag_invariant s)
    (h : system_step T act s = some (s1, ev)) :
    list_invariant s1.w (live_after act s l) ∧ flag_invariant s1 := by
  unfold system_step at h
  by_cases hclosed : s.closed = true
  · simp [hclosed] at h
  simp only [hclosed, Bool.false_eq_true, if_false] at h
  cases act with
  | prepare_statement sql callback malloc_ok =>
    simp only at h
    split at h
    · simp at h
    · rcases hres : osi_prepare_statement T s.w sql callback malloc_ok with ⟨r, w1, ev1⟩
      have hfields := osi_prepare_statement_fields T s.w sql callback malloc_ok
      rw [hres] at h hfields
      simp only [Option.some.injEq, Prod.mk.injEq] at h
      obtain ⟨rfl, _⟩ := h
      rcases hfields with rfl | ⟨hb, slot, len, rfl⟩
      · exact ⟨hl, hf⟩
      · exact ⟨hl, flag_invariant_submit s _ .prepare_worker hf hb rfl rfl⟩
  | step_statement statement callback =>
    simp only at h
    split at h
    · simp at h
    · cases hres : osi_step_statement s.w statement callback with
      | none => simp [hres] at h
      | some res =>
        obtain ⟨r, w1, ev1⟩ := res
        have hfields := osi_step_statement_fields _ _ _ _ _ _ hres
        rw [hres] at h
        simp only [Option.some.injEq, Prod.mk.injEq] at h
        obtain ⟨rfl, _⟩ := h
        rcases hfields with rfl | ⟨hb, slot, rfl⟩
        · exact ⟨hl, hf⟩
        · exact ⟨hl, flag_invariant_submit s _ .step_worker hf hb rfl rfl⟩
  | close_database callback =>
    simp only at h
    split at h
    · simp at h
    · rcases hres : osi_close_database s.w callback with ⟨r, w1, ev1⟩
      have hfields := osi_close_database_fields s.w callback
      rw [hres] at h hfields
      simp only [Option.some.injEq, Prod.mk.injEq] at h
      obtain ⟨rfl, _⟩ := h
      rcases hfields with rfl | ⟨hb, rfl⟩
      · exact ⟨hl, hf⟩
      · exact ⟨hl, flag_invariant_submit s _ .close_worker hf hb rfl rfl⟩
  | finalize_statement statement =>
    simp only at h
    cases hres : osi_finalize_statement s.w statement with
    | none => simp [hres] at h
    | some res =>
      obtain ⟨r, w1, ev1⟩ := res
      obtain ⟨h1, h2, h3, h4⟩ := osi_finalize_statement_result _ _ _ _ _ l hl hres
      rw [hres] at h
      simp only [Option.some.injEq, Prod.mk.injEq] at h
      obtain ⟨rfl, _⟩ := h
      refine ⟨h4, ?_⟩
      obtain ⟨f1, f2, f3, f4⟩ := hf
      exact ⟨by simp only [h1, h2]; exact f1, by simp only [h1, h3]; exact f2,
        by simp only [h2]; exact f3, by simp only [h2]; exact f4⟩
  | worker a =>
    simp only at h
    split at h
    · simp at h
    · rename_i hg
      cases hres : database_worker a s.pc s.w with
      | none => simp [hres] at h
      | some res =>
        obtain ⟨pc1, w1, ev1⟩ := res
        rw [hres] at h
        simp only [Option.some.injEq, Prod.mk.injEq] at h
        obtain ⟨rfl, rfl⟩ := h
        obtain ⟨f1, f2, f3, f4⟩ := hf
        cases hpc : s.pc with
        | entry =>
          rw [hpc] at hres
          simp only [database_worker, Option.some.injEq, Prod.mk.injEq] at hres
          obtain ⟨rfl, rfl, rfl⟩ := hres
          refine ⟨by simpa [live_after, hpc] using hl, ?_⟩
          exact ⟨by simpa [Event.is_async_send] using f1, f2,
            by simpa [Event.is_async_send] using f3, by simp⟩
        | top =>
          rw [hpc] at hres
          simp only [database_worker] at hres
          cases hw : s.w.d.work with
          | none =>
            simp only [hw, Option.some.injEq, Prod.mk.injEq] at hres
            obtain ⟨rfl, rfl, rfl⟩ := hres
            refine ⟨by simpa [live_after, hpc] using hl, ?_⟩
            exact ⟨by simpa [Event.is_async_send] using f1, f2,
              by simpa [Event.is_async_send] using f3, by simp⟩
          | some x =>
            simp only [hw, Option.some.injEq, Prod.mk.injEq] at hres
            obtain ⟨rfl, rfl, rfl⟩ := hres
            refine ⟨by simpa [live_after, hpc] using hl, ?_⟩
            refine ⟨by simpa [Event.is_async_send] using f1, f2,
              by simpa [Event.is_async_send] using f3, ?_⟩
            intro y hy
            simp only [worker_pc.call.injEq, reduceCtorEq, or_false] at hy
            rw [hw, hy]
        | wait =>
          rw [hpc] at hres
          simp only [database_worker, Option.some.injEq, Prod.mk.injEq] at hres
          obtain ⟨rfl, rfl, rfl⟩ := hres
          refine ⟨by simpa [live_after, hpc] using hl, ?_⟩
          exact ⟨by simpa using f1, f2, by simpa using f3, by simp⟩
        | returned =>
          rw [hpc] at hres
          simp [database_worker] at hres
        | ran x =>
          rw [hpc] at hres
          have hwork : s.w.d.work = some x := f4 x (Or.inr hpc)
          have hbusy : s.w.d.busy ≠ 0 := f1.2 (Or.inl (by rw [hwork]; simp))
          simp only [database_worker] at hres
          split at hres
          · simp only [Option.some.injEq, Prod.mk.injEq] at hres
            obtain ⟨rfl, rfl, rfl⟩ := hres
            refine ⟨by simpa [live_after, hpc] using hl, ?_⟩
            exact ⟨by simpa [Event.is_async_send] using hbusy, f2, by simp, by simp⟩
          · simp only [Option.some.injEq, Prod.mk.injEq] at hres
            obtain ⟨rfl, rfl, rfl⟩ := hres
            refine ⟨by simpa [live_after, hpc] using hl, ?_⟩
            exact ⟨by simpa [Event.is_async_send] using hbusy, f2, by simp, by simp⟩
        | call x =>
          rw [hpc] at hres hg
          have hwork : s.w.d.work = some x := f4 x (Or.inl hpc)
          simp only [database_worker] at hres
          cases hrun : run_work a x s.w with
          | none => simp [hrun] at hres
          | some res =>
            obtain ⟨w2, ev2⟩ := res
            rw [hrun] at hres
            simp only [Option.some.injEq, Prod.mk.injEq] at hres
            obtain ⟨rfl, rfl, rfl⟩ := hres
            have hev := run_work_events a x s.w w2 ev2 hrun
            have flags : w2.d.busy = s.w.d.busy → w2.d.work = s.w.d.work →
                w2.d.callback = s.w.d.callback →
                flag_invariant { s with w := w2, pc := .ran x,
                                        wake := s.wake || ev2.any Event.is_async_send } := by
              intro h1 h2 h3
              refine ⟨by simp only [h1, h2, hev, Bool.or_false]; exact f1,
                by simp only [h1, h3]; exact f2,
                by simp only [h2, hev, Bool.or_false]; exact f3, ?_⟩
              intro y hy
              simp only [worker_pc.ran.injEq, reduceCtorEq, false_or] at hy
              simp only [h2, hwork, hy]
            cases x with
            | close_worker =>
              obtain ⟨hd, hnone, hsame⟩ := close_worker_result _ _ _ _ _ l none hl.1 hrun
              refine ⟨?_, flags (by rw [hd]) (by rw [hd]) (by rw [hd])⟩
              simp only [live_after, hpc]
              refine ⟨by show w2.d.statement = none; rw [hd], ?_⟩
              intro p hp
              exfalso
              apply hp
              by_cases hpl : p ∈ l
              · exact hnone p hpl
              · rw [hsame p hpl]
                by_contra hne
                exact hpl (hl.2 p hne)
            | prepare_worker =>
              have hfresh : ∀ p, a.alloc = some p → s.w.statements p = none := by
                intro p hp
                by_contra hne
                apply hg
                refine ⟨rfl, ?_⟩
                rw [hp]
                cases hsp : s.w.statements p with
                | none => exact absurd hsp hne
                | some n => simp [hsp]
              obtain ⟨h1, h2, h3, h4⟩ :=
                prepare_worker_result _ _ _ _ _ _ l hl hfresh hrun
              refine ⟨?_, flags h1 h2 h3⟩
              simp only [live_after, hpc]
              exact h4
            | step_worker =>
              simp only [run_work, step_worker, Option.some.injEq, Prod.mk.injEq] at hrun
              obtain ⟨rfl, _⟩ := hrun
              exact ⟨by simpa [live_after, hpc] using hl, flags rfl rfl rfl⟩
  | completion cols errmsg =>
    simp only at h
    split at h
    · rename_i hwake
      cases hres : async_cb T cols errmsg s.w with
      | none => simp [hres] at h
      | some res =>
        obtain ⟨w1, ev1⟩ := res
        obtain ⟨slot, len, hw1⟩ := async_cb_fields _ _ _ _ _ _ hres
        rw [hres] at h
        simp only [Option.some.injEq, Prod.mk.injEq] at h
        obtain ⟨rfl, _⟩ := h
        subst hw1
        obtain ⟨f1, f2, f3, f4⟩ := hf
        refine ⟨hl, ?_, ?_, ?_, ?_⟩
        · simp [f3 hwake]
        · simp
        · simp
        · intro y hy; exact f4 y hy
    · simp at h

theorem open_cb_success (r : open_req_t) (alloc : Option Nat)
    (async_rc mutex_rc cond_rc thread_rc : Int) (p : Nat) (d : database_t) (ev : List Event)
    (h : open_cb r alloc async_rc mutex_rc cond_rc thread_rc = (some (p, d), ev)) :
    d = { db := r.db, statement := none, busy := 0, work := none, callback := .Svoid,
          slot := .null, sql_len := 0, sqlite_rc := SQLITE_OK, async_data := none } := by
  unfold open_cb at h
  simp only at h
  split at h
  · simp at h
  · split at h
    · simp at h
    · split at h
      · simp at h
      · split at h
        · simp at h
        · split at h
          · simp at h
          · split at h
            · simp at h
            · simp only [Prod.mk.injEq, Option.some.injEq] at h
              exact h.1.2.symm

theorem reachable_invariant (T : Int → Int) (s : System) (l : List Nat)
    (h : Reachable T s l) : list_invariant s.w l ∧ flag_invariant s := by
  induction h with
  | opened r alloc async_rc mutex_rc cond_rc thread_rc p d ev h =>
    have hd := open_cb_success _ _ _ _ _ _ _ _ _ h
    subst hd
    refine ⟨⟨rfl, fun p hp => absurd rfl hp⟩, ?_, ?_, ?_, ?_⟩ <;> simp
  | step s s1 live act ev _ hs ih =>
    exact system_step_invariant T act s s1 ev live ih.1 ih.2 hs

theorem reachable_run (T : Int → Int) (acts : List Action) :
    ∀ (s s1 : System) (l l1 : List Nat), Reachable T s l →
      run_actions T acts (s, l) = some (s1, l1) → Reachable T s1 l1 := by
  induction acts with
  | nil =>
    intro s s1 l l1 h hr
    simp only [run_actions, Option.some.injEq, Prod.mk.injEq] at hr
    obtain ⟨rfl, rfl⟩ := hr
    exact h
  | cons act acts ih =>
    intro s s1 l l1 h hr
    simp only [run_actions] at hr
    cases hs : system_step T act s with
    | none => simp [hs] at hr
    | some res =>
      obtain ⟨s2, ev⟩ := res
      rw [hs] at hr
      exact ih _ _ _ _ (Reachable.step s s2 l act ev h hs) hr

theorem reachable_opened_system (T : Int → Int) : Reachable T opened_system [] :=
  Reachable.opened opened_request (some 100) 0 0 0 0 100 _ _ rfl

theorem list_invariant_iff (w : World) (l : List Nat) (hl : list_invariant w l) (p : Nat) :
    w.statements p ≠ none ↔ p ∈ l := by
  refine ⟨hl.2 p, fun hp => ?_⟩
  obtain ⟨_, _, _, _, sp, hsp⟩ := dll_mem _ _ _ _ p hl.1 hp
  rw [hsp]; simp

/-- C7: in every reachable state the statement list of the Database is a
well-formed doubly linked list of exactly the statements successfully prepared
and not yet finalized, most recent first: the walk from the head along `next`
yields them, no address twice, no other record is allocated, the `prev` of the
head is null and `n.next.prev = n` for every record with a successor. From such
a state `prepare_worker` with a fresh address returns and leaves a well-formed
list of exactly the records, with the new statement at the head and the others
in order when it succeeds and the same list when it fails; and
`osi_finalize_statement` on a statement of the list of a non-busy Database
returns true after finalizing and freeing that statement, and leaves a
well-formed list of exactly the other records, in order. It returns on no
statement that is not in the list. -/
theorem statement_list_well_formed (T : Int → Int) (s : System) (l : List Nat)
    (h : Reachable T s l) :
    dll s.w.statements none s.w.d.statement l ∧ l.Nodup ∧
      (∀ p, s.w.statements p ≠ none ↔ p ∈ l) ∧
      (∀ p sp, s.w.d.statement = some p → s.w.statements p = some sp → sp.prev = none) ∧
      (∀ n sn m, n ∈ l → s.w.statements n = some sn → sn.next = some m →
        ∃ sm, s.w.statements m = some sm ∧ sm.prev = some n) ∧
      (∀ rc stmt alloc, (∀ p, alloc = some p → s.w.statements p = none) →
        ∃ w1 ev, prepare_worker rc stmt alloc s.w = some (w1, ev) ∧
          dll w1.statements none w1.d.statement (live_after_prepare rc alloc l) ∧
          (∀ q, w1.statements q ≠ none ↔ q ∈ live_after_prepare rc alloc l)) ∧
      (∀ p, p ∈ l → s.w.d.busy = 0 →
        ∃ sp w1, s.w.statements p = some sp ∧
          osi_finalize_statement s.w p
            = some (.Strue, w1, [.sqlite (.finalize sp.stmt), .free_statement p]) ∧
          dll w1.statements none w1.d.statement (l.erase p) ∧
          (∀ q, w1.statements q ≠ none ↔ q ∈ l.erase p)) ∧
      (∀ p r w1 ev, s.w.d.busy = 0 → osi_finalize_statement s.w p = some (r, w1, ev) →
        p ∈ l ∧ dll w1.statements none w1.d.statement (l.erase p)) := by
  obtain ⟨hl, _⟩ := reachable_invariant T s l h
  have hlinks := dll_links _ _ _ _ hl.1
  refine ⟨hl.1, dll_nodup _ _ _ _ hl.1, list_invariant_iff s.w l hl, hlinks.1, hlinks.2,
    ?_, ?_, ?_⟩
  · intro rc stmt alloc hfresh
    obtain ⟨w1, ev, hrun⟩ := prepare_worker_defined rc stmt alloc s.w l hl
    have hres := (prepare_worker_result rc stmt alloc s.w w1 ev l hl hfresh hrun).2.2.2
    exact ⟨w1, ev, hrun, hres.1, list_invariant_iff w1 _ hres⟩
  · intro p hp hb
    obtain ⟨sp, w1, hsp, hrun, hres⟩ := finalize_live_statement s.w l p hl hp hb
    exact ⟨sp, w1, hsp, hrun, hres.1, list_invariant_iff w1 _ hres⟩
  · intro p r w1 ev hb hrun
    have hres := (osi_finalize_statement_result s.w w1 p r ev l hl hrun).2.2.2
    rw [if_neg (by simp [hb])] at hres
    refine ⟨hl.2 p ?_, hres.1⟩
    intro hnone
    simp [osi_finalize_statement, hnone] at hrun

/-- C7, witness: after two prepares have completed the list holds the record at
8, then the record at 7; finalizing the statement at 7 returns true and leaves
the record at 8 alone in the list. -/
theorem statement_list_well_formed_witness :
    Reachable (fun rc => rc) finalized_system [8] ∧
      dll finalized_system.w.statements none finalized_system.w.d.statement [8] ∧
      ∃ sp w1, two_idle_system.w.statements 7 = some sp ∧
        osi_finalize_statement two_idle_system.w 7
          = some (.Strue, w1, [.sqlite (.finalize sp.stmt), .free_statement 7]) ∧
        dll w1.statements none w1.d.statement ([8, 7].erase 7) ∧
        (∀ q, w1.statements q ≠ none ↔ q ∈ [8, 7].erase 7) :=
  have h2 : Reachable (fun rc => rc) two_idle_system [8, 7] :=
    reachable_run (fun rc => rc) complete_prepare_actions opened_system two_idle_system []
      [8, 7] (reachable_opened_system _) rfl
  have h : Reachable (fun rc => rc) finalized_system [8] :=
    reachable_run (fun rc => rc) [.finalize_statement 7] two_idle_system finalized_system
      [8, 7] [8] h2 rfl
  ⟨h, (statement_list_well_formed (fun rc => rc) finalized_system [8] h).1,
    (statement_list_well_formed (fun rc => rc) two_idle_system [8, 7] h2).2.2.2.2.2.2.1 7
      (by decide) rfl⟩

/-- C6: for every Database whose statement list is a well-formed list of the
records at the addresses `l`, `close_worker` returns (any fuel above the length
of the list is enough), finalizes and frees each statement of the list once,
in list order, leaves the list empty and all its records freed, and only then
calls the engine's close, whose answer `rc`, whether `SQLITE_OK` or an error,
it stores in `sqlite_rc`. The step of the worker thread that runs it ends
before the async wake is sent, so all this precedes the close completion. -/
theorem close_worker_finalizes_all (w : World) (l : List Nat) (prev : Option Nat)
    (fuel : Nat) (rc : Int)
    (h : dll w.statements prev w.d.statement l) (hf : l.length < fuel) :
    ∃ w1 ev, close_worker fuel rc w = some (w1, ev) ∧
      ev = (l.map (fun p =>
          match w.statements p with
          | some s => [Event.sqlite (.finalize s.stmt), Event.free_statement p]
          | none => [])).flatten ++ [.sqlite (.close w.d.db)] ∧
      l.Nodup ∧ (∀ p ∈ l, ∃ s, w.statements p = some s) ∧
      w1.d.statement = none ∧ (∀ p ∈ l, w1.statements p = none) ∧
      w1.d.sqlite_rc = rc ∧
      (∀ stmt alloc,
        database_worker { fuel := fuel, rc := rc, stmt := stmt, alloc := alloc }
          (.call .close_worker) w = some (.ran .close_worker, w1, ev)) ∧
      ev.any Event.is_async_send = false := by
  obtain ⟨w1, hrun, hd, hnone, _⟩ := close_worker_loop_spec l fuel w [] prev h hf
  have hclose : close_worker fuel rc w
      = some ({ w1 with d := { w1.d with sqlite_rc := rc } },
          (l.map (fun p =>
            match w.statements p with
            | some s => [Event.sqlite (.finalize s.stmt), Event.free_statement p]
            | none => [])).flatten ++ [.sqlite (.close w.d.db)]) := by
    simp only [close_worker, hrun, List.nil_append, hd]
  refine ⟨_, _, hclose, rfl, dll_nodup _ _ _ _ h, ?_, ?_, hnone, rfl, ?_, ?_⟩
  · intro p hp
    obtain ⟨_, _, _, _, hs⟩ := dll_mem _ _ _ _ p h hp
    exact hs
  · simp [hd]
  · intro stmt alloc
    simp only [database_worker, run_work, hclose]
  · exact run_work_events { fuel := fuel, rc := rc, stmt := 0, alloc := none } .close_worker
      w _ _ hclose

/-- C6, witness: the close of a Database with two statements, refused by the
engine with code 5. -/
theorem close_worker_finalizes_all_witness :
    dll two_statement_world.statements none two_statement_world.d.statement [8, 7] ∧
    ∃ w1 ev, close_worker 3 5 two_statement_world = some (w1, ev) ∧
      ev = ([8, 7].map (fun p =>
          match two_statement_world.statements p with
          | some s => [Event.sqlite (.finalize s.stmt), Event.free_statement p]
          | none => [])).flatten ++ [.sqlite (.close two_statement_world.d.db)] ∧
      [8, 7].Nodup ∧ (∀ p ∈ [8, 7], ∃ s, two_statement_world.statements p = some s) ∧
      w1.d.statement = none ∧ (∀ p ∈ [8, 7], w1.statements p = none) ∧
      w1.d.sqlite_rc = 5 ∧
      (∀ stmt alloc,
        database_worker { fuel := 3, rc := 5, stmt := stmt, alloc := alloc }
          (.call .close_worker) two_statement_world = some (.ran .close_worker, w1, ev)) ∧
      ev.any Event.is_async_send = false :=
  have h : dll two_statement_world.statements none two_statement_world.d.statement [8, 7] :=
    ⟨rfl, _, rfl, rfl, rfl, _, rfl, rfl, rfl⟩
  ⟨h, close_worker_finalizes_all two_statement_world [8, 7] none 3 5 h (by decide)⟩

/-! ### The encoder and the decoder in full -/

theorem standard_utf8_eq (c : Nat) (hc : c < 0x200000) : utf8_bytes [c] = standard_utf8 c := by
  rw [utf8_bytes_one c hc]
  unfold standard_utf8
  split_ifs <;> simp only [List.cons.injEq, and_true]

theorem standard_utf8_well_formed (c : Nat) (hc : unicode_scalar c) :
    well_formed_sequence (standard_utf8 c) = true := by
  obtain ⟨h1, h2⟩ := hc
  unfold standard_utf8
  split_ifs <;>
    simp only [well_formed_sequence, continuation_byte, Bool.and_eq_true, decide_eq_true_eq] <;>
    (try split_ifs) <;> omega

theorem count_chars_take_exact (utf8 : List Nat) (count : Nat) (hb : ∀ b ∈ utf8, b < 256)
    (hc : count ≤ utf8.length) :
    count_chars count (utf8.take count) count 0 = count_chars count utf8 count 0 ∧
    make_scheme_string2 (utf8.take count) count = make_scheme_string2 utf8 count ∧
    (counter_overflows (utf8.take count) ↔ make_scheme_string2 utf8 count = none) ∧
    (∀ n, count_chars count utf8 count 0 = some (.ok n) →
      ∃ seqs : List (List Nat), utf8.take count = seqs.flatten ∧
        (∀ q ∈ seqs, structural_sequence q = true) ∧ seqs.length = n ∧
        ∀ rest, decode_chars n (seqs.flatten ++ rest) []
          = if seqs.all (fun q => !surrogate_sequence q) = true then
              some (.ok (seqs.map sequence_value))
            else some (.error (make_error_pair "make_scheme_string" UV_ECHARSET))) := by
  have htl : (utf8.take count).length = count := by
    rw [List.length_take]; omega
  have hbt : ∀ b ∈ utf8.take count, b < 256 := fun b hb1 => hb b (List.mem_of_mem_take hb1)
  have hsplit : utf8 = utf8.take count ++ utf8.drop count := (List.take_append_drop _ _).symm
  -- a split of the first `count` bytes into at most INT_MAX sequences decides both runs
  have both : ∀ seqs : List (List Nat), utf8.take count = seqs.flatten →
      (∀ q ∈ seqs, structural_sequence q = true) → seqs.length ≤ INT_MAX →
      count_chars count utf8 count 0 = some (.ok seqs.length) ∧
      count_chars count (utf8.take count) count 0 = some (.ok seqs.length) ∧
      make_scheme_string2 utf8 count
        = some (if seqs.all (fun q => !surrogate_sequence q) = true then
            .string (seqs.map sequence_value)
          else make_error_pair "make_scheme_string" UV_ECHARSET) ∧
      make_scheme_string2 (utf8.take count) count
        = some (if seqs.all (fun q => !surrogate_sequence q) = true then
            .string (seqs.map sequence_value)
          else make_error_pair "make_scheme_string" UV_ECHARSET) := by
    intro seqs hs hall hlen
    have hfl : seqs.flatten.length = count := by rw [← hs]; exact htl
    have c1 := count_chars_flatten seqs (utf8.drop count) count 0 hall (by omega) (by omega)
    have c2 := count_chars_flatten seqs [] count 0 hall (by omega) (by omega)
    have m1 := make_scheme_string2_flatten seqs (utf8.drop count) hall hlen
    have m2 := make_scheme_string2_flatten seqs [] hall hlen
    rw [← hs, ← hsplit, htl] at c1 m1
    rw [List.append_nil, ← hs, htl] at c2 m2
    simp only [Nat.zero_add] at c1 c2
    exact ⟨c1, c2, m1, m2⟩
  -- an overflow within the first `count` bytes ends both runs
  have over : counter_overflows (utf8.take count) →
      count_chars count utf8 count 0 = none ∧
      count_chars count (utf8.take count) count 0 = none := by
    intro ho
    have h2 := counter_overflows_none _ ho
    rw [htl] at h2
    obtain ⟨seqs, rest, hs, hall, hlen, hrest⟩ := ho
    have h1 := overflow_prefix_none seqs rest (utf8.drop count) hall hlen hrest
    rw [← hs, ← hsplit, htl] at h1
    exact ⟨h1, h2⟩
  have hnone : ∀ (u : List Nat), count_chars count u count 0 = none →
      make_scheme_string2 u count = none := fun u h => count_chars_none u count h
  have herr : ∀ (u : List Nat), count_chars count u count 0
        = some (.error (make_error_pair "make_scheme_string" UV_ECHARSET)) →
      make_scheme_string2 u count
        = some (make_error_pair "make_scheme_string" UV_ECHARSET) := by
    intro u h; unfold make_scheme_string2; rw [h]
  obtain ⟨seqs, rest, hs, hall, hcase⟩ :=
    count_chars_exact count utf8 count 0 hb hc (le_refl _) (Nat.zero_le _)
  simp only [Nat.zero_add] at hcase
  have hlen : utf8.length = seqs.flatten.length + rest.length := by rw [hs]; simp
  rcases hcase with ⟨h1, h2, h3⟩ | ⟨h1, h2, h3⟩ | ⟨h1, h2, h3⟩
  · -- the validation pass accepts the first `count` bytes
    have hs1 : utf8.take count = seqs.flatten := by
      rw [hs, List.take_append_of_le_length (by omega), List.take_of_length_le (by omega)]
    obtain ⟨c1, c2, m1, m2⟩ := both seqs hs1 hall h2
    refine ⟨by rw [c1, c2], by rw [m1, m2], ⟨fun ho => ?_, fun hn => ?_⟩, ?_⟩
    · have := (over ho).1
      rw [c1] at this; simp at this
    · rw [m1] at hn; simp at hn
    · intro n hn
      rw [c1] at hn
      simp only [Option.some.injEq, Except.ok.injEq] at hn
      subst hn
      exact ⟨seqs, hs1, hall, rfl, fun rest1 => decode_chars_flatten seqs rest1 [] hall⟩
  · -- the validation pass fails within the first `count` bytes
    obtain ⟨seqs1, rest1, hs1, hall1, hcase1⟩ :=
      count_chars_exact count (utf8.take count) count 0 hbt (by omega) (le_refl _)
        (Nat.zero_le _)
    simp only [Nat.zero_add] at hcase1
    have hlen1 : count = seqs1.flatten.length + rest1.length := by
      rw [← htl, hs1]; simp
    rcases hcase1 with ⟨g1, g2, g3⟩ | ⟨g1, g2, g3⟩ | ⟨g1, g2, g3⟩
    · have hr : rest1 = [] := List.length_eq_zero.1 (by omega)
      rw [hr, List.append_nil] at hs1
      have := (both seqs1 hs1 hall1 g2).1
      rw [h3] at this; simp at this
    · refine ⟨by rw [g3, h3], by rw [herr _ g3, herr _ h3], ⟨fun ho => ?_, fun hn => ?_⟩, ?_⟩
      · have := (over ho).1
        rw [h3] at this; simp at this
      · rw [herr _ h3] at hn; simp at hn
      · intro n hn
        rw [h3] at hn; simp at hn
    · have ho : counter_overflows (utf8.take count) :=
        ⟨seqs1, rest1, hs1, hall1, g2, fun hr => by rw [hr, List.length_nil] at hlen1; omega⟩
      have := (over ho).1
      rw [h3] at this; simp at this
  · -- the counter overflows within the first `count` bytes
    have ho : counter_overflows (utf8.take count) := by
      refine ⟨seqs, rest.take (count - seqs.flatten.length), ?_, hall, h2, ?_⟩
      · rw [hs, List.take_append_eq_append_take,
          List.take_of_length_le (by omega)]
      · intro hr
        have := congrArg List.length hr
        rw [List.length_take, List.length_nil] at this
        omega
    obtain ⟨o1, o2⟩ := over ho
    refine ⟨by rw [o1, o2], by rw [hnone _ o1, hnone _ o2], ⟨fun _ => hnone _ o1, fun _ => ho⟩, ?_⟩
    intro n hn
    rw [o1] at hn; simp at hn

/-- C17: for every host string `s` of Unicode scalar values, `string_to_utf8`
with a successful allocation returns exactly the standard UTF-8 encoding of
`s`, the encodings of its characters one after the other and nothing after
them (no NUL terminator), each character taking 1, 2, 3 or 4 bytes by its
range and forming a well-formed sequence that decodes to the character; the
length it reports is the number of bytes written, the size it allocated. -/
theorem string_to_utf8_standard (s : List Nat) (hs : ∀ c ∈ s, unicode_scalar c) :
    string_to_utf8 true s
        = (some (s.map standard_utf8).flatten, (s.map standard_utf8).flatten.length) ∧
      (s.map standard_utf8).flatten.length = (s.map standard_utf8_size).sum ∧
      utf8_length s = (s.map standard_utf8_size).sum ∧
      (∀ c ∈ s, (standard_utf8 c).length = standard_utf8_size c ∧
        well_formed_sequence (standard_utf8 c) = true ∧
        sequence_value (standard_utf8 c) = c) ∧
      well_formed_utf8 (s.map standard_utf8).flatten := by
  have hlt : ∀ c ∈ s, c < 0x200000 := fun c hc => by
    have := (hs c hc).1; omega
  have hmap : s.map (fun c => utf8_bytes [c]) = s.map standard_utf8 :=
    List.map_congr_left (fun c hc => standard_utf8_eq c (hlt c hc))
  have hbytes : utf8_bytes s = (s.map standard_utf8).flatten := by
    rw [utf8_bytes_flatten, hmap]
  have hsize : ∀ c, (standard_utf8 c).length = standard_utf8_size c := by
    intro c
    unfold standard_utf8 standard_utf8_size
    split_ifs <;> rfl
  have hsum : (s.map standard_utf8).flatten.length = (s.map standard_utf8_size).sum := by
    rw [List.length_flatten, List.map_map]
    congr 1
    exact List.map_congr_left (fun c _ => hsize c)
  refine ⟨?_, hsum, ?_, ?_, ?_⟩
  · unfold string_to_utf8
    simp only [if_true, utf8_length_eq, hbytes]
  · rw [utf8_length_eq, hbytes, hsum]
  · intro c hc
    refine ⟨hsize c, standard_utf8_well_formed c (hs c hc), ?_⟩
    rw [← standard_utf8_eq c (hlt c hc)]
    exact sequence_value_utf8_bytes c (hlt c hc)
  · refine ⟨s.map standard_utf8, rfl, ?_⟩
    intro q hq
    obtain ⟨c, hc, rfl⟩ := List.mem_map.1 hq
    exact standard_utf8_well_formed c (hs c hc)

/-- C17, witness: the encoding of `A`, `é`, `€` and U+1F600 is
`41 C3 A9 E2 82 AC F0 9F 98 80`, ten bytes. -/
theorem string_to_utf8_standard_witness :
    (∀ c ∈ [0x41, 0xE9, 0x20AC, 0x1F600], unicode_scalar c) ∧
      string_to_utf8 true [0x41, 0xE9, 0x20AC, 0x1F600]
        = (some [0x41, 0xC3, 0xA9, 0xE2, 0x82, 0xAC, 0xF0, 0x9F, 0x98, 0x80], 10) :=
  ⟨by decide, (string_to_utf8_standard [0x41, 0xE9, 0x20AC, 0x1F600] (by decide)).1⟩

/-- C20, counterexample: on a buffer of 2^31 letters `A` and one more byte,
with the length 2^31, the validation pass cannot count the characters in its
`int` (undefined behaviour, `none` in the model), so there is no count of
characters for the decoding pass to write. And on the four bytes `ED A0 80 41`
the validation pass accepts all four bytes and counts two characters, but the
decoding pass returns the failure value at the surrogate: it neither consumes
the four bytes nor writes two characters. -/
theorem validation_count_overflows :
    (2147483648 ≤ (List.replicate 2147483648 65 ++ [0x42]).length ∧
      count_chars 2147483648 (List.replicate 2147483648 65 ++ [0x42]) 2147483648 0 = none ∧
      make_scheme_string2 (List.replicate 2147483648 65 ++ [0x42]) 2147483648 = none) ∧
    (count_chars 4 [0xED, 0xA0, 0x80, 0x41] 4 0 = some (.ok 2) ∧
      decode_chars 2 [0xED, 0xA0, 0x80, 0x41] []
        = some (.error (make_error_pair "make_scheme_string" UV_ECHARSET))) :=
  have h := count_chars_overflow 2147483648 [0x42] 2147483648 2147483648 0
    (by unfold INT_MAX; omega) (by unfold INT_MAX; omega) (Nat.le_refl _) (Nat.le_refl _)
  ⟨⟨by rw [List.length_append, List.length_replicate]; omega, h, count_chars_none _ _ h⟩,
    rfl, rfl⟩

/-- C20, as amended: for every buffer of at least `count` bytes,
`make_scheme_string2` and its validation pass alone give the same result as
on the buffer cut off after `count` bytes, where any read at an index from
`count` on would leave the buffer; that result is nothing exactly when the
counter overflows, that is when the first 2^31 - 1 characters of these `count`
bytes pass the structural checks and more of the bytes follow, so in every
other case no byte at an index from `count` on is read. When the validation
pass accepts the input, the first `count` bytes are made of exactly as many
sequences as it counted, and the decoding pass, run for that count, returns the
failure value if one of them is a surrogate and otherwise writes one character
for each of these sequences, whatever follows them in the buffer. -/
theorem make_scheme_string2_reads_below_count (utf8 : List Nat) (count : Nat)
    (hb : ∀ b ∈ utf8, b < 256) (hc : count ≤ utf8.length) :
    count_chars count (utf8.take count) count 0 = count_chars count utf8 count 0 ∧
    make_scheme_string2 (utf8.take count) count = make_scheme_string2 utf8 count ∧
    (counter_overflows (utf8.take count) ↔ make_scheme_string2 utf8 count = none) ∧
    (¬ counter_overflows (utf8.take count) →
      (∃ x, make_scheme_string2 utf8 count = some x ∧
        make_scheme_string2 (utf8.take count) count = some x) ∧
      ∃ r, count_chars count utf8 count 0 = some r ∧
        count_chars count (utf8.take count) count 0 = some r) ∧
    (∀ n, count_chars count utf8 count 0 = some (.ok n) →
      ∃ seqs : List (List Nat), utf8.take count = seqs.flatten ∧ seqs.length = n ∧
        seqs.flatten.length = count ∧
        (∀ rest,
          (seqs.all (fun q => !surrogate_sequence q) = false ∧
            decode_chars n (seqs.flatten ++ rest) []
              = some (.error (make_error_pair "make_scheme_string" UV_ECHARSET))) ∨
          (seqs.all (fun q => !surrogate_sequence q) = true ∧
            decode_chars n (seqs.flatten ++ rest) [] = some (.ok (seqs.map sequence_value)) ∧
            (seqs.map sequence_value).length = n))) := by
  have htl : (utf8.take count).length = count := by
    rw [List.length_take]; omega
  obtain ⟨h1, h2, h3, h4⟩ := count_chars_take_exact utf8 count hb hc
  refine ⟨h1, h2, h3, ?_, ?_⟩
  · intro hno
    cases hm : make_scheme_string2 utf8 count with
    | none => exact absurd (h3.2 hm) hno
    | some x =>
      refine ⟨⟨x, rfl, by rw [h2, hm]⟩, ?_⟩
      cases hcc : count_chars count utf8 count 0 with
      | none => rw [count_chars_none _ _ hcc] at hm; simp at hm
      | some r => exact ⟨r, rfl, by rw [h1, hcc]⟩
  · intro n hn
    obtain ⟨seqs, hs, hall, hlen, hdec⟩ := h4 n hn
    refine ⟨seqs, hs, hlen, by rw [← hs, htl], ?_⟩
    intro rest
    rw [hdec rest]
    by_cases hsur : seqs.all (fun q => !surrogate_sequence q) = true
    · right; rw [if_pos hsur]; exact ⟨hsur, rfl, by rw [List.length_map, hlen]⟩
    · left; rw [if_neg hsur]; exact ⟨by simpa using hsur, rfl⟩

/-- C20, witness: with the length 3 the byte `C3` at index 3 of the buffer
`41 C3 A9 C3` is not read, and with the length 4 it is refused for want of a
continuation byte. -/
theorem make_scheme_string2_reads_below_count_witness :
    ((∀ b ∈ [0x41, 0xC3, 0xA9, 0xC3], b < 256) ∧ 3 ≤ [0x41, 0xC3, 0xA9, 0xC3].length ∧
      ¬ counter_overflows ([0x41, 0xC3, 0xA9, 0xC3].take 3) ∧
      ∃ x, make_scheme_string2 [0x41, 0xC3, 0xA9, 0xC3] 3 = some x ∧
        make_scheme_string2 ([0x41, 0xC3, 0xA9, 0xC3].take 3) 3 = some x) ∧
    make_scheme_string2 [0x41, 0xC3, 0xA9, 0xC3] 3 = some (.string [0x41, 0xE9]) ∧
    make_scheme_string2 [0x41, 0xC3, 0xA9, 0xC3] 4
      = some (make_error_pair "make_scheme_string" UV_ECHARSET) :=
  ⟨⟨by decide, by decide, short_input_no_overflow _ (by decide),
      ((make_scheme_string2_reads_below_count [0x41, 0xC3, 0xA9, 0xC3] 3 (by decide)
        (by decide)).2.2.2.1 (short_input_no_overflow _ (by decide))).1⟩,
    rfl, rfl⟩

/-! ## Bind dispatch and the length check of prepare -/

theorem map_standard_utf8 (chars : List Nat) (h : ∀ c ∈ chars, unicode_scalar c) :
    utf8_bytes chars = (chars.map standard_utf8).flatten := by
  rw [utf8_bytes_flatten]
  congr 1
  apply List.map_congr_left
  intro c hc
  exact standard_utf8_eq c (by have := (h c hc).1; omega)

theorem sum_standard_utf8_size (chars : List Nat) :
    utf8_length chars = (chars.map standard_utf8_size).sum := by
  induction chars with
  | nil => rfl
  | cons c s ih =>
    simp only [utf8_length, List.map_cons, List.sum_cons, ih, standard_utf8_size]

/-- C13, counterexample: on the idle Database `idle_world` the string "hé" is
to go to the text bind with the bytes `68 C3 A9`, but when the allocation of
that encoding fails `osi_bind_statement` returns `(osi_bind_statement, ENOMEM)`
and makes no call of the engine at all. -/
theorem string_bind_without_engine_call :
    idle_world.d.busy = 0 ∧
    bind_dispatch low_64_bits 3 2 (.string [0x68, 0xE9])
      = some ("sqlite3_bind_text64", .bind_text64 3 2 [0x68, 0xC3, 0xA9] 3) ∧
    osi_bind_statement (fun rc => rc) low_64_bits idle_world 7 2 (.string [0x68, 0xE9]) 0 false
        [0]
      = some (make_error_pair "osi_bind_statement" UV_ENOMEM, []) :=
  ⟨rfl, rfl, rfl⟩

/-- C13, as amended: on a non-busy Database `osi_bind_statement` calls, for a
value of one of the five shapes, exactly the engine function that
`bind_dispatch` gives for the shape (null sentinel: null, integer: int64 with
the value `Sinteger64_value` gives, flonum: double, string: text with the
standard UTF-8 encoding of the string and its length, byte-vector: blob) and
nothing else before it; the result is true exactly when the engine answered
OK, and otherwise the failure tagged with the engine function, after one call
of `sqlite3_errmsg`. For a value of any other shape it returns
`(osi_bind_statement, EINVAL)` without a call. The encoding of a string is
allocated first: when that allocation fails, and only then, the engine is not
called for a string and the result is `(osi_bind_statement, ENOMEM)`. -/
theorem bind_statement_dispatch (T : Int → Int) (Sinteger64_value : Int → Int) (w : World)
    (statement : Nat) (s : statement_t)
    (index : Int) (datum : ptr) (rc : Int) (malloc_ok : Bool) (errmsg : List Nat)
    (hs : w.statements statement = some s) (hb : w.d.busy = 0)
    (hd : ∀ chars, datum = .string chars → ∀ c ∈ chars, unicode_scalar c)
    (he : ∀ b ∈ errmsg, b < 256) (hl : errmsg.length ≤ INT_MAX) :
    (∀ who call, bind_dispatch Sinteger64_value s.stmt index datum = some (who, call) →
      (malloc_ok = true ∨ ∀ chars, datum ≠ .string chars) →
      (rc = SQLITE_OK →
        osi_bind_statement T Sinteger64_value w statement index datum rc malloc_ok errmsg
          = some (.Strue, [.sqlite call])) ∧
      (rc ≠ SQLITE_OK → ∃ msg, make_scheme_string errmsg = some msg ∧
        osi_bind_statement T Sinteger64_value w statement index datum rc malloc_ok errmsg
          = some (.pair (.symbol who) (.pair (.integer (T rc)) msg),
              [.sqlite call, .sqlite (.errmsg w.d.db)])) ∧
      ((∃ ev, osi_bind_statement T Sinteger64_value w statement index datum rc malloc_ok errmsg
          = some (.Strue, ev)) ↔ rc = SQLITE_OK)) ∧
    (bind_dispatch Sinteger64_value s.stmt index datum = none →
      osi_bind_statement T Sinteger64_value w statement index datum rc malloc_ok errmsg
        = some (make_error_pair "osi_bind_statement" UV_EINVAL, [])) ∧
    (malloc_ok = false → ∀ chars, datum = .string chars →
      osi_bind_statement T Sinteger64_value w statement index datum rc malloc_ok errmsg
        = some (make_error_pair "osi_bind_statement" UV_ENOMEM, [])) := by
  obtain ⟨msg, hmsg⟩ := make_scheme_string_defined errmsg he hl
  have hfin : ∀ (who : String) (call : sqlite_call) (r : Option (ptr × List Event)),
      (rc = SQLITE_OK → r = some (.Strue, [.sqlite call])) →
      (rc ≠ SQLITE_OK → r = some (.pair (.symbol who) (.pair (.integer (T rc)) msg),
              [.sqlite call, .sqlite (.errmsg w.d.db)])) →
      (rc = SQLITE_OK → r = some (.Strue, [.sqlite call])) ∧
      (rc ≠ SQLITE_OK → ∃ msg, make_scheme_string errmsg = some msg ∧
        r = some (.pair (.symbol who) (.pair (.integer (T rc)) msg),
              [.sqlite call, .sqlite (.errmsg w.d.db)])) ∧
      ((∃ ev, r = some (.Strue, ev)) ↔ rc = SQLITE_OK) := by
    intro who call r h1 h2
    refine ⟨h1, fun h => ⟨msg, hmsg, h2 h⟩, fun ⟨ev, h⟩ => ?_, fun h => ⟨_, h1 h⟩⟩
    by_contra hrc
    rw [h2 hrc] at h
    simp at h
  refine ⟨?_, ?_, ?_⟩
  · intro who call hcall hm
    cases datum with
    | Sfalse =>
      simp only [bind_dispatch, Option.some.injEq, Prod.mk.injEq] at hcall
      obtain ⟨rfl, rfl⟩ := hcall
      exact hfin _ _ _ (fun h => by simp [osi_bind_statement, hs, hb, h])
        (fun h => by simp [osi_bind_statement, hs, hb, h, make_sqlite_error, hmsg])
    | integer n =>
      simp only [bind_dispatch, Option.some.injEq, Prod.mk.injEq] at hcall
      obtain ⟨rfl, rfl⟩ := hcall
      exact hfin _ _ _ (fun h => by simp [osi_bind_statement, hs, hb, h])
        (fun h => by simp [osi_bind_statement, hs, hb, h, make_sqlite_error, hmsg])
    | flonum x =>
      simp only [bind_dispatch, Option.some.injEq, Prod.mk.injEq] at hcall
      obtain ⟨rfl, rfl⟩ := hcall
      exact hfin _ _ _ (fun h => by simp [osi_bind_statement, hs, hb, h])
        (fun h => by simp [osi_bind_statement, hs, hb, h, make_sqlite_error, hmsg])
    | bytevector bytes =>
      simp only [bind_dispatch, Option.some.injEq, Prod.mk.injEq] at hcall
      obtain ⟨rfl, rfl⟩ := hcall
      exact hfin _ _ _ (fun h => by simp [osi_bind_statement, hs, hb, h])
        (fun h => by simp [osi_bind_statement, hs, hb, h, make_sqlite_error, hmsg])
    | string chars =>
      simp only [bind_dispatch, Option.some.injEq, Prod.mk.injEq] at hcall
      obtain ⟨rfl, rfl⟩ := hcall
      have hm1 : malloc_ok = true := by
        rcases hm with h | h
        · exact h
        · exact absurd rfl (h chars)
      rw [← map_standard_utf8 chars (hd chars rfl), ← sum_standard_utf8_size]
      exact hfin _ _ _ (fun h => by simp [osi_bind_statement, hs, hb, h, string_to_utf8, hm1])
        (fun h => by
          simp [osi_bind_statement, hs, hb, h, make_sqlite_error, hmsg, string_to_utf8, hm1])
    | Svoid => simp [bind_dispatch] at hcall
    | Strue => simp [bind_dispatch] at hcall
    | symbol _ => simp [bind_dispatch] at hcall
    | pair _ _ => simp [bind_dispatch] at hcall
    | vector _ => simp [bind_dispatch] at hcall
    | procedure _ => simp [bind_dispatch] at hcall
  · intro hnone
    cases datum <;> simp [bind_dispatch] at hnone <;>
      simp [osi_bind_statement, hs, hb]
  · intro hm chars hc
    subst hc
    simp [osi_bind_statement, hs, hb, string_to_utf8, hm]

/-- C13, witness: the string "hé" is bound as the three bytes of its UTF-8
encoding through `sqlite3_bind_text64`, and the integer 2^64 + 5 as the 64-bit
value 5 through `sqlite3_bind_int64`. -/
theorem bind_statement_dispatch_witness :
    osi_bind_statement (fun rc => rc) low_64_bits idle_world 7 2 (.string [0x68, 0xE9]) 0 true
        [0]
      = some (.Strue, [.sqlite (.bind_text64 3 2 [0x68, 0xC3, 0xA9] 3)]) ∧
    osi_bind_statement (fun rc => rc) low_64_bits idle_world 7 1
        (.integer 18446744073709551621) 0 true [0]
      = some (.Strue, [.sqlite (.bind_int64 3 1 5)]) :=
  ⟨((bind_statement_dispatch (fun rc => rc) low_64_bits idle_world 7
      { stmt := 3, prev := none, next := none }
      2 (.string [0x68, 0xE9]) 0 true [0] rfl rfl
      (by intro chars h; injection h with h; subst h; decide) (by decide) (by decide)).1
        _ _ rfl (Or.inl rfl)).1 rfl,
    ((bind_statement_dispatch (fun rc => rc) low_64_bits idle_world 7
      { stmt := 3, prev := none, next := none }
      1 (.integer 18446744073709551621) 0 true [0] rfl rfl
      (by intro chars h; cases h) (by decide) (by decide)).1
        _ _ rfl (Or.inl rfl)).1 rfl⟩

theorem int_of_size_t_eq (n : Nat) (h : n ≤ 2147483647) : int_of_size_t n = (n : Int) := by
  unfold int_of_size_t
  omega

theorem prepare_alloc_failure (T : Int → Int) (w : World) (chars : List Nat) (callback : ptr)
    (hb : w.d.busy = 0) :
    osi_prepare_statement T w (.string chars) callback false
      = (make_error_pair "osi_prepare_statement" UV_ENOMEM, w, []) := by
  simp [osi_prepare_statement, hb, string_to_utf8]

/-- C14, counterexample: the encoding of a SQL string of 2^31 letters is longer
than 2^31 - 1 bytes, but on the idle Database of `opened_system`, when the
allocation of that encoding fails, `osi_prepare_statement` returns
`(osi_prepare_statement, ENOMEM)`, which is not the TOOBIG failure: the buffer
is allocated before its length is checked. -/
theorem toobig_preempted_by_enomem :
    (utf8_bytes (List.replicate 2147483648 65)).length > 2147483647 ∧
    opened_system.w.d.busy = 0 ∧
    osi_prepare_statement (fun rc => rc) opened_system.w
        (.string (List.replicate 2147483648 65)) (.procedure 1) false
      = (make_error_pair "osi_prepare_statement" UV_ENOMEM, opened_system.w, []) ∧
    make_error_pair "osi_prepare_statement" UV_ENOMEM
      ≠ make_error_pair "sqlite3_prepare_v2" ((fun rc => rc) SQLITE_TOOBIG) :=
  ⟨by rw [utf8_bytes_replicate, List.length_replicate]; omega, rfl,
    prepare_alloc_failure _ _ _ _ rfl, by simp [make_error_pair]⟩

/-- C14, as amended: on a non-busy Database, a SQL string whose encoding is
longer than 2^31 - 1 bytes makes `osi_prepare_statement` return, when the
encoding could be allocated, the failure `(sqlite3_prepare_v2, TOOBIG)` at
once, after freeing the encoding, and when the allocation failed the failure
`(osi_prepare_statement, ENOMEM)`; in both cases the Database record stays as
it was (`busy`, the callback slot and the work slot included), nothing is
pinned and the worker is not signalled. Whenever a prepare is accepted, the
argument was a string, the slot holds its encoding and `sql_len` is the length
of that encoding, a number from 0 to 2^31 - 1. -/
theorem prepare_statement_length_check (T : Int → Int) (w : World) (chars : List Nat)
    (callback : ptr) (malloc_ok : Bool) (hb : w.d.busy = 0) :
    ((utf8_bytes chars).length > 2147483647 →
      (malloc_ok = true →
        osi_prepare_statement T w (.string chars) callback malloc_ok
          = (make_error_pair "sqlite3_prepare_v2" (T SQLITE_TOOBIG), w, [.free_sql])) ∧
      (malloc_ok = false →
        osi_prepare_statement T w (.string chars) callback malloc_ok
          = (make_error_pair "osi_prepare_statement" UV_ENOMEM, w, []))) ∧
    ((utf8_bytes chars).length ≤ 2147483647 → malloc_ok = true →
      ∃ w1, osi_prepare_statement T w (.string chars) callback malloc_ok
          = (.Strue, w1, [.Slock_object callback, .uv_mutex_lock, .uv_mutex_unlock,
              .uv_cond_signal]) ∧
        w1.d.slot = .sql (utf8_bytes chars) ∧
        w1.d.sql_len = ((utf8_bytes chars).length : Int) ∧
        w1.d.busy = 1 ∧ w1.d.work = some .prepare_worker ∧ w1.d.callback = callback) ∧
    (∀ sql w1 ev, osi_prepare_statement T w sql callback malloc_ok = (.Strue, w1, ev) →
      ∃ chars1, sql = .string chars1 ∧ w1.d.slot = .sql (utf8_bytes chars1) ∧
        w1.d.sql_len = ((utf8_bytes chars1).length : Int) ∧
        0 ≤ w1.d.sql_len ∧ w1.d.sql_len ≤ 2147483647) := by
  refine ⟨?_, ?_, ?_⟩
  · intro hlen
    rw [← utf8_length_eq] at hlen
    refine ⟨fun hm => ?_, fun hm => ?_⟩
    · simp only [osi_prepare_statement, hb, string_to_utf8, hm, if_true]
      simp [hlen]
    · simp [osi_prepare_statement, hb, string_to_utf8, hm]
  · intro hlen hm
    rw [← utf8_length_eq] at hlen ⊢
    have hn : ¬ utf8_length chars > 0x7fffffff := by omega
    refine ⟨{ w with d := { w.d with async_data := some .prepare_cb, busy := 1,
                                     work := some .prepare_worker, callback := callback,
                                     slot := .sql (utf8_bytes chars),
                                     sql_len := int_of_size_t (utf8_length chars) } },
      ?_, rfl, ?_, rfl, rfl, rfl⟩
    · simp only [osi_prepare_statement, hb, string_to_utf8, hm, if_true]
      simp [hn]
    · exact int_of_size_t_eq _ hlen
  · intro sql w1 ev h
    cases sql with
    | string chars1 =>
      refine ⟨chars1, rfl, ?_⟩
      cases malloc_ok with
      | false => simp [osi_prepare_statement, hb, string_to_utf8, make_error_pair] at h
      | true =>
        by_cases hlen : utf8_length chars1 > 0x7fffffff
        · simp [osi_prepare_statement, hb, string_to_utf8, hlen, make_error_pair] at h
        · simp only [osi_prepare_statement, hb, string_to_utf8, if_true] at h
          simp only [ne_eq, not_true_eq_false, if_false, hlen, Prod.mk.injEq, true_and] at h
          obtain ⟨rfl, _⟩ := h
          rw [← utf8_length_eq]
          have h1 : utf8_length chars1 ≤ 2147483647 := by omega
          refine ⟨rfl, int_of_size_t_eq _ h1, ?_, ?_⟩
          · show 0 ≤ int_of_size_t (utf8_length chars1)
            rw [int_of_size_t_eq _ h1]; omega
          · show int_of_size_t (utf8_length chars1) ≤ 2147483647
            rw [int_of_size_t_eq _ h1]; omega
    | _ => simp [osi_prepare_statement, hb, make_error_pair] at h

/-- C14, witness: a SQL string of 2^31 letters on a freshly opened Database is
refused with TOOBIG and the record stays as it was. -/
theorem prepare_statement_length_check_witness :
    osi_prepare_statement (fun rc => rc) opened_system.w (.string (List.replicate 2147483648 65))
        (.procedure 1) true
      = (make_error_pair "sqlite3_prepare_v2" SQLITE_TOOBIG, opened_system.w, [.free_sql]) :=
  ((prepare_statement_length_check (fun rc => rc) opened_system.w
    (List.replicate 2147483648 65) (.procedure 1) true rfl).1
      (by rw [utf8_bytes_replicate, List.length_replicate]; omega)).1 rfl

/-! ## What the completion of a step delivers -/

theorem sqlite_event (e : Event) (h : e.is_sqlite = true) :
    e.is_callback = false ∧ e.is_pin = false ∧ e.is_signal = false ∧
      e.is_async_send = false := by
  cases e <;> simp [Event.is_sqlite] at h
  exact ⟨rfl, rfl, rfl, rfl⟩

theorem filter_append_quiet (P : Event → Bool) (ev ev2 : List Event)
    (h : ∀ e ∈ ev2, P e = false) : (ev ++ ev2).filter P = ev.filter P := by
  have h2 : ev2.filter P = [] := List.filter_eq_nil_iff.2 (fun e he => by simp [h e he])
  rw [List.filter_append, h2, List.append_nil]

theorem step_cb_columns_spec (stmt : arg_slot) (cols : List column_t) :
    ∀ (values : List ptr) (i : Nat) (row : List ptr) (ev : List Event),
      (∀ c ∈ cols, column_ok c) →
      List.Forall₂ (fun c v => column_value c = some v) cols values →
      ∃ ev2, step_cb_columns stmt cols i row ev
          = some (columns_result row values, ev ++ ev2) ∧
        ∀ e ∈ ev2, e.is_sqlite = true := by
  induction cols with
  | nil =>
    intro values i row ev _ hv
    cases hv
    exact ⟨[], by simp [step_cb_columns, columns_result], by simp⟩
  | cons c cols ih =>
    intro values i row ev hok hv
    cases hv with
    | cons hc hrest =>
      rename_i v vs
      have hokc := hok c (List.mem_cons_self _ _)
      have hok1 : ∀ c1 ∈ cols, column_ok c1 := fun c1 h1 => hok c1 (List.mem_cons_of_mem _ h1)
      have hrec : ∀ (ev1 : List Event), Spairp v = false →
          (∀ e ∈ ev1, e.is_sqlite = true) →
          ∃ ev2, step_cb_columns stmt cols (i + 1) (row ++ [v]) (ev ++ ev1)
              = some (columns_result row (v :: vs), ev ++ ev2) ∧
            ∀ e ∈ ev2, e.is_sqlite = true := by
        intro ev1 hp hev1
        obtain ⟨ev2, h2, hs2⟩ := ih vs (i + 1) (row ++ [v]) (ev ++ ev1) hok1 hrest
        refine ⟨ev1 ++ ev2, ?_, ?_⟩
        · rw [h2]
          simp [columns_result, List.find?, hp]
        · intro e he
          rcases List.mem_append.1 he with h | h
          · exact hev1 e h
          · exact hs2 e h
      unfold column_value at hc
      simp only [step_cb_columns]
      by_cases h1 : c.column_type = SQLITE_NULL
      · simp only [h1, if_true, Option.some.injEq] at hc ⊢
        subst hc
        exact hrec _ rfl (by simp [Event.is_sqlite])
      · simp only [h1, if_false] at hc ⊢
        by_cases h2 : c.column_type = SQLITE_INTEGER
        · simp only [h2, if_true, Option.some.injEq] at hc ⊢
          subst hc
          have := hrec [.sqlite (.column_type stmt i), .sqlite (.column_int64 stmt i)] rfl
            (by simp [Event.is_sqlite])
          simpa using this
        · simp only [h2, if_false] at hc ⊢
          by_cases h3 : c.column_type = SQLITE_FLOAT
          · simp only [h3, if_true, Option.some.injEq] at hc ⊢
            subst hc
            have := hrec [.sqlite (.column_type stmt i), .sqlite (.column_double stmt i)] rfl
              (by simp [Event.is_sqlite])
            simpa using this
          · simp only [h3, if_false] at hc ⊢
            by_cases h4 : c.column_type = SQLITE_TEXT
            · simp only [h4, if_true] at hc ⊢
              rw [hc]
              simp only
              cases hp : Spairp v with
              | true =>
                refine ⟨[.sqlite (.column_type stmt i), .sqlite (.column_text stmt i),
                  .sqlite (.column_bytes stmt i)], ?_, by simp [Event.is_sqlite]⟩
                simp [columns_result, List.find?, hp]
              | false =>
                have := hrec [.sqlite (.column_type stmt i), .sqlite (.column_text stmt i),
                  .sqlite (.column_bytes stmt i)] hp (by simp [Event.is_sqlite])
                simpa using this
            · simp only [h4, if_false, Option.some.injEq] at hc ⊢
              subst hc
              rw [if_pos (hokc.2 h1 h2 h3 h4)]
              have := hrec [.sqlite (.column_type stmt i), .sqlite (.column_blob stmt i),
                .sqlite (.column_bytes stmt i)] rfl (by simp [Event.is_sqlite])
              simpa using this

theorem column_value_defined (c : column_t) (h : column_ok c) :
    ∃ v, column_value c = some v ∧
      (Spairp v = true → c.column_type = SQLITE_TEXT ∧
        v = make_error_pair "make_scheme_string" UV_ECHARSET) := by
  unfold column_value
  by_cases h1 : c.column_type = SQLITE_NULL
  · exact ⟨_, by rw [if_pos h1], by simp [Spairp]⟩
  rw [if_neg h1]
  by_cases h2 : c.column_type = SQLITE_INTEGER
  · exact ⟨_, by rw [if_pos h2], by simp [Spairp]⟩
  rw [if_neg h2]
  by_cases h3 : c.column_type = SQLITE_FLOAT
  · exact ⟨_, by rw [if_pos h3], by simp [Spairp]⟩
  rw [if_neg h3]
  by_cases h4 : c.column_type = SQLITE_TEXT
  · rw [if_pos h4]
    obtain ⟨hb, hc, hl⟩ := h.1 h4
    rcases make_scheme_string2_sound c.text c.bytes hb hc hl with hr | ⟨seqs, _, _, hr⟩
    · exact ⟨_, hr, fun _ => ⟨h4, rfl⟩⟩
    · exact ⟨_, hr, by simp [Spairp]⟩
  · exact ⟨_, by rw [if_neg h4], by simp [Spairp]⟩

theorem column_values_defined (cols : List column_t) (h : ∀ c ∈ cols, column_ok c) :
    ∃ values, List.Forall₂ (fun c v => column_value c = some v) cols values := by
  induction cols with
  | nil => exact ⟨[], List.Forall₂.nil⟩
  | cons c cols ih =>
    obtain ⟨v, hv, _⟩ := column_value_defined c (h c (List.mem_cons_self _ _))
    obtain ⟨vs, hvs⟩ := ih (fun c1 h1 => h c1 (List.mem_cons_of_mem _ h1))
    exact ⟨v :: vs, List.Forall₂.cons hv hvs⟩

theorem step_cb_columns_events (stmt : arg_slot) (cols : List column_t) :
    ∀ (i : Nat) (row : List ptr) (ev ev1 : List Event) (r : Except ptr (List ptr)),
      step_cb_columns stmt cols i row ev = some (r, ev1) →
      ∃ ev2, ev1 = ev ++ ev2 ∧ ∀ e ∈ ev2, e.is_sqlite = true := by
  induction cols with
  | nil =>
    intro i row ev ev1 r h
    simp only [step_cb_columns, Option.some.injEq, Prod.mk.injEq] at h
    exact ⟨[], by simp [h.2], by simp⟩
  | cons c cols ih =>
    intro i row ev ev1 r h
    have hrec : ∀ (row1 : List ptr) (evc : List Event),
        (∀ e ∈ evc, e.is_sqlite = true) →
        step_cb_columns stmt cols (i + 1) row1 (ev ++ evc) = some (r, ev1) →
        ∃ ev2, ev1 = ev ++ ev2 ∧ ∀ e ∈ ev2, e.is_sqlite = true := by
      intro row1 evc hevc h1
      obtain ⟨ev2, h2, hs2⟩ := ih _ _ _ _ _ h1
      refine ⟨evc ++ ev2, by rw [h2, List.append_assoc], ?_⟩
      intro e he
      rcases List.mem_append.1 he with h | h
      · exact hevc e h
      · exact hs2 e h
    simp only [step_cb_columns] at h
    by_cases h1 : c.column_type = SQLITE_NULL
    · simp only [h1, if_true] at h
      exact hrec _ [.sqlite (.column_type stmt i)] (by simp [Event.is_sqlite]) h
    · simp only [h1, if_false] at h
      by_cases h2 : c.column_type = SQLITE_INTEGER
      · simp only [h2, if_true] at h
        exact hrec _ [.sqlite (.column_type stmt i), .sqlite (.column_int64 stmt i)]
          (by simp [Event.is_sqlite]) (by simpa using h)
      · simp only [h2, if_false] at h
        by_cases h3 : c.column_type = SQLITE_FLOAT
        · simp only [h3, if_true] at h
          exact hrec _ [.sqlite (.column_type stmt i), .sqlite (.column_double stmt i)]
            (by simp [Event.is_sqlite]) (by simpa using h)
        · simp only [h3, if_false] at h
          by_cases h4 : c.column_type = SQLITE_TEXT
          · simp only [h4, if_true] at h
            cases hx : make_scheme_string2 c.text c.bytes with
            | none => simp [hx] at h
            | some x =>
              simp only [hx] at h
              cases hp : Spairp x with
              | true =>
                simp only [hp, if_true, Option.some.injEq, Prod.mk.injEq] at h
                exact ⟨[.sqlite (.column_type stmt i), .sqlite (.column_text stmt i),
                  .sqlite (.column_bytes stmt i)], by simp [← h.2], by simp [Event.is_sqlite]⟩
              | false =>
                simp only [hp, Bool.false_eq_true, if_false] at h
                exact hrec _ [.sqlite (.column_type stmt i), .sqlite (.column_text stmt i),
                  .sqlite (.column_bytes stmt i)] (by simp [Event.is_sqlite]) (by simpa using h)
          · simp only [h4, if_false] at h
            by_cases h5 : c.bytes ≤ c.blob.length
            · rw [if_pos h5] at h
              exact hrec _ [.sqlite (.column_type stmt i), .sqlite (.column_blob stmt i),
                .sqlite (.column_bytes stmt i)] (by simp [Event.is_sqlite]) (by simpa using h)
            · rw [if_neg h5] at h
              simp at h

theorem quiet_filters (ev : List Event) (h : ∀ e ∈ ev, e.is_sqlite = true) :
    ev.filter Event.is_callback = [] ∧ ev.filter Event.is_pin = [] ∧
      ev.any Event.is_signal = false ∧ ev.any Event.is_async_send = false := by
  refine ⟨List.filter_eq_nil_iff.2 fun e he => by simp [(sqlite_event e (h e he)).1],
    List.filter_eq_nil_iff.2 fun e he => by simp [(sqlite_event e (h e he)).2.1], ?_, ?_⟩
  · rw [List.any_eq_false]
    intro e he
    simp [(sqlite_event e (h e he)).2.2.1]
  · rw [List.any_eq_false]
    intro e he
    simp [(sqlite_event e (h e he)).2.2.2]

theorem close_cb_events (T : Int → Int) (errmsg : List Nat) (w w1 : World) (ev : List Event)
    (h : close_cb T errmsg w = some (w1, ev)) : handler_events w.d.callback ev := by
  unfold close_cb at h
  simp only at h
  split at h
  · simp only [Option.some.injEq, Prod.mk.injEq] at h
    rw [← h.2]
    exact ⟨⟨_, rfl⟩, rfl, rfl⟩
  · split at h
    · simp at h
    · simp only [Option.some.injEq, Prod.mk.injEq] at h
      rw [← h.2]
      exact ⟨⟨_, rfl⟩, rfl, rfl⟩

theorem prepare_cb_events (T : Int → Int) (errmsg : List Nat) (w w1 : World) (ev : List Event)
    (h : prepare_cb T errmsg w = some (w1, ev)) : handler_events w.d.callback ev := by
  unfold prepare_cb at h
  simp only at h
  split at h
  · simp only [Option.some.injEq, Prod.mk.injEq] at h
    rw [← h.2]
    exact ⟨⟨_, rfl⟩, rfl, rfl⟩
  · split at h
    · simp at h
    · simp only [Option.some.injEq, Prod.mk.injEq] at h
      rw [← h.2]
      exact ⟨⟨_, rfl⟩, rfl, rfl⟩

theorem handler_events_columns (callback arg : ptr) (ev2 : List Event)
    (h : ∀ e ∈ ev2, e.is_sqlite = true) :
    handler_events callback
      (([Event.Sunlock_object callback] ++ ev2) ++ [.add_callback1 callback arg]) := by
  obtain ⟨q1, q2, q3, _⟩ := quiet_filters ev2 h
  refine ⟨⟨arg, ?_⟩, ?_, ?_⟩
  · rw [List.filter_append, List.filter_append, q1]; rfl
  · rw [List.filter_append, List.filter_append, q2]; rfl
  · rw [List.any_append, List.any_append, q3]; rfl

theorem step_cb_events (T : Int → Int) (cols : List column_t) (errmsg : List Nat)
    (w w1 : World) (ev : List Event)
    (h : step_cb T cols errmsg w = some (w1, ev)) : handler_events w.d.callback ev := by
  unfold step_cb at h
  simp only at h
  split at h
  · simp only [Option.some.injEq, Prod.mk.injEq] at h
    rw [← h.2]
    exact ⟨⟨_, rfl⟩, rfl, rfl⟩
  · split at h
    · split at h
      · simp at h
      · rename_i x ev1 hc
        obtain ⟨ev2, rfl, hq⟩ := step_cb_columns_events _ _ _ _ _ _ _ hc
        simp only [Option.some.injEq, Prod.mk.injEq] at h
        rw [← h.2]
        have := handler_events_columns w.d.callback x
          ([.sqlite (.column_count w.d.slot)] ++ ev2) (by
            intro e he
            rcases List.mem_append.1 he with h1 | h1
            · simp only [List.mem_singleton] at h1; rw [h1]; rfl
            · exact hq e h1)
        simpa using this
      · rename_i x ev1 hc
        obtain ⟨ev2, rfl, hq⟩ := step_cb_columns_events _ _ _ _ _ _ _ hc
        simp only [Option.some.injEq, Prod.mk.injEq] at h
        rw [← h.2]
        have := handler_events_columns w.d.callback (.vector x)
          ([.sqlite (.column_count w.d.slot)] ++ ev2) (by
            intro e he
            rcases List.mem_append.1 he with h1 | h1
            · simp only [List.mem_singleton] at h1; rw [h1]; rfl
            · exact hq e h1)
        simpa using this
    · split at h
      · simp at h
      · simp only [Option.some.injEq, Prod.mk.injEq] at h
        rw [← h.2]
        exact ⟨⟨_, rfl⟩, rfl, rfl⟩

theorem open_cb_events (r : open_req_t) (alloc : Option Nat)
    (async_rc mutex_rc cond_rc thread_rc : Int) :
    handler_events r.callback (open_cb r alloc async_rc mutex_rc cond_rc thread_rc).2 := by
  unfold open_cb
  simp only
  split
  · exact ⟨⟨_, rfl⟩, rfl, rfl⟩
  · split
    · exact ⟨⟨_, rfl⟩, rfl, rfl⟩
    · split
      · exact ⟨⟨_, rfl⟩, rfl, rfl⟩
      · split
        · exact ⟨⟨_, rfl⟩, rfl, rfl⟩
        · split
          · exact ⟨⟨_, rfl⟩, rfl, rfl⟩
          · split
            · exact ⟨⟨_, rfl⟩, rfl, rfl⟩
            · exact ⟨⟨_, rfl⟩, rfl, rfl⟩

theorem close_cb_defined (T : Int → Int) (errmsg : List Nat) (w : World)
    (he : ∀ b ∈ errmsg, b < 256) (hl : errmsg.length ≤ INT_MAX) :
    ∃ w1 ev, close_cb T errmsg w = some (w1, ev) := by
  obtain ⟨msg, hmsg⟩ := make_scheme_string_defined errmsg he hl
  unfold close_cb
  simp only [make_sqlite_error, hmsg]
  split
  · exact ⟨_, _, rfl⟩
  · exact ⟨_, _, rfl⟩

theorem prepare_cb_defined (T : Int → Int) (errmsg : List Nat) (w : World)
    (he : ∀ b ∈ errmsg, b < 256) (hl : errmsg.length ≤ INT_MAX) :
    ∃ w1 ev, prepare_cb T errmsg w = some (w1, ev) := by
  obtain ⟨msg, hmsg⟩ := make_scheme_string_defined errmsg he hl
  unfold prepare_cb
  simp only [make_sqlite_error, hmsg]
  split
  · exact ⟨_, _, rfl⟩
  · exact ⟨_, _, rfl⟩

theorem step_cb_result (T : Int → Int) (cols : List column_t) (errmsg : List Nat) (w : World)
    (hcols : ∀ c ∈ cols, column_ok c) (he : ∀ b ∈ errmsg, b < 256)
    (hl : errmsg.length ≤ INT_MAX) :
    ∃ w1 ev arg, step_cb T cols errmsg w = some (w1, ev) ∧
      ev.filter Event.is_callback = [.add_callback1 w.d.callback arg] ∧
      (w.d.sqlite_rc = SQLITE_DONE → arg = .Sfalse) ∧
      (w.d.sqlite_rc = SQLITE_ROW →
        ∃ values, List.Forall₂ (fun c v => column_value c = some v) cols values ∧
          arg = row_result values) ∧
      (w.d.sqlite_rc ≠ SQLITE_DONE → w.d.sqlite_rc ≠ SQLITE_ROW →
        ∃ msg, make_scheme_string errmsg = some msg ∧
          arg = .pair (.symbol "sqlite3_step") (.pair (.integer (T w.d.sqlite_rc)) msg)) := by
  obtain ⟨msg, hmsg⟩ := make_scheme_string_defined errmsg he hl
  obtain ⟨values, hv⟩ := column_values_defined cols hcols
  obtain ⟨ev2, hcol, hq⟩ := step_cb_columns_spec w.d.slot cols values 0 []
    ([Event.Sunlock_object w.d.callback] ++ [.sqlite (.column_count w.d.slot)]) hcols hv
  have hq1 := (quiet_filters ev2 hq).1
  by_cases hdone : w.d.sqlite_rc = SQLITE_DONE
  · have hstep : step_cb T cols errmsg w
        = some ({ w with d := { w.d with busy := 0, callback := .Svoid, slot := .null } },
            [Event.Sunlock_object w.d.callback] ++ [.add_callback1 w.d.callback .Sfalse]) := by
      simp only [step_cb, hdone, if_true]
    refine ⟨_, _, .Sfalse, hstep, rfl, fun _ => rfl, ?_, ?_⟩
    · intro hrow; rw [hdone] at hrow; exact absurd hrow (by decide)
    · intro h; exact absurd hdone h
  · by_cases hrow : w.d.sqlite_rc = SQLITE_ROW
    · cases hf : values.find? Spairp with
      | some x =>
        have hres : columns_result [] values = .error x := by simp [columns_result, hf]
        rw [hres] at hcol
        have hstep : step_cb T cols errmsg w
            = some ({ w with d := { w.d with busy := 0, callback := .Svoid, slot := .null } },
                ([Event.Sunlock_object w.d.callback] ++ [.sqlite (.column_count w.d.slot)]
                  ++ ev2) ++ [.add_callback1 w.d.callback x]) := by
          unfold step_cb
          simp only
          rw [if_neg hdone, if_pos hrow, hcol]
        refine ⟨_, _, x, hstep, ?_,
          fun h => absurd h hdone, fun _ => ⟨values, hv, by simp [row_result, hf]⟩,
          fun _ h => absurd hrow h⟩
        simp only [List.filter_append, hq1]
        rfl
      | none =>
        have hres : columns_result [] values = .ok values := by simp [columns_result, hf]
        rw [hres] at hcol
        have hstep : step_cb T cols errmsg w
            = some ({ w with d := { w.d with busy := 0, callback := .Svoid, slot := .null } },
                ([Event.Sunlock_object w.d.callback] ++ [.sqlite (.column_count w.d.slot)]
                  ++ ev2) ++ [.add_callback1 w.d.callback (.vector values)]) := by
          unfold step_cb
          simp only
          rw [if_neg hdone, if_pos hrow, hcol]
        refine ⟨_, _, .vector values, hstep, ?_,
          fun h => absurd h hdone, fun _ => ⟨values, hv, by simp [row_result, hf]⟩,
          fun _ h => absurd hrow h⟩
        simp only [List.filter_append, hq1]
        rfl
    · have hstep : step_cb T cols errmsg w
          = some ({ w with d := { w.d with busy := 0, callback := .Svoid, slot := .null } },
              [Event.Sunlock_object w.d.callback] ++ [.sqlite (.errmsg w.d.db),
                .add_callback1 w.d.callback
                  (.pair (.symbol "sqlite3_step") (.pair (.integer (T w.d.sqlite_rc)) msg))]) := by
        simp only [step_cb, hdone, hrow, if_false, make_sqlite_error, hmsg]
      exact ⟨_, _, _, hstep, rfl, fun h => absurd h hdone, fun h => absurd h hrow,
        fun _ _ => ⟨msg, hmsg, rfl⟩⟩

theorem forall₂_mem (cols : List column_t) (values : List ptr)
    (h : List.Forall₂ (fun c v => column_value c = some v) cols values) :
    values.length = cols.length ∧ ∀ v ∈ values, ∃ c ∈ cols, column_value c = some v := by
  induction h with
  | nil => exact ⟨rfl, by simp⟩
  | cons hc _ ih =>
    refine ⟨by simp [ih.1], ?_⟩
    intro v hv
    rcases List.mem_cons.1 hv with rfl | hv
    · exact ⟨_, List.mem_cons_self _ _, hc⟩
    · obtain ⟨c, hcm, hcv⟩ := ih.2 v hv
      exact ⟨c, List.mem_cons_of_mem _ hcm, hcv⟩

/-- C12: when the engine's answers about the columns are well formed, `step_cb`
enqueues one invocation of the saved callback, and its argument is false when
the step returned DONE; when it returned ROW, with the values of the columns
by type (`column_value`: false for NULL, the 64-bit integer, the double, the
text decoded by `make_scheme_string2`, a byte-vector with the bytes of the
blob), the vector of these values, one for each column, when no value is a
failure, and otherwise the failure `(make_scheme_string, ECHARSET)` that a
text column decoded to, first in column order, and no vector; and for every
other return code the failure `(sqlite3_step, code, message)`. -/
theorem step_cb_delivers (T : Int → Int) (cols : List column_t) (errmsg : List Nat) (w : World)
    (hcols : ∀ c ∈ cols, column_ok c) (he : ∀ b ∈ errmsg, b < 256)
    (hl : errmsg.length ≤ INT_MAX) :
    ∃ w1 ev arg, step_cb T cols errmsg w = some (w1, ev) ∧
      ev.filter Event.is_callback = [.add_callback1 w.d.callback arg] ∧
      (w.d.sqlite_rc = SQLITE_DONE → arg = .Sfalse) ∧
      (w.d.sqlite_rc = SQLITE_ROW →
        ∃ values, List.Forall₂ (fun c v => column_value c = some v) cols values ∧
          arg = row_result values ∧
          ((∀ v ∈ values, Spairp v = false) →
            arg = .vector values ∧ values.length = cols.length) ∧
          ((∃ v ∈ values, Spairp v = true) →
            arg = make_error_pair "make_scheme_string" UV_ECHARSET ∧
            values.find? Spairp = some arg ∧
            ∃ c ∈ cols, c.column_type = SQLITE_TEXT ∧
              make_scheme_string2 c.text c.bytes = some arg)) ∧
      (w.d.sqlite_rc ≠ SQLITE_DONE → w.d.sqlite_rc ≠ SQLITE_ROW →
        ∃ msg, make_scheme_string errmsg = some msg ∧
          arg = .pair (.symbol "sqlite3_step") (.pair (.integer (T w.d.sqlite_rc)) msg)) := by
  obtain ⟨w1, ev, arg, hstep, hcb, hdone, hrow, hother⟩ :=
    step_cb_result T cols errmsg w hcols he hl
  refine ⟨w1, ev, arg, hstep, hcb, hdone, ?_, hother⟩
  intro h
  obtain ⟨values, hv, harg⟩ := hrow h
  obtain ⟨hlen, hmem⟩ := forall₂_mem cols values hv
  refine ⟨values, hv, harg, ?_, ?_⟩
  · intro hall
    have hf : values.find? Spairp = none := List.find?_eq_none.2 (fun v hv1 => by simp [hall v hv1])
    exact ⟨by rw [harg]; simp [row_result, hf], hlen⟩
  · intro ⟨v, hv1, hp⟩
    cases hf : values.find? Spairp with
    | none => exact absurd hp (by simpa using List.find?_eq_none.1 hf v hv1)
    | some x =>
      have hx : arg = x := by rw [harg]; simp [row_result, hf]
      subst hx
      have hpx : Spairp arg = true := List.find?_some hf
      obtain ⟨c, hcm, hcv⟩ := hmem arg (List.mem_of_find?_eq_some hf)
      obtain ⟨v1, hv1, hprop⟩ := column_value_defined c (hcols c hcm)
      rw [hcv] at hv1
      simp only [Option.some.injEq] at hv1
      subst hv1
      obtain ⟨htext, hval⟩ := hprop hpx
      refine ⟨hval, rfl, c, hcm, htext, ?_⟩
      simpa [column_value, htext, SQLITE_TEXT, SQLITE_NULL, SQLITE_INTEGER, SQLITE_FLOAT]
        using hcv

/-- C12, witness: the row of `example_row`, whose columns are well formed. -/
theorem step_cb_delivers_witness :
    ∃ w1 ev arg, step_cb (fun rc => rc) example_row [0] row_world = some (w1, ev) ∧
      ev.filter Event.is_callback = [.add_callback1 row_world.d.callback arg] ∧
      (row_world.d.sqlite_rc = SQLITE_DONE → arg = .Sfalse) ∧
      (row_world.d.sqlite_rc = SQLITE_ROW →
        ∃ values, List.Forall₂ (fun c v => column_value c = some v) example_row values ∧
          arg = row_result values ∧
          ((∀ v ∈ values, Spairp v = false) →
            arg = .vector values ∧ values.length = example_row.length) ∧
          ((∃ v ∈ values, Spairp v = true) →
            arg = make_error_pair "make_scheme_string" UV_ECHARSET ∧
            values.find? Spairp = some arg ∧
            ∃ c ∈ example_row, c.column_type = SQLITE_TEXT ∧
              make_scheme_string2 c.text c.bytes = some arg)) ∧
      (row_world.d.sqlite_rc ≠ SQLITE_DONE → row_world.d.sqlite_rc ≠ SQLITE_ROW →
        ∃ msg, make_scheme_string [0] = some msg ∧
          arg = .pair (.symbol "sqlite3_step")
            (.pair (.integer ((fun rc => rc) row_world.d.sqlite_rc)) msg)) :=
  step_cb_delivers (fun rc => rc) example_row [0] row_world (by decide) (by decide) (by decide)


/-! ## What a submission calls -/

theorem osi_prepare_statement_events (T : Int → Int) (w : World) (sql callback : ptr)
    (malloc_ok : Bool) :
    ((osi_prepare_statement T w sql callback malloc_ok).1 = .Strue ∧ w.d.busy = 0 ∧
      (osi_prepare_statement T w sql callback malloc_ok).2.2
        = [.Slock_object callback, .uv_mutex_lock, .uv_mutex_unlock, .uv_cond_signal] ∧
      ∃ slot len, (osi_prepare_statement T w sql callback malloc_ok).2.1
        = { w with d := { w.d with async_data := some .prepare_cb, busy := 1,
                                   work := some .prepare_worker, callback := callback,
                                   slot := slot, sql_len := len } }) ∨
    (Spairp (osi_prepare_statement T w sql callback malloc_ok).1 = true ∧
      (osi_prepare_statement T w sql callback malloc_ok).2.1 = w ∧
      ((osi_prepare_statement T w sql callback malloc_ok).2.2 = [] ∨
        (osi_prepare_statement T w sql callback malloc_ok).2.2 = [.free_sql])) := by
  unfold osi_prepare_statement
  by_cases hb : w.d.busy ≠ 0
  · right; rw [if_pos hb]; exact ⟨rfl, rfl, Or.inl rfl⟩
  · rw [if_neg hb]
    cases sql with
    | string chars =>
      simp only
      rcases hst : string_to_utf8 malloc_ok chars with ⟨_ | utf8, len⟩
      · right; exact ⟨rfl, rfl, Or.inl rfl⟩
      · simp only
        by_cases hlen : len > 0x7fffffff
        · right; rw [if_pos hlen]; exact ⟨rfl, rfl, Or.inr rfl⟩
        · left; rw [if_neg hlen]; exact ⟨rfl, not_not.1 hb, rfl, _, _, rfl⟩
    | _ => right; exact ⟨rfl, rfl, Or.inl rfl⟩

theorem osi_close_database_events (w : World) (callback : ptr) :
    ((osi_close_database w callback).1 = .Strue ∧ w.d.busy = 0 ∧
      (osi_close_database w callback).2.2
        = [.Slock_object callback, .uv_mutex_lock, .uv_mutex_unlock, .uv_cond_signal] ∧
      (osi_close_database w callback).2.1
        = { w with d := { w.d with async_data := some .close_cb, busy := 1,
                                   work := some .close_worker, callback := callback } }) ∨
    (Spairp (osi_close_database w callback).1 = true ∧
      (osi_close_database w callback).2.1 = w ∧ (osi_close_database w callback).2.2 = []) := by
  unfold osi_close_database
  by_cases hb : w.d.busy ≠ 0
  · right; rw [if_pos hb]; exact ⟨rfl, rfl, rfl⟩
  · left; rw [if_neg hb]; exact ⟨rfl, not_not.1 hb, rfl, rfl⟩

theorem osi_step_statement_events (w w1 : World) (statement : Nat) (callback r : ptr)
    (ev : List Event) (h : osi_step_statement w statement callback = some (r, w1, ev)) :
    (r = .Strue ∧ w.d.busy = 0 ∧
      ev = [.Slock_object callback, .uv_mutex_lock, .uv_mutex_unlock, .uv_cond_signal] ∧
      ∃ slot, w1 = { w with d := { w.d with async_data := some .step_cb, busy := 1,
                                            work := some .step_worker, callback := callback,
                                            slot := slot } }) ∨
    (Spairp r = true ∧ w1 = w ∧ ev = []) := by
  unfold osi_step_statement at h
  split at h
  · simp at h
  · by_cases hb : w.d.busy ≠ 0
    · rw [if_pos hb] at h
      simp only [Option.some.injEq, Prod.mk.injEq] at h
      obtain ⟨rfl, rfl, rfl⟩ := h
      exact Or.inr ⟨rfl, rfl, rfl⟩
    · rw [if_neg hb] at h
      simp only [Option.some.injEq, Prod.mk.injEq] at h
      obtain ⟨rfl, rfl, rfl⟩ := h
      exact Or.inl ⟨rfl, not_not.1 hb, rfl, _, rfl⟩

theorem osi_open_database_events (filename : List Nat) (flags : Int) (callback : ptr)
    (malloc_ok strdup_ok : Bool) (queue_rc : Int) :
    ((osi_open_database filename flags callback malloc_ok strdup_ok queue_rc).1 = .Strue ∧
      (∃ r, (osi_open_database filename flags callback malloc_ok strdup_ok queue_rc).2.1
          = some r ∧ r.callback = callback) ∧
      (osi_open_database filename flags callback malloc_ok strdup_ok queue_rc).2.2
        = [.Slock_object callback, .uv_queue_work]) ∨
    (Spairp (osi_open_database filename flags callback malloc_ok strdup_ok queue_rc).1 = true ∧
      (osi_open_database filename flags callback malloc_ok strdup_ok queue_rc).2.1 = none ∧
      ((osi_open_database filename flags callback malloc_ok strdup_ok queue_rc).2.2 = [] ∨
        (osi_open_database filename flags callback malloc_ok strdup_ok queue_rc).2.2
          = [.Slock_object callback, .uv_queue_work, .Sunlock_object callback,
              .free_filename, .free_request])) := by
  unfold osi_open_database
  cases malloc_ok with
  | false => right; exact ⟨rfl, rfl, Or.inl rfl⟩
  | true =>
    simp only [if_true]
    by_cases hq : queue_rc < 0
    · right; rw [if_pos hq]; exact ⟨rfl, rfl, Or.inr rfl⟩
    · left; rw [if_neg hq]; exact ⟨rfl, ⟨_, rfl, rfl⟩, rfl⟩

/-- C18: no submission enqueues an invocation of the callback, whether it
returns a failure value or not (`osi_open_database`, `osi_prepare_statement`,
`osi_step_statement`, `osi_close_database`), and every completion handler
(`open_cb` on each of its seven paths, and `prepare_cb`, `step_cb` and
`close_cb` when the engine's answers are well formed) returns having made
exactly one call of `add_callback1`, on the callback that the submission
saved, with one argument. -/
theorem callback_enqueued_once (T : Int → Int) (w : World) (r : open_req_t)
    (cols : List column_t) (errmsg : List Nat)
    (hcols : ∀ c ∈ cols, column_ok c) (he : ∀ b ∈ errmsg, b < 256)
    (hl : errmsg.length ≤ INT_MAX) :
    (∀ filename flags callback malloc_ok strdup_ok queue_rc,
      (osi_open_database filename flags callback malloc_ok strdup_ok queue_rc).2.2.filter
        Event.is_callback = []) ∧
    (∀ sql callback malloc_ok,
      (osi_prepare_statement T w sql callback malloc_ok).2.2.filter Event.is_callback = []) ∧
    (∀ statement callback res, osi_step_statement w statement callback = some res →
      res.2.2.filter Event.is_callback = []) ∧
    (∀ callback, (osi_close_database w callback).2.2.filter Event.is_callback = []) ∧
    (∀ alloc async_rc mutex_rc cond_rc thread_rc, ∃ arg,
      (open_cb r alloc async_rc mutex_rc cond_rc thread_rc).2.filter Event.is_callback
        = [.add_callback1 r.callback arg]) ∧
    (∃ w1 ev arg, prepare_cb T errmsg w = some (w1, ev) ∧
      ev.filter Event.is_callback = [.add_callback1 w.d.callback arg]) ∧
    (∃ w1 ev arg, step_cb T cols errmsg w = some (w1, ev) ∧
      ev.filter Event.is_callback = [.add_callback1 w.d.callback arg]) ∧
    (∃ w1 ev arg, close_cb T errmsg w = some (w1, ev) ∧
      ev.filter Event.is_callback = [.add_callback1 w.d.callback arg]) := by
  refine ⟨?_, ?_, ?_, ?_, ?_, ?_, ?_, ?_⟩
  · intro filename flags callback malloc_ok strdup_ok queue_rc
    rcases osi_open_database_events filename flags callback malloc_ok strdup_ok queue_rc with
      ⟨_, _, h⟩ | ⟨_, _, h | h⟩ <;> rw [h] <;> rfl
  · intro sql callback malloc_ok
    rcases osi_prepare_statement_events T w sql callback malloc_ok with
      ⟨_, _, h, _⟩ | ⟨_, _, h | h⟩ <;> rw [h] <;> rfl
  · intro statement callback res h
    obtain ⟨r1, w1, ev⟩ := res
    rcases osi_step_statement_events _ _ _ _ _ _ h with ⟨_, _, h, _⟩ | ⟨_, _, h⟩ <;>
      simp only [h] <;> rfl
  · intro callback
    rcases osi_close_database_events w callback with ⟨_, _, h, _⟩ | ⟨_, _, h⟩ <;> rw [h] <;> rfl
  · intro alloc async_rc mutex_rc cond_rc thread_rc
    exact (open_cb_events r alloc async_rc mutex_rc cond_rc thread_rc).1
  · obtain ⟨w1, ev, h⟩ := prepare_cb_defined T errmsg w he hl
    obtain ⟨arg, harg⟩ := (prepare_cb_events T errmsg w w1 ev h).1
    exact ⟨w1, ev, arg, h, harg⟩
  · obtain ⟨w1, ev, arg, h, harg, _⟩ := step_cb_result T cols errmsg w hcols he hl
    exact ⟨w1, ev, arg, h, harg⟩
  · obtain ⟨w1, ev, h⟩ := close_cb_defined T errmsg w he hl
    obtain ⟨arg, harg⟩ := (close_cb_events T errmsg w w1 ev h).1
    exact ⟨w1, ev, arg, h, harg⟩

/-- C18, witness: the completion of the step that found the row of
`bad_text_row` on `row_world`, and an open request of the example. -/
theorem callback_enqueued_once_witness :
    (∃ w1 ev arg, step_cb (fun rc => rc) bad_text_row [0] row_world = some (w1, ev) ∧
      ev.filter Event.is_callback = [.add_callback1 row_world.d.callback arg]) ∧
    (∃ w1 ev arg, close_cb (fun rc => rc) [0] row_world = some (w1, ev) ∧
      ev.filter Event.is_callback = [.add_callback1 row_world.d.callback arg]) :=
  ⟨(callback_enqueued_once (fun rc => rc) row_world opened_request bad_text_row [0]
      (by decide) (by decide) (by decide)).2.2.2.2.2.2.1,
    (callback_enqueued_once (fun rc => rc) row_world opened_request bad_text_row [0]
      (by decide) (by decide) (by decide)).2.2.2.2.2.2.2⟩

/-! ## Allocation failures -/

/-- C15, counterexample: the engine accepts the statement of `preparing_world`
and the allocation of the Statement record fails. `prepare_worker` finalizes
the statement and stores `SQLITE_NOMEM`, and `prepare_cb` hands the callback
the engine failure tagged `sqlite3_prepare_v2` with the translated engine code
(7 under the identity translation) and the engine's message "oom": the code is
not `UV_ENOMEM` and the value is no `(who, ENOMEM)` pair for any tag. -/
theorem statement_alloc_failure_is_engine_failure :
    (prepare_worker SQLITE_OK 5 none preparing_world).map (fun r => r.1.d.sqlite_rc)
      = some SQLITE_NOMEM ∧
    ((prepare_worker SQLITE_OK 5 none preparing_world).bind
        (fun r => prepare_cb (fun rc => rc) [0x6F, 0x6F, 0x6D, 0] r.1)).map (fun r => r.2)
      = some [.free_sql, .Sunlock_object (.procedure 1), .sqlite (.errmsg 1),
          .add_callback1 (.procedure 1)
            (.pair (.symbol "sqlite3_prepare_v2")
              (.pair (.integer 7) (.string [0x6F, 0x6F, 0x6D])))] ∧
    (7 : Int) ≠ UV_ENOMEM ∧
    ptr.pair (.symbol "sqlite3_prepare_v2") (.pair (.integer 7) (.string [0x6F, 0x6F, 0x6D]))
      ≠ make_error_pair "osi_prepare_statement" UV_ENOMEM := by
  refine ⟨rfl, rfl, by decide, ?_⟩
  simp [make_error_pair]

theorem null_filename_open_accepted (filename : List Nat) (flags : Int) (callback : ptr)
    (queue_rc : Int) (h : ¬ queue_rc < 0) :
    osi_open_database filename flags callback true false queue_rc
      = (.Strue, some { filename := none, flags := flags, callback := callback, db := 0,
                        result := 0 },
          [.Slock_object callback, .uv_queue_work]) := by
  simp [osi_open_database, h]

/-- C15: a failed allocation of the open request makes `osi_open_database`
return `(osi_open_database, ENOMEM)`; a failed allocation of the Database
record makes `open_cb` deliver `(osi_open_database, ENOMEM)` to the callback;
a failed allocation of the encoded SQL text makes `osi_prepare_statement`
return `(osi_prepare_statement, ENOMEM)`; a failed allocation of the encoded
bind text makes `osi_bind_statement` return `(osi_bind_statement, ENOMEM)`;
each without a call of the engine after the failure. A failed allocation of the
Statement record is reported through the engine's code instead:
`prepare_worker` finalizes the prepared statement and stores `SQLITE_NOMEM`,
the list of statements stays as it was, and `prepare_cb` delivers
`(sqlite3_prepare_v2, TRANSLATE_SQLITE_ERRNO(SQLITE_NOMEM), message)`. -/
theorem allocation_failure_reported (T : Int → Int) (errmsg : List Nat)
    (he : ∀ b ∈ errmsg, b < 256) (hl : errmsg.length ≤ INT_MAX) :
    (∀ filename flags callback strdup_ok queue_rc,
      osi_open_database filename flags callback false strdup_ok queue_rc
        = (make_error_pair "osi_open_database" UV_ENOMEM, none, [])) ∧
    (∀ r async_rc mutex_rc cond_rc thread_rc, r.result = 0 →
      open_cb r none async_rc mutex_rc cond_rc thread_rc
        = (none, [.free_filename, .Sunlock_object r.callback, .free_request,
            .add_callback1 r.callback (make_error_pair "osi_open_database" UV_ENOMEM)])) ∧
    (∀ w chars callback, w.d.busy = 0 →
      osi_prepare_statement T w (.string chars) callback false
        = (make_error_pair "osi_prepare_statement" UV_ENOMEM, w, [])) ∧
    (∀ Sinteger64_value w statement s index chars rc, w.d.busy = 0 →
      w.statements statement = some s →
      osi_bind_statement T Sinteger64_value w statement index (.string chars) rc false errmsg
        = some (make_error_pair "osi_bind_statement" UV_ENOMEM, [])) ∧
    (∀ w stmt, ∃ msg,
      make_scheme_string errmsg = some msg ∧
      prepare_worker SQLITE_OK stmt none w
        = some ({ w with d := { w.d with sqlite_rc := SQLITE_NOMEM } },
            [.sqlite (.prepare_v2 w.d.db w.d.slot w.d.sql_len), .sqlite (.finalize stmt)]) ∧
      prepare_cb T errmsg { w with d := { w.d with sqlite_rc := SQLITE_NOMEM, work := none } }
        = some ({ w with d := { w.d with sqlite_rc := SQLITE_NOMEM, work := none, busy := 0,
                                         callback := .Svoid, slot := .null, sql_len := 0 } },
            [.free_sql, .Sunlock_object w.d.callback, .sqlite (.errmsg w.d.db),
            .add_callback1 w.d.callback
              (.pair (.symbol "sqlite3_prepare_v2")
                (.pair (.integer (T SQLITE_NOMEM)) msg))])) := by
  obtain ⟨msg, hmsg⟩ := make_scheme_string_defined errmsg he hl
  refine ⟨?_, ?_, ?_, ?_, ?_⟩
  · intro filename flags callback strdup_ok queue_rc
    simp [osi_open_database]
  · intro r async_rc mutex_rc cond_rc thread_rc hr
    simp [open_cb, hr]
  · intro w chars callback hb
    simp [osi_prepare_statement, hb, string_to_utf8]
  · intro S w statement s index chars rc hb hs
    simp [osi_bind_statement, hb, hs, string_to_utf8]
  · intro w stmt
    refine ⟨msg, hmsg, by simp [prepare_worker], ?_⟩
    have hne : ¬ (SQLITE_NOMEM = SQLITE_OK) := by decide
    simp only [prepare_cb, make_sqlite_error, hmsg, hne, if_false]

/-- C15, witness: the allocation failures with the message "oom" of the
engine. -/
theorem allocation_failure_reported_witness :
    osi_open_database [0x78] 6 (.procedure 0) false true 0
      = (make_error_pair "osi_open_database" UV_ENOMEM, none, []) ∧
    open_cb opened_request none 0 0 0 0
      = (none, [.free_filename, .Sunlock_object (.procedure 0), .free_request,
          .add_callback1 (.procedure 0) (make_error_pair "osi_open_database" UV_ENOMEM)]) :=
  ⟨(allocation_failure_reported (fun rc => rc) [0x6F, 0x6F, 0x6D, 0] (by decide)
      (by decide)).1 [0x78] 6 (.procedure 0) true 0,
    (allocation_failure_reported (fun rc => rc) [0x6F, 0x6F, 0x6D, 0] (by decide)
      (by decide)).2.1 opened_request 0 0 0 0 rfl⟩

/-! ## What one action does -/

theorem close_worker_loop_frame (fuel : Nat) :
    ∀ (w w1 : World) (ev ev1 : List Event), close_worker_loop fuel w ev = some (w1, ev1) →
      w1.d.busy = w.d.busy ∧ w1.d.callback = w.d.callback ∧ w1.d.work = w.d.work ∧
      ∃ ev2, ev1 = ev ++ ev2 ∧
        ∀ e ∈ ev2, e.is_pin = false ∧ e.is_signal = false := by
  induction fuel with
  | zero => intro w w1 ev ev1 h; simp [close_worker_loop] at h
  | succ fuel ih =>
    intro w w1 ev ev1 h
    cases hst : w.d.statement with
    | none =>
      simp only [close_worker_loop, hst, Option.some.injEq, Prod.mk.injEq] at h
      obtain ⟨rfl, rfl⟩ := h
      exact ⟨rfl, rfl, rfl, [], by simp, by simp⟩
    | some p =>
      cases hs : w.statements p with
      | none => simp [close_worker_loop, hst, hs] at h
      | some s =>
        simp only [close_worker_loop, hst, hs] at h
        obtain ⟨h1, h2, h3, ev2, h4, h5⟩ := ih _ _ _ _ h
        refine ⟨h1, h2, h3, [.sqlite (.finalize s.stmt), .free_statement p] ++ ev2,
          by rw [h4, List.append_assoc], ?_⟩
        intro e he
        rcases List.mem_append.1 he with h6 | h6
        · simp only [List.mem_cons, List.mem_singleton, List.not_mem_nil, or_false] at h6
          rcases h6 with rfl | rfl <;> exact ⟨rfl, rfl⟩
        · exact h5 e h6

theorem quiet_events (ev : List Event) (h : ∀ e ∈ ev, e.is_pin = false ∧ e.is_signal = false) :
    ev.filter Event.is_pin = [] ∧ ev.any Event.is_signal = false := by
  refine ⟨List.filter_eq_nil_iff.2 fun e he => by simp [(h e he).1], ?_⟩
  rw [List.any_eq_false]
  intro e he
  simp [(h e he).2]

theorem run_work_frame (a : answer_t) (x : uv_thread_cb) (w w1 : World) (ev : List Event)
    (h : run_work a x w = some (w1, ev)) :
    w1.d.busy = w.d.busy ∧ w1.d.callback = w.d.callback ∧ w1.d.work = w.d.work ∧
      ev.filter Event.is_pin = [] ∧ ev.any Event.is_signal = false := by
  cases x with
  | close_worker =>
    simp only [run_work, close_worker] at h
    split at h
    · simp at h
    · rename_i w2 ev2 hrun
      simp only [Option.some.injEq, Prod.mk.injEq] at h
      obtain ⟨rfl, rfl⟩ := h
      obtain ⟨h1, h2, h3, ev3, h4, h5⟩ := close_worker_loop_frame _ _ _ _ _ hrun
      refine ⟨h1, h2, h3, ?_⟩
      apply quiet_events
      intro e he
      rcases List.mem_append.1 he with h6 | h6
      · rw [h4, List.nil_append] at h6
        exact h5 e h6
      · simp only [List.mem_singleton] at h6
        rw [h6]; exact ⟨rfl, rfl⟩
  | prepare_worker =>
    simp only [run_work, prepare_worker] at h
    split at h
    · split at h
      · split at h
        · split at h
          · simp at h
          · simp only [Option.some.injEq, Prod.mk.injEq] at h
            obtain ⟨rfl, rfl⟩ := h
            exact ⟨rfl, rfl, rfl, rfl, rfl⟩
        · simp only [Option.some.injEq, Prod.mk.injEq] at h
          obtain ⟨rfl, rfl⟩ := h
          exact ⟨rfl, rfl, rfl, rfl, rfl⟩
      · simp only [Option.some.injEq, Prod.mk.injEq] at h
        obtain ⟨rfl, rfl⟩ := h
        exact ⟨rfl, rfl, rfl, rfl, rfl⟩
    · simp only [Option.some.injEq, Prod.mk.injEq] at h
      obtain ⟨rfl, rfl⟩ := h
      exact ⟨rfl, rfl, rfl, rfl, rfl⟩
  | step_worker =>
    simp only [run_work, step_worker, Option.some.injEq, Prod.mk.injEq] at h
    obtain ⟨rfl, rfl⟩ := h
    exact ⟨rfl, rfl, rfl, rfl, rfl⟩

theorem async_cb_events (T : Int → Int) (cols : List column_t) (errmsg : List Nat)
    (w w1 : World) (ev : List Event) (h : async_cb T cols errmsg w = some (w1, ev)) :
    handler_events w.d.callback ev := by
  unfold async_cb at h
  split at h
  · simp at h
  · exact close_cb_events T errmsg w w1 ev h
  · exact prepare_cb_events T errmsg w w1 ev h
  · exact step_cb_events T cols errmsg w w1 ev h

theorem osi_finalize_statement_events (w w1 : World) (p : Nat) (r : ptr) (ev : List Event)
    (h : osi_finalize_statement w p = some (r, w1, ev)) :
    w1.d.busy = w.d.busy ∧ w1.d.work = w.d.work ∧ w1.d.callback = w.d.callback ∧
      ev.filter Event.is_pin = [] ∧ ev.any Event.is_signal = false := by
  unfold osi_finalize_statement at h
  split at h
  · simp at h
  · rename_i s hs
    by_cases hb : w.d.busy ≠ 0
    · rw [if_pos hb] at h
      simp only [Option.some.injEq, Prod.mk.injEq] at h
      obtain ⟨_, rfl, rfl⟩ := h
      exact ⟨rfl, rfl, rfl, rfl, rfl⟩
    · rw [if_neg hb] at h
      simp only at h
      split at h
      · simp at h
      · rename_i w2 hw2
        split at h
        · simp at h
        · rename_i w3 hw3
          simp only [Option.some.injEq, Prod.mk.injEq] at h
          obtain ⟨_, rfl, rfl⟩ := h
          have h2 : w2.d.busy = w.d.busy ∧ w2.d.work = w.d.work ∧
              w2.d.callback = w.d.callback := by
            split at hw2
            · split at hw2
              · simp at hw2
              · simp only [Option.some.injEq] at hw2
                rw [← hw2]; exact ⟨rfl, rfl, rfl⟩
            · simp only [Option.some.injEq] at hw2
              rw [← hw2]; exact ⟨rfl, rfl, rfl⟩
          have h3 : w3.d = w2.d := by
            split at hw3
            · split at hw3
              · simp at hw3
              · simp only [Option.some.injEq] at hw3
                rw [← hw3]
            · simp only [Option.some.injEq] at hw3
              rw [← hw3]
          refine ⟨?_, ?_, ?_, rfl, rfl⟩
          · show w3.d.busy = w.d.busy
            rw [h3]; exact h2.1
          · show w3.d.work = w.d.work
            rw [h3]; exact h2.2.1
          · show w3.d.callback = w.d.callback
            rw [h3]; exact h2.2.2

theorem idle_work_none (s : System) (hf : flag_invariant s) (hb : s.w.d.busy = 0) :
    s.w.d.work = none := by
  by_contra hne
  exact (hf.1.2 (Or.inl hne)) hb

theorem system_step_effect (T : Int → Int) (act : Action) (s s1 : System) (ev : List Event)
    (hf : flag_invariant s) (h : system_step T act s = some (s1, ev)) :
    step_effect s act s1 ev := by
  unfold system_step at h
  by_cases hclosed : s.closed = true
  · simp [hclosed] at h
  simp only [hclosed, Bool.false_eq_true, if_false] at h
  cases act with
  | prepare_statement sql callback malloc_ok =>
    simp only at h
    split at h
    · simp at h
    · rcases hres : osi_prepare_statement T s.w sql callback malloc_ok with ⟨r, w1, ev1⟩
      have hev := osi_prepare_statement_events T s.w sql callback malloc_ok
      rw [hres] at h hev
      simp only [Option.some.injEq, Prod.mk.injEq] at h
      obtain ⟨rfl, rfl⟩ := h
      rcases hev with ⟨_, hb, hev, slot, len, hw⟩ | ⟨_, hw, hev | hev⟩
      · simp only at hev hw
        subst hev hw
        exact Or.inr (Or.inl ⟨rfl, rfl, hb, rfl, idle_work_none s hf hb, by simp, rfl, rfl⟩)
      · simp only at hev hw
        subst hev hw
        exact Or.inl ⟨rfl, rfl, rfl, rfl, rfl, rfl, rfl⟩
      · simp only at hev hw
        subst hev hw
        exact Or.inl ⟨rfl, rfl, rfl, rfl, rfl, rfl, rfl⟩
  | step_statement statement callback =>
    simp only at h
    split at h
    · simp at h
    · cases hres : osi_step_statement s.w statement callback with
      | none => simp [hres] at h
      | some res =>
        obtain ⟨r, w1, ev1⟩ := res
        have hev := osi_step_statement_events _ _ _ _ _ _ hres
        rw [hres] at h
        simp only [Option.some.injEq, Prod.mk.injEq] at h
        obtain ⟨rfl, rfl⟩ := h
        rcases hev with ⟨_, hb, rfl, slot, rfl⟩ | ⟨_, rfl, rfl⟩
        · exact Or.inr (Or.inl ⟨rfl, rfl, hb, rfl, idle_work_none s hf hb, by simp, rfl, rfl⟩)
        · exact Or.inl ⟨rfl, rfl, rfl, rfl, rfl, rfl, rfl⟩
  | close_database callback =>
    simp only at h
    split at h
    · simp at h
    · rcases hres : osi_close_database s.w callback with ⟨r, w1, ev1⟩
      have hev := osi_close_database_events s.w callback
      rw [hres] at h hev
      simp only [Option.some.injEq, Prod.mk.injEq] at h
      obtain ⟨rfl, rfl⟩ := h
      rcases hev with ⟨_, hb, hev, hw⟩ | ⟨_, hw, hev⟩
      · simp only at hev hw
        subst hev hw
        exact Or.inr (Or.inl ⟨rfl, rfl, hb, rfl, idle_work_none s hf hb, by simp, rfl, rfl⟩)
      · simp only at hev hw
        subst hev hw
        exact Or.inl ⟨rfl, rfl, rfl, rfl, rfl, rfl, rfl⟩
  | finalize_statement statement =>
    simp only at h
    cases hres : osi_finalize_statement s.w statement with
    | none => simp [hres] at h
    | some res =>
      obtain ⟨r, w1, ev1⟩ := res
      obtain ⟨h1, h2, h3, h4, h5⟩ := osi_finalize_statement_events _ _ _ _ _ hres
      rw [hres] at h
      simp only [Option.some.injEq, Prod.mk.injEq] at h
      obtain ⟨rfl, rfl⟩ := h
      exact Or.inl ⟨rfl, rfl, h1, h3, h2, h4, h5⟩
  | worker a =>
    simp only at h
    split at h
    · simp at h
    · cases hres : database_worker a s.pc s.w with
      | none => simp [hres] at h
      | some res =>
        obtain ⟨pc1, w1, ev1⟩ := res
        rw [hres] at h
        simp only [Option.some.injEq, Prod.mk.injEq] at h
        obtain ⟨rfl, rfl⟩ := h
        refine Or.inr (Or.inr (Or.inl ?_))
        cases hpc : s.pc with
        | entry =>
          rw [hpc] at hres
          simp only [database_worker, Option.some.injEq, Prod.mk.injEq] at hres
          obtain ⟨rfl, rfl, rfl⟩ := hres
          exact ⟨⟨a, rfl⟩, rfl, rfl, rfl, rfl,
            Or.inr (Or.inr ⟨by simp, rfl, rfl, rfl⟩)⟩
        | top =>
          rw [hpc] at hres
          simp only [database_worker] at hres
          cases hw : s.w.d.work with
          | none =>
            simp only [hw, Option.some.injEq, Prod.mk.injEq] at hres
            obtain ⟨rfl, rfl, rfl⟩ := hres
            exact ⟨⟨a, rfl⟩, rfl, rfl, rfl, rfl,
              Or.inr (Or.inr ⟨by simp, rfl, rfl, hw⟩)⟩
          | some x =>
            simp only [hw, Option.some.injEq, Prod.mk.injEq] at hres
            obtain ⟨rfl, rfl, rfl⟩ := hres
            exact ⟨⟨a, rfl⟩, rfl, rfl, rfl, rfl,
              Or.inr (Or.inr ⟨by simp, rfl, rfl, hw⟩)⟩
        | wait =>
          rw [hpc] at hres
          simp only [database_worker, Option.some.injEq, Prod.mk.injEq] at hres
          obtain ⟨rfl, rfl, rfl⟩ := hres
          exact ⟨⟨a, rfl⟩, rfl, rfl, rfl, rfl,
            Or.inr (Or.inr ⟨by simp, rfl, rfl, rfl⟩)⟩
        | returned =>
          rw [hpc] at hres
          simp [database_worker] at hres
        | ran x =>
          rw [hpc] at hres
          simp only [database_worker] at hres
          split at hres
          · simp only [Option.some.injEq, Prod.mk.injEq] at hres
            obtain ⟨rfl, rfl, rfl⟩ := hres
            exact ⟨⟨a, rfl⟩, rfl, rfl, rfl, rfl, Or.inr (Or.inl ⟨x, rfl, rfl, rfl⟩)⟩
          · simp only [Option.some.injEq, Prod.mk.injEq] at hres
            obtain ⟨rfl, rfl, rfl⟩ := hres
            exact ⟨⟨a, rfl⟩, rfl, rfl, rfl, rfl, Or.inr (Or.inl ⟨x, rfl, rfl, rfl⟩)⟩
        | call x =>
          rw [hpc] at hres
          have hwork : s.w.d.work = some x := hf.2.2.2 x (Or.inl hpc)
          simp only [database_worker] at hres
          cases hrun : run_work a x s.w with
          | none => simp [hrun] at hres
          | some res =>
            obtain ⟨w2, ev2⟩ := res
            rw [hrun] at hres
            simp only [Option.some.injEq, Prod.mk.injEq] at hres
            obtain ⟨rfl, rfl, rfl⟩ := hres
            obtain ⟨h1, h2, h3, h4, h5⟩ := run_work_frame a x s.w w2 ev2 hrun
            exact ⟨⟨a, rfl⟩, h1, h2, h4, h5, Or.inl ⟨x, rfl, rfl, h3, hwork⟩⟩
  | completion cols errmsg =>
    simp only at h
    split at h
    · rename_i hwake
      cases hres : async_cb T cols errmsg s.w with
      | none => simp [hres] at h
      | some res =>
        obtain ⟨w1, ev1⟩ := res
        obtain ⟨slot, len, hw1⟩ := async_cb_fields _ _ _ _ _ _ hres
        obtain ⟨_, hpin, hsig⟩ := async_cb_events _ _ _ _ _ _ hres
        rw [hres] at h
        simp only [Option.some.injEq, Prod.mk.injEq] at h
        obtain ⟨rfl, rfl⟩ := h
        subst hw1
        exact Or.inr (Or.inr (Or.inr
          ⟨rfl, rfl, hf.1.2 (Or.inr hwake), rfl, rfl, hpin, hsig⟩))
    · simp at h

/-! ## Pins and runs of work functions along a run -/

theorem pins_from_append (p q r : Option ptr) (ev1 ev2 : List Event)
    (h1 : pins_from p ev1 q) (h2 : pins_from q ev2 r) : pins_from p (ev1 ++ ev2) r := by
  induction h1 with
  | done p => exact h2
  | lock c ev q _ ih => exact pins_from.lock c _ _ (ih h2)
  | unlock c ev q _ ih => exact pins_from.unlock c _ _ (ih h2)

theorem pins_step (s s1 : System) (act : Action) (ev : List Event)
    (h : step_effect s act s1 ev) :
    pins_from (pinned_callback s) (ev.filter Event.is_pin) (pinned_callback s1) := by
  unfold pinned_callback
  rcases h with ⟨_, _, h1, h2, _, h3, _⟩ | ⟨_, _, h1, h2, _, _, h3, _⟩ |
    ⟨_, h1, h2, h3, _⟩ | ⟨_, _, h1, h2, _, h3, _⟩
  · rw [h1, h2, h3]; exact pins_from.done _
  · rw [h3, if_neg (by simp [h1]), if_pos (by simp [h2])]
    exact pins_from.lock _ _ _ (pins_from.done _)
  · rw [h1, h2, h3]; exact pins_from.done _
  · rw [h3, if_pos h1, if_neg (by simp [h2])]
    exact pins_from.unlock _ _ _ (pins_from.done _)

theorem count_step (s s1 : System) (act : Action) (ev : List Event) (hf : flag_invariant s)
    (h : step_effect s act s1 ev) :
    (if is_accepted (s, act, ev) then 1 else 0) + pending_work s
      = (if is_run (s, act, ev) then 1 else 0) + pending_work s1 := by
  unfold pending_work is_accepted
  simp only
  rcases h with ⟨h0, h1, _, _, h2, _, h3⟩ | ⟨h0, h1, _, _, h2, h3, _, h4⟩ |
    ⟨⟨a, rfl⟩, _, _, _, h1, h2⟩ | ⟨h0, h1, _, _, h2, _, h3⟩
  · rw [h0, h1, h2, h3]
  · have hpc : is_ran s.pc = false := by
      cases hp : s.pc with
      | ran x =>
        have := hf.2.2.2 x (Or.inr hp)
        rw [h2] at this
        simp at this
      | _ => rfl
    rw [h0, h1, h2, h4, hpc]
    cases hw : s1.w.d.work with
    | none => exact absurd hw h3
    | some x => simp
  · rw [h1]
    rcases h2 with ⟨x, hp, hp1, hw1, hw⟩ | ⟨x, hp, hp1, hw1⟩ | ⟨hp, hr, hr1, hw1⟩
    · simp [is_run, hp, hp1, hw1, hw, is_ran]
    · simp [is_run, hp, hp1, hw1, is_ran]
    · have hrun : is_run (s, Action.worker a, ev) = false := by
        unfold is_run
        simp only
        cases hpc : s.pc with
        | call x => exact absurd hpc (hp x)
        | _ => rfl
      rw [hrun, hr, hr1, hw1]
  · rw [h0, h1, h2, h3]

theorem run_trace_effect (T : Int → Int) (acts : List Action) :
    ∀ (s s1 : System) (l : List Nat) (hist : List (System × Action × List Event)),
      Reachable T s l → run_trace T acts s = some (s1, hist) →
      pins_from (pinned_callback s) ((trace_events hist).filter Event.is_pin)
          (pinned_callback s1) ∧
        hist.countP is_accepted + pending_work s = hist.countP is_run + pending_work s1 := by
  induction acts with
  | nil =>
    intro s s1 l hist _ hr
    simp only [run_trace, Option.some.injEq, Prod.mk.injEq] at hr
    obtain ⟨rfl, rfl⟩ := hr
    exact ⟨pins_from.done _, rfl⟩
  | cons act acts ih =>
    intro s s1 l hist hreach hr
    simp only [run_trace] at hr
    cases hs : system_step T act s with
    | none => simp [hs] at hr
    | some res =>
      obtain ⟨s2, ev⟩ := res
      rw [hs] at hr
      simp only at hr
      cases hrest : run_trace T acts s2 with
      | none => simp [hrest] at hr
      | some res2 =>
        obtain ⟨s3, hist2⟩ := res2
        rw [hrest] at hr
        simp only [Option.some.injEq, Prod.mk.injEq] at hr
        obtain ⟨rfl, rfl⟩ := hr
        have hf := (reachable_invariant T s l hreach).2
        have heff := system_step_effect T act s s2 ev hf hs
        obtain ⟨ih1, ih2⟩ := ih s2 s3 _ hist2 (Reachable.step s s2 l act ev hreach hs) hrest
        refine ⟨?_, ?_⟩
        · have : trace_events ((s, act, ev) :: hist2) = ev ++ trace_events hist2 := by
            simp [trace_events]
          rw [this, List.filter_append]
          exact pins_from_append _ _ _ _ _ (pins_step s s2 act ev heff) ih1
        · have hc := count_step s s2 act ev hf heff
          rw [List.countP_cons, List.countP_cons]
          omega

/-- C11: an accepted submission (`osi_open_database`, `osi_prepare_statement`,
`osi_step_statement`, `osi_close_database`) makes exactly one pin call, on its
callback, which it stores for the completion; a submission that returns a
failure value makes no pin call, or, when `uv_queue_work` refuses the open
request, the pin of the callback followed at once by its unpin. Each
completion handler makes exactly one pin call, the unpin of the stored
callback, on every path (`open_cb` on all seven; `prepare_cb`, `step_cb` and
`close_cb` return for well-formed answers of the engine, a text that fails to
decode included, and whenever they return). Over every sequence of actions from
a reachable state the pin calls alternate: a callback is pinned only when none
is, the next pin call unpins that very callback, and at the end the callback
slot is pinned exactly when `busy` is set. -/
theorem callback_pinned_once (T : Int → Int) (s : System) (l : List Nat)
    (cols : List column_t) (errmsg : List Nat) (h : Reachable T s l)
    (hcols : ∀ c ∈ cols, column_ok c) (he : ∀ b ∈ errmsg, b < 256)
    (hl : errmsg.length ≤ INT_MAX) :
    (∀ filename flags callback malloc_ok strdup_ok queue_rc,
      ((osi_open_database filename flags callback malloc_ok strdup_ok queue_rc).1 = .Strue ∧
        (∃ r, (osi_open_database filename flags callback malloc_ok strdup_ok queue_rc).2.1
            = some r ∧ r.callback = callback) ∧
        (osi_open_database filename flags callback malloc_ok strdup_ok queue_rc).2.2.filter
          Event.is_pin = [.Slock_object callback]) ∨
      (Spairp (osi_open_database filename flags callback malloc_ok strdup_ok queue_rc).1
          = true ∧
        ((osi_open_database filename flags callback malloc_ok strdup_ok queue_rc).2.2.filter
            Event.is_pin = [] ∨
          (osi_open_database filename flags callback malloc_ok strdup_ok queue_rc).2.2.filter
            Event.is_pin = [.Slock_object callback, .Sunlock_object callback]))) ∧
    (∀ w sql callback malloc_ok,
      ((osi_prepare_statement T w sql callback malloc_ok).1 = .Strue ∧
        (osi_prepare_statement T w sql callback malloc_ok).2.1.d.callback = callback ∧
        (osi_prepare_statement T w sql callback malloc_ok).2.2.filter Event.is_pin
          = [.Slock_object callback]) ∨
      (Spairp (osi_prepare_statement T w sql callback malloc_ok).1 = true ∧
        (osi_prepare_statement T w sql callback malloc_ok).2.1 = w ∧
        (osi_prepare_statement T w sql callback malloc_ok).2.2.filter Event.is_pin = [])) ∧
    (∀ w statement callback r w1 ev, osi_step_statement w statement callback = some (r, w1, ev) →
      (r = .Strue ∧ w1.d.callback = callback ∧
        ev.filter Event.is_pin = [.Slock_object callback]) ∨
      (Spairp r = true ∧ w1 = w ∧ ev.filter Event.is_pin = [])) ∧
    (∀ w callback,
      ((osi_close_database w callback).1 = .Strue ∧
        (osi_close_database w callback).2.1.d.callback = callback ∧
        (osi_close_database w callback).2.2.filter Event.is_pin = [.Slock_object callback]) ∨
      (Spairp (osi_close_database w callback).1 = true ∧
        (osi_close_database w callback).2.1 = w ∧
        (osi_close_database w callback).2.2.filter Event.is_pin = [])) ∧
    (∀ r alloc async_rc mutex_rc cond_rc thread_rc,
      (open_cb r alloc async_rc mutex_rc cond_rc thread_rc).2.filter Event.is_pin
        = [.Sunlock_object r.callback]) ∧
    (∀ w, (∃ w1 ev, prepare_cb T errmsg w = some (w1, ev)) ∧
      (∃ w1 ev, step_cb T cols errmsg w = some (w1, ev)) ∧
      (∃ w1 ev, close_cb T errmsg w = some (w1, ev))) ∧
    (∀ w cols1 errmsg1 w1 ev,
      (prepare_cb T errmsg1 w = some (w1, ev) ∨ step_cb T cols1 errmsg1 w = some (w1, ev) ∨
        close_cb T errmsg1 w = some (w1, ev)) →
      ev.filter Event.is_pin = [.Sunlock_object w.d.callback]) ∧
    (∀ acts s1 hist, run_trace T acts s = some (s1, hist) →
      pins_from (pinned_callback s) ((trace_events hist).filter Event.is_pin)
        (pinned_callback s1)) := by
  refine ⟨?_, ?_, ?_, ?_, ?_, ?_, ?_, ?_⟩
  · intro filename flags callback malloc_ok strdup_ok queue_rc
    rcases osi_open_database_events filename flags callback malloc_ok strdup_ok queue_rc with
      ⟨h1, h2, h3⟩ | ⟨h1, _, h3 | h3⟩
    · exact Or.inl ⟨h1, h2, by rw [h3]; rfl⟩
    · exact Or.inr ⟨h1, Or.inl (by rw [h3]; rfl)⟩
    · exact Or.inr ⟨h1, Or.inr (by rw [h3]; rfl)⟩
  · intro w sql callback malloc_ok
    rcases osi_prepare_statement_events T w sql callback malloc_ok with
      ⟨h1, _, h3, slot, len, h4⟩ | ⟨h1, h2, h3 | h3⟩
    · exact Or.inl ⟨h1, by rw [h4], by rw [h3]; rfl⟩
    · exact Or.inr ⟨h1, h2, by rw [h3]; rfl⟩
    · exact Or.inr ⟨h1, h2, by rw [h3]; rfl⟩
  · intro w statement callback r w1 ev hr
    rcases osi_step_statement_events _ _ _ _ _ _ hr with ⟨h1, _, h3, slot, h4⟩ | ⟨h1, h2, h3⟩
    · exact Or.inl ⟨h1, by rw [h4], by rw [h3]; rfl⟩
    · exact Or.inr ⟨h1, h2, by rw [h3]; rfl⟩
  · intro w callback
    rcases osi_close_database_events w callback with ⟨h1, _, h3, h4⟩ | ⟨h1, h2, h3⟩
    · exact Or.inl ⟨h1, by rw [h4], by rw [h3]; rfl⟩
    · exact Or.inr ⟨h1, h2, by rw [h3]; rfl⟩
  · intro r alloc async_rc mutex_rc cond_rc thread_rc
    exact (open_cb_events r alloc async_rc mutex_rc cond_rc thread_rc).2.1
  · intro w
    obtain ⟨w1, ev, _, h1, _⟩ := step_cb_result T cols errmsg w hcols he hl
    exact ⟨prepare_cb_defined T errmsg w he hl, ⟨w1, ev, h1⟩, close_cb_defined T errmsg w he hl⟩
  · intro w cols1 errmsg1 w1 ev hr
    rcases hr with hr | hr | hr
    · exact (prepare_cb_events T errmsg1 w w1 ev hr).2.1
    · exact (step_cb_events T cols1 errmsg1 w w1 ev hr).2.1
    · exact (close_cb_events T errmsg1 w w1 ev hr).2.1
  · intro acts s1 hist hr
    exact (run_trace_effect T acts s s1 l hist h hr).1

/-- C11, witness: along `two_prepare_actions` from a freshly opened Database
the pin calls are the pin and the unpin of the first callback and the pin of
the second, whose prepare is still in flight. -/
theorem callback_pinned_once_witness :
    (run_trace (fun rc => rc) two_prepare_actions opened_system).map
        (fun r => (trace_events r.2).filter Event.is_pin)
      = some [.Slock_object (.procedure 1), .Sunlock_object (.procedure 1),
          .Slock_object (.procedure 2)] ∧
    ∀ s1 hist, run_trace (fun rc => rc) two_prepare_actions opened_system = some (s1, hist) →
      pins_from (pinned_callback opened_system) ((trace_events hist).filter Event.is_pin)
        (pinned_callback s1) :=
  ⟨rfl, (callback_pinned_once (fun rc => rc) opened_system [] bad_text_row [0]
    (reachable_opened_system _) (by decide) (by decide) (by decide)).2.2.2.2.2.2.2
      two_prepare_actions⟩

/-- C19: in every reachable state, while the worker stands right before or
right after the call of a work function the work slot holds that function and
`busy` is set, so that each of the three submissions is refused with EBUSY and
changes nothing; the call itself leaves the slot as it is and sends no wake;
the step after the call takes the mutex, clears the slot and sends the wake
before it releases the mutex (in the wait or on leaving the loop), so that a
pending wake finds the slot empty; no other action empties a set slot; a
submission is accepted only with the slot empty and the worker at neither of
the two points; and along every sequence of actions, wakes of the wait without
a submission included, the number of calls of work functions is the number of
accepted submissions, less the one not yet run at the end, plus the one not yet
run at the start. -/
theorem work_slot_protocol (T : Int → Int) (s : System) (l : List Nat)
    (h : Reachable T s l) :
    (∀ x, s.pc = .call x ∨ s.pc = .ran x →
      s.w.d.work = some x ∧ s.w.d.busy ≠ 0 ∧
      (∀ sql callback malloc_ok, osi_prepare_statement T s.w sql callback malloc_ok
        = (make_error_pair "osi_prepare_statement" UV_EBUSY, s.w, [])) ∧
      (∀ statement callback res, osi_step_statement s.w statement callback = some res →
        res = (make_error_pair "osi_step_statement" UV_EBUSY, s.w, [])) ∧
      (∀ callback, osi_close_database s.w callback
        = (make_error_pair "osi_close_database" UV_EBUSY, s.w, []))) ∧
    (∀ a x pc1 w1 ev, database_worker a (.call x) s.w = some (pc1, w1, ev) →
      pc1 = .ran x ∧ w1.d.work = s.w.d.work ∧ ev.any Event.is_async_send = false) ∧
    (∀ a x, ∃ pc1 last,
      database_worker a (.ran x) s.w
        = some (pc1, { s.w with d := { s.w.d with work := none } },
            [.uv_mutex_lock, .uv_async_send, last]) ∧
      ((pc1 = .wait ∧ last = .uv_cond_wait) ∨ (pc1 = .returned ∧ last = .uv_mutex_unlock))) ∧
    (s.wake = true → s.w.d.work = none) ∧
    (∀ act s1 ev, system_step T act s = some (s1, ev) → s.w.d.work ≠ none →
      s1.w.d.work = none → ∃ a x, act = .worker a ∧ s.pc = .ran x) ∧
    (∀ act s1 ev, system_step T act s = some (s1, ev) → is_accepted (s, act, ev) = true →
      s.w.d.work = none ∧ s1.w.d.work ≠ none ∧ ∀ x, s.pc ≠ .call x ∧ s.pc ≠ .ran x) ∧
    (∀ acts s1 hist, run_trace T acts s = some (s1, hist) →
      hist.countP is_accepted + pending_work s = hist.countP is_run + pending_work s1 ∧
      hist.countP is_run ≤ hist.countP is_accepted + pending_work s) := by
  obtain ⟨_, hf⟩ := reachable_invariant T s l h
  refine ⟨?_, ?_, ?_, ?_, ?_, ?_, ?_⟩
  · intro x hx
    have hwork := hf.2.2.2 x hx
    have hb : s.w.d.busy ≠ 0 := hf.1.2 (Or.inl (by rw [hwork]; simp))
    refine ⟨hwork, hb, ?_, ?_, ?_⟩
    · intro sql callback malloc_ok
      simp [osi_prepare_statement, hb]
    · intro statement callback res hres
      unfold osi_step_statement at hres
      split at hres
      · simp at hres
      · rw [if_pos hb] at hres
        simp only [Option.some.injEq] at hres
        exact hres.symm
    · intro callback
      simp [osi_close_database, hb]
  · intro a x pc1 w1 ev hw
    simp only [database_worker] at hw
    cases hrun : run_work a x s.w with
    | none => simp [hrun] at hw
    | some res =>
      obtain ⟨w2, ev2⟩ := res
      rw [hrun] at hw
      simp only [Option.some.injEq, Prod.mk.injEq] at hw
      obtain ⟨rfl, rfl, rfl⟩ := hw
      exact ⟨rfl, (run_work_frame a x s.w w2 ev2 hrun).2.2.1, run_work_events a x s.w w2 ev2 hrun⟩
  · intro a x
    by_cases hc : x = .close_worker ∧ s.w.d.sqlite_rc = SQLITE_OK
    · exact ⟨.returned, .uv_mutex_unlock, by simp only [database_worker, hc, and_self, if_true],
        Or.inr ⟨rfl, rfl⟩⟩
    · exact ⟨.wait, .uv_cond_wait, by simp only [database_worker, hc, if_false],
        Or.inl ⟨rfl, rfl⟩⟩
  · exact hf.2.2.1
  · intro act s1 ev hs hne hnone
    rcases system_step_effect T act s s1 ev hf hs with ⟨_, _, _, _, h2, _⟩ |
      ⟨_, _, _, _, h2, _⟩ | ⟨⟨a, ha⟩, _, _, _, _, h2⟩ | ⟨_, _, _, _, h2, _⟩
    · rw [h2] at hnone; exact absurd hnone hne
    · exact absurd h2 hne
    · rcases h2 with ⟨x, _, _, hw1, _⟩ | ⟨x, hp, _⟩ | ⟨_, _, _, hw1⟩
      · rw [hw1] at hnone; exact absurd hnone hne
      · exact ⟨a, x, ha, hp⟩
      · rw [hw1] at hnone; exact absurd hnone hne
    · rw [h2] at hnone; exact absurd hnone hne
  · intro act s1 ev hs hacc
    unfold is_accepted at hacc
    simp only at hacc
    rcases system_step_effect T act s s1 ev hf hs with ⟨_, _, _, _, _, _, h3⟩ |
      ⟨_, _, _, _, h2, h3, _⟩ | ⟨_, _, _, _, h3, _⟩ | ⟨_, _, _, _, _, _, h3⟩
    · rw [h3] at hacc; simp at hacc
    · refine ⟨h2, h3, fun x => ⟨fun hp => ?_, fun hp => ?_⟩⟩
      · have := hf.2.2.2 x (Or.inl hp)
        rw [h2] at this; simp at this
      · have := hf.2.2.2 x (Or.inr hp)
        rw [h2] at this; simp at this
    · rw [h3] at hacc; simp at hacc
    · rw [h3] at hacc; simp at hacc
  · intro acts s1 hist hr
    have := (run_trace_effect T acts s s1 l hist h hr).2
    exact ⟨this, by omega⟩

/-- C19, witness: along `spurious_wake_actions` from a freshly opened Database
one submission is accepted and one work function is called, although the wait
of the worker ends twice after that. -/
theorem work_slot_protocol_witness :
    (run_trace (fun rc => rc) spurious_wake_actions opened_system).map
        (fun r => (r.2.countP is_accepted, r.2.countP is_run, pending_work r.1))
      = some (1, 1, 0) ∧
    ∀ s1 hist, run_trace (fun rc => rc) spurious_wake_actions opened_system = some (s1, hist) →
      hist.countP is_accepted + pending_work opened_system
          = hist.countP is_run + pending_work s1 ∧
        hist.countP is_run ≤ hist.countP is_accepted + pending_work opened_system :=
  ⟨rfl, (work_slot_protocol (fun rc => rc) opened_system []
    (reachable_opened_system _)).2.2.2.2.2.2 spurious_wake_actions⟩

/-! ## The busy flag, the work slot and the callback slot -/

theorem database_worker_frame (a : answer_t) (pc pc1 : worker_pc) (w w1 : World)
    (ev : List Event) (h : database_worker a pc w = some (pc1, w1, ev)) :
    w1.d.busy = w.d.busy ∧ w1.d.callback = w.d.callback := by
  cases pc with
  | entry =>
    simp only [database_worker, Option.some.injEq, Prod.mk.injEq] at h
    obtain ⟨_, rfl, _⟩ := h
    exact ⟨rfl, rfl⟩
  | top =>
    simp only [database_worker] at h
    split at h <;>
    · simp only [Option.some.injEq, Prod.mk.injEq] at h
      obtain ⟨_, rfl, _⟩ := h
      exact ⟨rfl, rfl⟩
  | call x =>
    simp only [database_worker] at h
    cases hrun : run_work a x w with
    | none => simp [hrun] at h
    | some res =>
      obtain ⟨w2, ev2⟩ := res
      rw [hrun] at h
      simp only [Option.some.injEq, Prod.mk.injEq] at h
      obtain ⟨_, rfl, _⟩ := h
      obtain ⟨h1, h2, _⟩ := run_work_frame a x w w2 ev2 hrun
      exact ⟨h1, h2⟩
  | ran x =>
    simp only [database_worker] at h
    split at h <;>
    · simp only [Option.some.injEq, Prod.mk.injEq] at h
      obtain ⟨_, rfl, _⟩ := h
      exact ⟨rfl, rfl⟩
  | wait =>
    simp only [database_worker, Option.some.injEq, Prod.mk.injEq] at h
    obtain ⟨_, rfl, _⟩ := h
    exact ⟨rfl, rfl⟩
  | returned => simp [database_worker] at h

theorem real_callback_step (T : Int → Int) (act : Action) (s s1 : System) (ev : List Event)
    (hr : real_callback act = true)
    (hc : s.w.d.busy ≠ 0 → s.w.d.callback ≠ .Svoid)
    (h : system_step T act s = some (s1, ev)) :
    s1.w.d.busy ≠ 0 → s1.w.d.callback ≠ .Svoid := by
  unfold system_step at h
  by_cases hclosed : s.closed = true
  · simp [hclosed] at h
  simp only [hclosed, Bool.false_eq_true, if_false] at h
  cases act with
  | prepare_statement sql callback malloc_ok =>
    have hcb : callback ≠ .Svoid := is_Svoid_false _ (by simpa [real_callback] using hr)
    simp only at h
    split at h
    · simp at h
    · rcases hres : osi_prepare_statement T s.w sql callback malloc_ok with ⟨r, w1, ev1⟩
      have hfields := osi_prepare_statement_fields T s.w sql callback malloc_ok
      rw [hres] at h hfields
      simp only [Option.some.injEq, Prod.mk.injEq] at h
      obtain ⟨rfl, _⟩ := h
      rcases hfields with rfl | ⟨_, slot, len, rfl⟩
      · exact hc
      · exact fun _ => hcb
  | step_statement statement callback =>
    have hcb : callback ≠ .Svoid := is_Svoid_false _ (by simpa [real_callback] using hr)
    simp only at h
    split at h
    · simp at h
    · cases hres : osi_step_statement s.w statement callback with
      | none => simp [hres] at h
      | some res =>
        obtain ⟨r, w1, ev1⟩ := res
        have hfields := osi_step_statement_fields _ _ _ _ _ _ hres
        rw [hres] at h
        simp only [Option.some.injEq, Prod.mk.injEq] at h
        obtain ⟨rfl, _⟩ := h
        rcases hfields with rfl | ⟨_, slot, rfl⟩
        · exact hc
        · exact fun _ => hcb
  | close_database callback =>
    have hcb : callback ≠ .Svoid := is_Svoid_false _ (by simpa [real_callback] using hr)
    simp only at h
    split at h
    · simp at h
    · rcases hres : osi_close_database s.w callback with ⟨r, w1, ev1⟩
      have hfields := osi_close_database_fields s.w callback
      rw [hres] at h hfields
      simp only [Option.some.injEq, Prod.mk.injEq] at h
      obtain ⟨rfl, _⟩ := h
      rcases hfields with rfl | ⟨_, rfl⟩
      · exact hc
      · exact fun _ => hcb
  | finalize_statement statement =>
    simp only at h
    cases hres : osi_finalize_statement s.w statement with
    | none => simp [hres] at h
    | some res =>
      obtain ⟨r, w1, ev1⟩ := res
      obtain ⟨h1, _, h3, _⟩ := osi_finalize_statement_events _ _ _ _ _ hres
      rw [hres] at h
      simp only [Option.some.injEq, Prod.mk.injEq] at h
      obtain ⟨rfl, _⟩ := h
      simp only [h1, h3]
      exact hc
  | worker a =>
    simp only at h
    split at h
    · simp at h
    · cases hres : database_worker a s.pc s.w with
      | none => simp [hres] at h
      | some res =>
        obtain ⟨pc1, w1, ev1⟩ := res
        obtain ⟨h1, h2⟩ := database_worker_frame _ _ _ _ _ _ hres
        rw [hres] at h
        simp only [Option.some.injEq, Prod.mk.injEq] at h
        obtain ⟨rfl, _⟩ := h
        simp only [h1, h2]
        exact hc
  | completion cols errmsg =>
    simp only at h
    split at h
    · cases hres : async_cb T cols errmsg s.w with
      | none => simp [hres] at h
      | some res =>
        obtain ⟨w1, ev1⟩ := res
        obtain ⟨slot, len, hw1⟩ := async_cb_fields _ _ _ _ _ _ hres
        rw [hres] at h
        simp only [Option.some.injEq, Prod.mk.injEq] at h
        obtain ⟨rfl, _⟩ := h
        subst hw1
        intro hb
        exact absurd rfl hb
    · simp at h

theorem real_callback_run (T : Int → Int) (acts : List Action) :
    ∀ (s s1 : System) (l l1 : List Nat), (∀ act ∈ acts, real_callback act = true) →
      (s.w.d.busy ≠ 0 → s.w.d.callback ≠ .Svoid) →
      run_actions T acts (s, l) = some (s1, l1) →
      (s1.w.d.busy ≠ 0 → s1.w.d.callback ≠ .Svoid) := by
  induction acts with
  | nil =>
    intro s s1 l l1 _ hc hr
    simp only [run_actions, Option.some.injEq, Prod.mk.injEq] at hr
    obtain ⟨rfl, _⟩ := hr
    exact hc
  | cons act acts ih =>
    intro s s1 l l1 hreal hc hr
    simp only [run_actions] at hr
    cases hs : system_step T act s with
    | none => simp [hs] at hr
    | some res =>
      obtain ⟨s2, ev⟩ := res
      rw [hs] at hr
      exact ih s2 s1 _ l1 (fun a ha => hreal a (List.mem_cons_of_mem _ ha))
        (real_callback_step T act s s2 ev (hreal act (List.mem_cons_self _ _)) hc hs) hr

/-- C10, counterexample: two reachable states in which `busy` is set. In
`cleared_system` (a close is submitted, the worker runs it and clears the work
slot) the work slot is empty although a callback is pinned: the completion
handler has not run yet. In `void_callback_system` (a close is submitted with
the void sentinel as its callback, which no submission inspects) the work slot
is set and the callback slot holds the void sentinel. -/
theorem busy_without_work_or_callback :
    (Reachable (fun rc => rc) cleared_system [] ∧ cleared_system.w.d.busy ≠ 0 ∧
      cleared_system.w.d.callback ≠ .Svoid ∧ cleared_system.w.d.work = none) ∧
    (Reachable (fun rc => rc) void_callback_system [] ∧
      void_callback_system.w.d.busy ≠ 0 ∧ void_callback_system.w.d.work ≠ none ∧
      void_callback_system.w.d.callback = .Svoid) :=
  ⟨⟨reachable_run (fun rc => rc) refused_close_actions opened_system cleared_system [] []
      (reachable_opened_system _) rfl,
    by decide, by simp [cleared_system], rfl⟩,
   ⟨reachable_run (fun rc => rc) [.close_database .Svoid] opened_system void_callback_system
      [] [] (reachable_opened_system _) rfl,
    by decide, by simp [void_callback_system], rfl⟩⟩

/-- C10, as amended: in every reachable state `busy` is set if and only if the
work slot is non-empty or the worker has cleared it and its async wake has not
been dispatched yet; a non-empty work slot implies `busy`; while `busy` is
clear the callback slot holds the void sentinel; and along every sequence of
actions in which the host hands in no void sentinel as a callback, from a state
in which `busy` implies a callback slot other than the void sentinel (a
freshly opened Database is one), `busy` is set if and only if the callback slot
is not the void sentinel. -/
theorem busy_iff_task_in_flight (T : Int → Int) (s : System) (l : List Nat)
    (h : Reachable T s l) :
    (s.w.d.busy ≠ 0 ↔ (s.w.d.work ≠ none ∨ s.wake = true)) ∧
      (s.w.d.work ≠ none → s.w.d.busy ≠ 0) ∧
      (s.w.d.busy = 0 → s.w.d.callback = .Svoid) ∧
      (∀ acts s1 l1, (∀ act ∈ acts, real_callback act = true) →
        (s.w.d.busy ≠ 0 → s.w.d.callback ≠ .Svoid) →
        run_actions T acts (s, l) = some (s1, l1) →
        (s1.w.d.busy ≠ 0 ↔ s1.w.d.callback ≠ .Svoid)) := by
  obtain ⟨_, f1, f2, _, _⟩ := reachable_invariant T s l h
  refine ⟨f1, fun hw => f1.2 (Or.inl hw), f2, ?_⟩
  intro acts s1 l1 hreal hc hr
  have h1 := reachable_run T acts s s1 l l1 h hr
  obtain ⟨_, _, g2, _, _⟩ := reachable_invariant T s1 l1 h1
  refine ⟨real_callback_run T acts s s1 l l1 hreal hc hr, fun hne hb => ?_⟩
  exact hne (g2 hb)

/-- C10, witness: the invariant in `cleared_system`, which is reached from the
freshly opened Database by actions with the callback `procedure 1`. -/
theorem busy_iff_task_in_flight_witness :
    Reachable (fun rc => rc) cleared_system [] ∧
      ((cleared_system.w.d.busy ≠ 0 ↔
          (cleared_system.w.d.work ≠ none ∨ cleared_system.wake = true)) ∧
        (cleared_system.w.d.work ≠ none → cleared_system.w.d.busy ≠ 0)) ∧
      (cleared_system.w.d.busy ≠ 0 ↔ cleared_system.w.d.callback ≠ .Svoid) :=
  have h : Reachable (fun rc => rc) cleared_system [] :=
    reachable_run (fun rc => rc) refused_close_actions opened_system cleared_system [] []
      (reachable_opened_system _) rfl
  ⟨h, ⟨(busy_iff_task_in_flight (fun rc => rc) cleared_system [] h).1,
      (busy_iff_task_in_flight (fun rc => rc) cleared_system [] h).2.1⟩,
    (busy_iff_task_in_flight (fun rc => rc) opened_system [] (reachable_opened_system _)).2.2.2
      refused_close_actions cleared_system [] (by decide)
      (fun hb => absurd rfl hb) rfl⟩

end Swish
